import Mathlib

/-!
# Verification of the Pegasus DAX3 workflow-graph model and codec

Shallow embedding of `src/lib/python/Pegasus/DAX3.py` (Python 2):

* The entity model (`File`/`Executable`, `Profile`, `Metadata`, `PFN`,
  `Transformation`, `Job`/`DAG`/`DAX`, `Dependency`, `ADAG`).
* The encoder (`writeXML` / the `toXML` family), modelled at the level of the
  SAX event stream it produces: the external XML tokenizer is out of scope, so
  the encoder here emits the sequence of element-start / character / element-end
  events that `xml.sax` would deliver for the generated text.  XML comments,
  the `<?xml?>` preamble and inter-element indentation whitespace are omitted
  from the event stream: comments and the preamble produce no handler events at
  all, and whitespace character runs are only ever delivered with a parent
  element for which `DAXHandler.characters` is a no-op.
* The decoder (`DAXHandler` + `parseString`), as a step function over the same
  events.

Python object identity matters to the source (the dependency `lookup` dict is
keyed by job object identity; `filemap` aliases entities into catalogs and
`uses` lists; `lastProfile` et al. mutate objects after they were attached), so
mutable heap objects are modelled arena-style: a `Store` holds the entities and
references are indices (`Nat`) into the arenas.  Python exceptions are modelled
with `Except`.
-/

set_option linter.unusedVariables false

deriving instance DecidableEq for Except

namespace DAX3

/-- Python values that flow through the attribute fields of the model: `None`,
booleans, ints and strings.  (Programmatic callers pass `True`/`False`/ints,
the decoder passes strings obtained from `attrs.get`, and `None` stands for an
absent value.) -/
inductive PyV where
  | pnone
  | pbool (b : Bool)
  | pint (n : Int)
  | pstr (s : String)
  deriving Repr, DecidableEq

/-- Python truthiness: `None`, `False`, `0` and `""` are falsy. -/
def PyV.truthy : PyV → Bool
  | .pnone => false
  | .pbool b => b
  | .pint n => n != 0
  | .pstr s => s != ""

/-- Python `unicode(x)` / `"%s" % x`: `None` renders as `"None"`,
`True`/`False` capitalised. -/
def PyV.toStr : PyV → String
  | .pnone => "None"
  | .pbool b => if b then "True" else "False"
  | .pint n => toString n
  | .pstr s => s

/-- ASCII lower-casing of one character: on characters below 128 this is
exactly Python `unicode.lower`, and it is the identity elsewhere (Python
also lower-cases some non-ASCII letters, so the model is only faithful on
ASCII — the round-trip hypotheses (`OverrideOK`) restrict every string the
encoder lower-cases to ASCII). -/
def charLower (c : Char) : Char :=
  if 'A' ≤ c ∧ c ≤ 'Z' then Char.ofNat (c.toNat + 32) else c

/-- `s.lower()`, faithful on ASCII strings. -/
def strLower (s : String) : String := String.mk (s.data.map charLower)

/-- Python `unicode(x).lower()` as used by `Use.toXML` for the
optional/register/transfer attributes. -/
def PyV.toStrLower (v : PyV) : String := strLower v.toStr

/-- Python `a or b`: returns `a` when `a` is truthy, else `b`. -/
def pyOr (a b : PyV) : PyV := if a.truthy then a else b

/-- `"%s" % x` for an optional string (`None` renders as `"None"`). -/
def optStr : Option String → String
  | none => "None"
  | some s => s

/-- Python truthiness of an optional string (`None` and `""` are falsy);
used for the `if self.namespace:`-style attribute guards. -/
def optTruthy : Option String → Bool
  | none => false
  | some s => s != ""

/-- Errors raised by the Python code (constructors and the decoder). -/
inductive DErr where
  /-- `raise ValueError, msg` (constructors call this on a missing name). -/
  | valueError (msg : String)
  /-- `raise Exception(...)` for an element under an unsupported parent;
  carries the element kind and the offending parent (`None` possible). -/
  | context (element : String) (parent : Option String)
  /-- The decoder's unknown-element branch executes
  `raise Exception("Unrecognized element %s" % name)` where the local `name`
  is unbound in that branch (it is only assigned in other branches of the
  dispatch), so Python raises `UnboundLocalError` instead. -/
  | unboundLocalName
  /-- `KeyError`: `self.jobmap[ref]` with an unknown id. -/
  | keyError (k : String)
  /-- `AttributeError`: method call or attribute access on `None`, or a call
  to a method the class does not define (`Transformation.addMetadata`). -/
  | attributeError (msg : String)
  /-- `IndexError`: `self.elements[0]` on an empty list. -/
  | indexError
  /-- `TypeError`: e.g. `None += [...]`, `*None` argument unpacking, or a
  `%d` format applied to a non-number. -/
  | typeError (msg : String)
  deriving Repr, DecidableEq

/-- `class Profile`: `(namespace, key, value)`.  The decoder constructs
profiles with attribute values (`Option String`) and accumulates `value` from
character content, so `namespace`/`key` are optional strings and `value` a
string. -/
structure Profile where
  ns : Option String
  key : Option String
  value : String
  deriving Repr, DecidableEq

/-- `class Metadata`: `(key, type, value)`. -/
structure Metadata where
  key : Option String
  type_ : Option String
  value : String
  deriving Repr, DecidableEq

/-- `class PFN`: url, site, profiles (profile arena references).  The
programmatic default for `site` is `"local"`; the decoder passes
`attrs.get("site")`, which may be `None`. -/
structure PFN where
  url : Option String
  site : Option String
  profiles : List Nat
  deriving Repr, DecidableEq

/-- `class CatalogType` and its two subclasses `File` and `Executable`,
merged into one entity type with an `isExe` discriminator (Python dispatches
on the dynamic class).  `profiles`, `metadata`, `pfns` hold arena references.
The Executable-only fields are `none` on plain files. -/
structure FileE where
  name : String
  link : PyV
  register : PyV
  transfer : PyV
  optional : PyV
  isExe : Bool
  ns : Option String
  version : Option String
  arch : Option String
  os : Option String
  osrelease : Option String
  osversion : Option String
  glibc : Option String
  profiles : List Nat
  metadata : List Nat
  pfns : List Nat
  deriving Repr, DecidableEq

instance : Inhabited FileE :=
  ⟨⟨"", .pnone, .pnone, .pnone, .pnone, false, none, none, none, none, none,
    none, none, [], [], []⟩⟩

/-- `CatalogType.__init__` without the subclass extras: `name is None` raises
`ValueError, 'name required'`; any other name (including the empty string) is
accepted. -/
def CatalogType.init (name : Option String) (link register transfer optional : PyV) :
    Except DErr FileE :=
  match name with
  | none => .error (.valueError "name required")
  | some n =>
      .ok { name := n, link := link, register := register, transfer := transfer,
            optional := optional, isExe := false, ns := none, version := none,
            arch := none, os := none, osrelease := none, osversion := none,
            glibc := none, profiles := [], metadata := [], pfns := [] }

/-- `File.__init__` (defaults: `link=None, register=False, transfer=False,
optional=None`); delegates to `CatalogType.__init__`. -/
def File.init (name : Option String) (link : PyV := .pnone)
    (register : PyV := .pbool false) (transfer : PyV := .pbool false)
    (optional : PyV := .pnone) : Except DErr FileE :=
  CatalogType.init name link register transfer optional

/-- `Executable.__init__` (defaults: `link=Link.INPUT, register=False,
transfer=True, optional=None`, all extra fields `None`). -/
def Executable.init (name : Option String) (link : PyV := .pstr "input")
    (register : PyV := .pbool false) (transfer : PyV := .pbool true)
    (optional : PyV := .pnone)
    (ns : Option String := none) (version : Option String := none)
    (arch : Option String := none) (os : Option String := none)
    (osrelease : Option String := none) (osversion : Option String := none)
    (glibc : Option String := none) : Except DErr FileE := do
  let f ← CatalogType.init name link register transfer optional
  .ok
    { f with
      isExe := true, ns := ns, version := version, arch := arch,
      os := os, osrelease := osrelease, osversion := osversion, glibc := glibc }

/-- `class Use`: a reference to a `FileE` (arena index) plus the four optional
job-level overrides, stored exactly as passed.  (The `file is None` check of
`Use.__init__` is unrepresentable here because the reference is a `Nat`.) -/
structure Use where
  file : Nat
  link : PyV
  optional : PyV
  register : PyV
  transfer : PyV
  deriving Repr, DecidableEq

/-- An argument-list token of `AbstractJob.arguments`: Python stores either a
string or a `File` object (by reference). -/
inductive Arg where
  | lit (s : String)
  | file (r : Nat)
  deriving Repr, DecidableEq

/-- The three concrete node classes deriving from `AbstractJob`. -/
inductive NodeKind where
  | job
  | dag
  | dax
  deriving Repr, DecidableEq

/-- `class AbstractJob` plus the subclass extras (`Job.namespace/version`;
`DAG`/`DAX` leave them `None`).  `profiles` holds profile arena references,
`stdin`/`stdout`/`stderr` hold file arena references, `notifications` holds
`(when, what)` pairs (the decoder's `when` comes from `attrs.get`). -/
structure JobE where
  kind : NodeKind
  name : String
  id : Option String
  node_label : Option String
  ns : Option String
  version : Option String
  arguments : List Arg
  profiles : List Nat
  used_files : List Use
  notifications : List (Option String × String)
  stdin : Option Nat
  stdout : Option Nat
  stderr : Option Nat
  deriving Repr, DecidableEq

instance : Inhabited JobE :=
  ⟨⟨.job, "", none, none, none, none, [], [], [], [], none, none, none⟩⟩

/-- `AbstractJob.__init__`: `name is None` raises `ValueError, 'name
required'`; otherwise all lists start empty and the stdio slots `None`. -/
def AbstractJob.init (kind : NodeKind) (name : Option String)
    (id : Option String) (node_label : Option String) : Except DErr JobE :=
  match name with
  | none => .error (.valueError "name required")
  | some n =>
      .ok { kind := kind, name := n, id := id, node_label := node_label,
            ns := none, version := none, arguments := [], profiles := [],
            used_files := [], notifications := [], stdin := none,
            stdout := none, stderr := none }

/-- `Job.__init__` with a string (or `None`) name: sets namespace/version from
the keyword arguments when truthy. -/
def Job.init (name : Option String) (id : Option String := none)
    (ns : Option String := none) (version : Option String := none)
    (node_label : Option String := none) : Except DErr JobE := do
  let j ← AbstractJob.init .job name id node_label
  .ok
    { j with
      ns := if optTruthy ns then ns else none,
      version := if optTruthy version then version else none }

/-- `DAX.__init__` / `DAG.__init__` with a string (or `None`) name (the
decoder's case: `isinstance(name, File)` is false). -/
def SubWf.init (kind : NodeKind) (name : Option String)
    (id : Option String := none) (node_label : Option String := none) :
    Except DErr JobE :=
  AbstractJob.init kind name id node_label

/-- `class Dependency`: one record per child (job arena reference; `None`
possible when the decoder sees a `parent` element with no open `child`), with
the ordered `(parent, edge_label)` list. -/
structure Dep where
  child : Option Nat
  parents : List (Nat × Option String)
  deriving Repr, DecidableEq

/-- `class ADAG`: the graph aggregate.  `jobs`, `files`, `executables`,
`transformations` hold arena references in insertion order; `sequence` is the
id-allocation counter (starts at 1); `dependencies` is the ordered list of
dependency records.  (The `lookup` dict maps a child to its record and a child
is a key of `lookup` iff a record with that child is in `dependencies`, so it
is modelled by searching `dependencies` for the child.) -/
structure ADAG where
  name : Option String
  count : PyV
  index : PyV
  sequence : Nat
  jobs : List Nat
  files : List Nat
  executables : List Nat
  dependencies : List Dep
  transformations : List Nat
  deriving Repr, DecidableEq

/-- `ADAG.__init__`. -/
def ADAG.init (name : Option String) (count : PyV := .pnone)
    (index : PyV := .pnone) : ADAG :=
  { name := name, count := count, index := index, sequence := 1, jobs := [],
    files := [], executables := [], dependencies := [], transformations := [] }

/-- `class Transformation` (string-name construction, the decoder's case):
name/namespace/version plus the used-files list. -/
structure TransE where
  name : Option String
  ns : Option String
  version : Option String
  used_files : List Use
  deriving Repr, DecidableEq

instance : Inhabited TransE := ⟨⟨none, none, none, []⟩⟩

/-- `Transformation.__init__` with a string (or `None`) name. -/
def Transformation.init (name : Option String) (ns : Option String := none)
    (version : Option String := none) : TransE :=
  { name := name, ns := if optTruthy ns then ns else none,
    version := if optTruthy version then version else none, used_files := [] }

/-- The heap: one arena per mutable object class.  References are indices. -/
structure Store where
  files : List FileE
  jobs : List JobE
  trans : List TransE
  profiles : List Profile
  metadatas : List Metadata
  pfns : List PFN
  deriving Repr, DecidableEq

def Store.empty : Store := ⟨[], [], [], [], [], []⟩

def Store.getFile (st : Store) (r : Nat) : FileE := st.files.getD r default
def Store.getJob (st : Store) (r : Nat) : JobE := st.jobs.getD r default
def Store.getTrans (st : Store) (r : Nat) : TransE := st.trans.getD r default
def Store.getProfile (st : Store) (r : Nat) : Profile :=
  st.profiles.getD r ⟨none, none, ""⟩
def Store.getMetadata (st : Store) (r : Nat) : Metadata :=
  st.metadatas.getD r ⟨none, none, ""⟩
def Store.getPFN (st : Store) (r : Nat) : PFN := st.pfns.getD r ⟨none, none, []⟩

def Store.allocFile (st : Store) (f : FileE) : Store × Nat :=
  ({ st with files := st.files ++ [f] }, st.files.length)
def Store.allocJob (st : Store) (j : JobE) : Store × Nat :=
  ({ st with jobs := st.jobs ++ [j] }, st.jobs.length)
def Store.allocTrans (st : Store) (t : TransE) : Store × Nat :=
  ({ st with trans := st.trans ++ [t] }, st.trans.length)
def Store.allocProfile (st : Store) (p : Profile) : Store × Nat :=
  ({ st with profiles := st.profiles ++ [p] }, st.profiles.length)
def Store.allocMetadata (st : Store) (m : Metadata) : Store × Nat :=
  ({ st with metadatas := st.metadatas ++ [m] }, st.metadatas.length)
def Store.allocPFN (st : Store) (p : PFN) : Store × Nat :=
  ({ st with pfns := st.pfns ++ [p] }, st.pfns.length)

def Store.setFile (st : Store) (r : Nat) (f : FileE) : Store :=
  { st with files := st.files.set r f }
def Store.setJob (st : Store) (r : Nat) (j : JobE) : Store :=
  { st with jobs := st.jobs.set r j }
def Store.setTrans (st : Store) (r : Nat) (t : TransE) : Store :=
  { st with trans := st.trans.set r t }
def Store.setProfile (st : Store) (r : Nat) (p : Profile) : Store :=
  { st with profiles := st.profiles.set r p }
def Store.setMetadata (st : Store) (r : Nat) (m : Metadata) : Store :=
  { st with metadatas := st.metadatas.set r m }
def Store.setPFN (st : Store) (r : Nat) (p : PFN) : Store :=
  { st with pfns := st.pfns.set r p }

/-! ## Entity mutators (the `add*` methods) -/

/-- `CatalogType.addProfile` / `AbstractJob.addProfile` with a `Profile`
argument (the decoder always passes one: the tuple shorthand and the
invalid-argument rejection are not exercised here). -/
def FileE.addProfile (f : FileE) (p : Nat) : FileE :=
  { f with profiles := f.profiles ++ [p] }

def FileE.addMetadata (f : FileE) (m : Nat) : FileE :=
  { f with metadata := f.metadata ++ [m] }

def FileE.addPFN (f : FileE) (p : Nat) : FileE :=
  { f with pfns := f.pfns ++ [p] }

/-- `PFN.addProfile` (extends the profiles list). -/
def PFN.addProfile (p : PFN) (r : Nat) : PFN :=
  { p with profiles := p.profiles ++ [r] }

def JobE.addProfile (j : JobE) (p : Nat) : JobE :=
  { j with profiles := j.profiles ++ [p] }

/-- `AbstractJob.addArguments(*arguments)`: extends the argument list. -/
def JobE.addArguments (j : JobE) (args : List Arg) : JobE :=
  { j with arguments := j.arguments ++ args }

/-- `AbstractJob.uses(file, link, register, transfer, optional)`: appends
`Use(file, link, register, transfer, optional)`. -/
def JobE.uses (j : JobE) (file : Nat) (link : PyV := .pnone)
    (register : PyV := .pnone) (transfer : PyV := .pnone)
    (optional : PyV := .pnone) : JobE :=
  { j with used_files := j.used_files ++
      [{ file := file, link := link, optional := optional,
         register := register, transfer := transfer }] }

/-- `Transformation.uses`. -/
def TransE.uses (t : TransE) (file : Nat) (link : PyV := .pnone)
    (register : PyV := .pnone) (transfer : PyV := .pnone)
    (optional : PyV := .pnone) : TransE :=
  { t with used_files := t.used_files ++
      [{ file := file, link := link, optional := optional,
         register := register, transfer := transfer }] }

def JobE.setStdin (j : JobE) (f : Nat) : JobE := { j with stdin := f }
def JobE.setStdout (j : JobE) (f : Nat) : JobE := { j with stdout := f }
def JobE.setStderr (j : JobE) (f : Nat) : JobE := { j with stderr := f }

/-- `AbstractJob.invoke(when, what)`: appends the notification pair. -/
def JobE.invoke (j : JobE) (whn : Option String) (what : String) : JobE :=
  { j with notifications := j.notifications ++ [(whn, what)] }

/-- `DAX.__init__` / `DAG.__init__` from a `File` object: the node name is
copied from the file and one implicit `uses(name, link=Link.INPUT,
transfer=True, register=False)` is added. -/
def SubWf.initOfFile (st : Store) (kind : NodeKind) (f : Nat)
    (id : Option String := none) (node_label : Option String := none) :
    Except DErr JobE := do
  let j ← AbstractJob.init kind (some (st.getFile f).name) id node_label
  .ok (j.uses f (.pstr "input") (.pbool false) (.pbool true) .pnone)

/-! ## ADAG operations: the id allocator and the dependency index -/

/-- Python `"%07d" % n`: decimal digits left-padded with zeros to width 7
(numbers with more than 7 digits are printed unpadded). -/
def zfill7 (s : String) : String :=
  if s.length < 7 then String.mk (List.replicate (7 - s.length) '0') ++ s
  else s

/-- The id produced by `ADAG.addJob` for a node without one:
`"ID%07d" % self.sequence`. -/
def autoId (n : Nat) : String := "ID" ++ zfill7 (toString n)

/-- `ADAG.addJob`: assigns `"ID%07d" % sequence` and bumps the counter iff the
job's id is `None`, then appends the job to the list.  (`addDAX`/`addDAG`
delegate to this.) -/
def ADAG.addJob (st : Store) (a : ADAG) (r : Nat) : Store × ADAG :=
  let j := st.getJob r
  match j.id with
  | none =>
      (st.setJob r { j with id := some (autoId a.sequence) },
       { a with sequence := a.sequence + 1, jobs := a.jobs ++ [r] })
  | some _ => (st, { a with jobs := a.jobs ++ [r] })

/-- `ADAG.addFile`: appends (no de-duplication). -/
def ADAG.addFile (a : ADAG) (r : Nat) : ADAG :=
  { a with files := a.files ++ [r] }

/-- `ADAG.addExecutable`: appends. -/
def ADAG.addExecutable (a : ADAG) (r : Nat) : ADAG :=
  { a with executables := a.executables ++ [r] }

/-- `ADAG.addTransformation`: appends. -/
def ADAG.addTransformation (a : ADAG) (r : Nat) : ADAG :=
  { a with transformations := a.transformations ++ [r] }

/-- Append `(parent, edge_label)` to the first dependency record whose child
is `c` (`Dependency.addParent` on the record `lookup[child]` — it is the first
such record because `addDependency` keeps children unique). -/
def depAddParent (deps : List Dep) (c : Option Nat) (parent : Nat)
    (edge_label : Option String) : List Dep :=
  match deps with
  | [] => []
  | d :: rest =>
      if d.child = c then
        { d with parents := d.parents ++ [(parent, edge_label)] } :: rest
      else d :: depAddParent rest c parent edge_label

/-- `ADAG.addDependency(parent, child, edge_label)`: `if not child in
self.lookup` create a fresh record for the child and append it to
`dependencies`, then `lookup[child].addParent(parent, edge_label)`.  The
child is keyed by object identity (the arena reference), never by its id
string. -/
def ADAG.addDependency (a : ADAG) (parent : Nat) (child : Option Nat)
    (edge_label : Option String) : ADAG :=
  let deps :=
    if a.dependencies.any (fun d => d.child = child) then a.dependencies
    else a.dependencies ++ [{ child := child, parents := [] }]
  { a with dependencies := depAddParent deps child parent edge_label }

/-! ## The encoder

`ADAG.writeXML` and the `toXML` family, at the level of the SAX events the
generated text produces.  Attribute lists record the attributes in emission
order; conditional attributes mirror the `if value:` guards of the source. -/

/-- A SAX event: element start (name and attributes), character content, or
element end. -/
inductive XEvent where
  | start (element : String) (attrs : List (String × String))
  | chars (s : String)
  | stop (element : String)
  deriving Repr, DecidableEq

/-- Emit an attribute only when the guarding value is truthy
(`if self.x: xml.write(...)`). -/
def attrIf (b : Bool) (k v : String) : List (String × String) :=
  if b then [(k, v)] else []

/-- A nonempty character run produces one `chars` event; empty text produces
no SAX event. -/
def charsOf (s : String) : List XEvent :=
  if s = "" then [] else [.chars s]

/-- `Profile.toXML`: `<profile namespace=.. key=..>value</profile>`. -/
def Profile.toEvents (p : Profile) : List XEvent :=
  [.start "profile" [("namespace", optStr p.ns), ("key", optStr p.key)]]
    ++ charsOf p.value ++ [.stop "profile"]

/-- `Metadata.toXML`: `<metadata key=.. type=..>value</metadata>`. -/
def Metadata.toEvents (m : Metadata) : List XEvent :=
  [.start "metadata" [("key", optStr m.key), ("type", optStr m.type_)]]
    ++ charsOf m.value ++ [.stop "metadata"]

/-- `PFN.toXML`: `<pfn url=.. site=..>` with nested profiles. -/
def PFN.toEvents (st : Store) (p : PFN) : List XEvent :=
  [.start "pfn" [("url", optStr p.url), ("site", optStr p.site)]]
    ++ (p.profiles.map (fun r => (st.getProfile r).toEvents)).flatten
    ++ [.stop "pfn"]

/-- `CatalogType.getInnerXML`: profiles, then metadata, then pfns. -/
def FileE.innerEvents (st : Store) (f : FileE) : List XEvent :=
  (f.profiles.map (fun r => (st.getProfile r).toEvents)).flatten
    ++ (f.metadata.map (fun r => (st.getMetadata r).toEvents)).flatten
    ++ (f.pfns.map (fun r => PFN.toEvents st (st.getPFN r))).flatten

/-- `File.toXML`: `<file name=..>` with `link` only when truthy. -/
def FileE.toEventsFile (st : Store) (f : FileE) : List XEvent :=
  [.start "file" ([("name", f.name)] ++ attrIf f.link.truthy "link" f.link.toStr)]
    ++ f.innerEvents st ++ [.stop "file"]

/-- `Executable.toXML`: `<executable name=..>` with each extra attribute only
when truthy. -/
def FileE.toEventsExe (st : Store) (f : FileE) : List XEvent :=
  [.start "executable"
    ([("name", f.name)]
      ++ attrIf (optTruthy f.ns) "namespace" (optStr f.ns)
      ++ attrIf (optTruthy f.version) "version" (optStr f.version)
      ++ attrIf (optTruthy f.arch) "arch" (optStr f.arch)
      ++ attrIf (optTruthy f.os) "os" (optStr f.os)
      ++ attrIf (optTruthy f.osrelease) "osrelease" (optStr f.osrelease)
      ++ attrIf (optTruthy f.osversion) "osversion" (optStr f.osversion)
      ++ attrIf (optTruthy f.glibc) "glibc" (optStr f.glibc))]
    ++ f.innerEvents st ++ [.stop "executable"]

/-- Catalog emission dispatches on the dynamic class of the entity. -/
def FileE.toEvents (st : Store) (f : FileE) : List XEvent :=
  if f.isExe then f.toEventsExe st else f.toEventsFile st

/-- The attribute list of `Use.toXML`: each override falls back to the
referenced entity's attribute via Python `or`; each effective value is
emitted only when truthy; `optional`/`register`/`transfer` are rendered with
`unicode(v).lower()`; namespace/version/executable only for `Executable`
referents. -/
def Use.attrsX (st : Store) (u : Use) : List (String × String) :=
  let f := st.getFile u.file
  let link := pyOr u.link f.link
  let optional := pyOr u.optional f.optional
  let register := pyOr u.register f.register
  let transfer := pyOr u.transfer f.transfer
  [("name", f.name)]
    ++ attrIf link.truthy "link" link.toStr
    ++ attrIf optional.truthy "optional" optional.toStrLower
    ++ attrIf register.truthy "register" register.toStrLower
    ++ attrIf transfer.truthy "transfer" transfer.toStrLower
    ++ (if f.isExe then
          attrIf (optTruthy f.ns) "namespace" (optStr f.ns)
            ++ attrIf (optTruthy f.version) "version" (optStr f.version)
            ++ [("executable", "true")]
        else [])

/-- `Use.toXML`: a single self-closing `uses` element. -/
def Use.toEvents (st : Store) (u : Use) : List XEvent :=
  [.start "uses" (u.attrsX st), .stop "uses"]

/-- `Transformation.toXML`: namespace (when truthy), name, version (when
truthy), with nested uses. -/
def TransE.toEvents (st : Store) (t : TransE) : List XEvent :=
  [.start "transformation"
    (attrIf (optTruthy t.ns) "namespace" (optStr t.ns)
      ++ [("name", optStr t.name)]
      ++ attrIf (optTruthy t.version) "version" (optStr t.version))]
    ++ (t.used_files.map (Use.toEvents st)).flatten
    ++ [.stop "transformation"]

/-- `File.toStdioXML(tag)`: `<stdin name=.. link="input"/>` (stdin is always
input, stdout/stderr always output). -/
def stdioEvents (st : Store) (tag : String) (r : Nat) : List XEvent :=
  [.start tag [("name", (st.getFile r).name),
               ("link", if tag = "stdin" then "input" else "output")],
   .stop tag]

/-- One piece of the `<argument>` body: literal text or a `<file/>` element
(`File.toArgumentXML`). -/
inductive Piece where
  | txt (s : String)
  | fel (name : String)
  deriving Repr, DecidableEq

def Arg.piece (st : Store) : Arg → Piece
  | .lit s => .txt s
  | .file r => .fel (st.getFile r).name

/-- Collapse the piece list into SAX events: maximal text runs become single
character events (empty runs none), `fel` pieces become file elements.  This
is what the tokenizer delivers for
`u' '.flatten(unicode(x) for x in self.arguments)`. -/
def piecesEvents : Option String → List Piece → List XEvent
  | acc, [] => charsOf (acc.getD "")
  | acc, .txt s :: rest => piecesEvents (some (acc.getD "" ++ s)) rest
  | acc, .fel n :: rest =>
      charsOf (acc.getD "")
        ++ [.start "file" [("name", n)], .stop "file"]
        ++ piecesEvents none rest

/-- The body of the `<argument>` element: the argument tokens rendered and
joined with single spaces. -/
def argContent (st : Store) (args : List Arg) : List XEvent :=
  piecesEvents none (List.intersperse (.txt " ") (args.map (Arg.piece st)))

/-- `AbstractJob.innerXML`: argument (when any), profiles, stdin, stdout,
stderr, uses, notifications — in that order. -/
def JobE.innerEvents (st : Store) (j : JobE) : List XEvent :=
  (if j.arguments.isEmpty then []
   else [.start "argument" []] ++ argContent st j.arguments
          ++ [.stop "argument"])
    ++ (j.profiles.map (fun r => (st.getProfile r).toEvents)).flatten
    ++ (match j.stdin with
        | none => [] | some r => stdioEvents st "stdin" r)
    ++ (match j.stdout with
        | none => [] | some r => stdioEvents st "stdout" r)
    ++ (match j.stderr with
        | none => [] | some r => stdioEvents st "stderr" r)
    ++ (j.used_files.map (Use.toEvents st)).flatten
    ++ (j.notifications.map (fun p =>
          [XEvent.start "invoke" [("when", optStr p.1)]]
            ++ charsOf p.2 ++ [XEvent.stop "invoke"])).flatten

/-- `Job.toXML` / `DAG.toXML` / `DAX.toXML`: the element name and attribute
list depend on the node kind (`id` is always emitted, rendered with `%s`;
`namespace`/`version` only for jobs and only when truthy; `node-label` when
truthy). -/
def JobE.toEvents (st : Store) (j : JobE) : List XEvent :=
  match j.kind with
  | .job =>
      [.start "job"
        ([("id", optStr j.id)]
          ++ attrIf (optTruthy j.ns) "namespace" (optStr j.ns)
          ++ [("name", j.name)]
          ++ attrIf (optTruthy j.version) "version" (optStr j.version)
          ++ attrIf (optTruthy j.node_label) "node-label" (optStr j.node_label))]
        ++ j.innerEvents st ++ [.stop "job"]
  | .dag =>
      [.start "dag"
        ([("id", optStr j.id), ("name", j.name)]
          ++ attrIf (optTruthy j.node_label) "node-label" (optStr j.node_label))]
        ++ j.innerEvents st ++ [.stop "dag"]
  | .dax =>
      [.start "dax"
        ([("id", optStr j.id), ("name", j.name)]
          ++ attrIf (optTruthy j.node_label) "node-label" (optStr j.node_label))]
        ++ j.innerEvents st ++ [.stop "dax"]

/-- `Dependency.toXML`: `<child ref=child.id>` (an `AttributeError` when the
child is `None`) with one `parent` element per recorded pair, `edge-label`
only when present (`is None` check, not truthiness). -/
def Dep.toEvents (st : Store) (d : Dep) : Except DErr (List XEvent) :=
  match d.child with
  | none => .error (.attributeError "NoneType has no attribute id")
  | some c =>
      .ok ([XEvent.start "child" [("ref", optStr (st.getJob c).id)]]
        ++ (d.parents.map (fun p =>
              [XEvent.start "parent"
                ([("ref", optStr (st.getJob p.1).id)]
                  ++ (match p.2 with
                      | none => []
                      | some l => [("edge-label", l)])),
               XEvent.stop "parent"])).flatten
        ++ [XEvent.stop "child"])

/-- `"%d" % v`: succeeds on ints (and bools, which are ints in Python 2);
raises `TypeError` on anything else. -/
def fmtD : PyV → Except DErr String
  | .pint n => .ok (toString n)
  | .pbool b => .ok (if b then "1" else "0")
  | _ => .error (.typeError "%d format: a number is required")

def SCHEMA_NAMESPACE : String := "http://pegasus.isi.edu/schema/DAX"
def SCHEMA_LOCATION : String := "http://pegasus.isi.edu/schema/dax-3.2.xsd"
def SCHEMA_VERSION : String := "3.2"

/-- The attribute list of the `adag` open tag: the schema constants, the
name (always, via `%s`), and `count`/`index` via `"%d"` only when truthy. -/
def adagAttrs (a : ADAG) : Except DErr (List (String × String)) := do
  let countAttr ←
    if a.count.truthy then do
      let s ← fmtD a.count
      pure [("count", s)]
    else pure []
  let indexAttr ←
    if a.index.truthy then do
      let s ← fmtD a.index
      pure [("index", s)]
    else pure []
  .ok ([("xmlns", SCHEMA_NAMESPACE),
        ("xmlns:xsi", "http://www.w3.org/2001/XMLSchema-instance"),
        ("xsi:schemaLocation", SCHEMA_NAMESPACE ++ " " ++ SCHEMA_LOCATION),
        ("version", SCHEMA_VERSION),
        ("name", optStr a.name)] ++ countAttr ++ indexAttr)

/-- `ADAG.writeXML`: the adag element, then files, executables,
transformations, jobs and dependency records, each section in list order.
The XML preamble and the section comments produce no SAX events. -/
def ADAG.toEvents (st : Store) (a : ADAG) : Except DErr (List XEvent) := do
  let attrs ← adagAttrs a
  let depEvents ← a.dependencies.mapM (Dep.toEvents st)
  .ok ([XEvent.start "adag" attrs]
    ++ (a.files.map (fun r => (st.getFile r).toEvents st)).flatten
    ++ (a.executables.map (fun r => (st.getFile r).toEvents st)).flatten
    ++ (a.transformations.map (fun r => (st.getTrans r).toEvents st)).flatten
    ++ (a.jobs.map (fun r => (st.getJob r).toEvents st)).flatten
    ++ depEvents.flatten
    ++ [XEvent.stop "adag"])

/-! ## The decoder

`class DAXHandler` as a step function over the SAX event stream, and
`parseString` as a fold of that step function from the fresh handler. -/

/-- `attrs.get(k)`: the attribute value, or `None` when absent. -/
def aget (attrs : List (String × String)) (k : String) : Option String :=
  match attrs with
  | [] => none
  | (k', v) :: rest => if k' = k then some v else aget rest k

/-- An attribute value as the Python value the decoder passes on:
`None` or the string. -/
def optPyV : Option String → PyV
  | none => .pnone
  | some s => .pstr s

/-- `bool(attrs.get("executable", False))`: a missing attribute or the empty
string is false; any non-empty attribute string (including the literal
`"false"`) counts as true. -/
def exeFlag (attrs : List (String × String)) : Bool :=
  match aget attrs "executable" with
  | none => false
  | some s => s ≠ ""

/-- Dictionary lookup for `jobmap`/`filemap` (keys may be `None`); insertion
conses, lookup takes the most recent binding, matching Python dict
overwrite semantics. -/
def dget (m : List (Option String × Nat)) (k : Option String) : Option Nat :=
  match m with
  | [] => none
  | (k', v) :: rest => if k' = k then some v else dget rest k

def dset (m : List (Option String × Nat)) (k : Option String) (v : Nat) :
    List (Option String × Nat) :=
  (k, v) :: m

/-- One step of whitespace word-splitting: the state is the words already
emitted plus the current word reversed. -/
def splitStep (p : List (List Char) × List Char) (c : Char) :
    List (List Char) × List Char :=
  if c.isWhitespace then
    if p.2 = [] then (p.1, []) else (p.1 ++ [p.2.reverse], [])
  else (p.1, c :: p.2)

/-- Emit the pending word, if any. -/
def flushWS (p : List (List Char) × List Char) : List (List Char) :=
  if p.2 = [] then p.1 else p.1 ++ [p.2.reverse]

/-- `shlex.split` on its quote-free fragment.  `shlex.split` configures a
POSIX lexer with comments off and `whitespace_split` on; such a lexer's
only metacharacters are the two quote characters, the backslash and
whitespace (`shlex.whitespace` is the space, tab, carriage return and
newline — exactly `Char.isWhitespace`).  On text containing no quote
character and no backslash it is therefore exactly splitting on runs of
whitespace, discarding empty pieces, which is what this definition does.
The round-trip theorem's hypotheses (`argTokenOK`) confine every argument
token to that fragment, so the model coincides with `shlex.split` on all
text the development feeds it; a quoted or backslash-escaped token would be
rewritten by the real lexer (or abort the parse with
`ValueError: No closing quotation`) and is outside the amended claim. -/
def shlexSplit (s : String) : List String :=
  (flushWS (s.data.foldl splitStep ([], []))).map String.mk

/-- The state of `DAXHandler`: the element stack, the graph under
construction, the two resolution tables and the `last*` pointers — plus the
`Store` arena standing in for the Python heap. -/
structure DAXHandler where
  store : Store
  elements : List String
  adag : Option ADAG
  jobmap : List (Option String × Nat)
  filemap : List (Option String × Nat)
  lastJob : Option Nat
  lastChild : Option Nat
  lastArgument : Option (List Arg)
  lastProfile : Option Nat
  lastMetadata : Option Nat
  lastPFN : Option Nat
  lastFile : Option Nat
  lastInvoke : Option (Option String × String)
  lastTransformation : Option Nat
  deriving Repr, DecidableEq

/-- `DAXHandler.__init__`. -/
def DAXHandler.init : DAXHandler :=
  { store := Store.empty, elements := [], adag := none, jobmap := [],
    filemap := [], lastJob := none, lastChild := none, lastArgument := none,
    lastProfile := none, lastMetadata := none, lastPFN := none,
    lastFile := none, lastInvoke := none, lastTransformation := none }

/-- `DAXHandler.startElement`: push the element, compute the parent, and
dispatch on the element name exactly as the source does. -/
def DAXHandler.startElement (h0 : DAXHandler) (element : String)
    (attrs : List (String × String)) : Except DErr DAXHandler :=
  let h := { h0 with elements := element :: h0.elements }
  let parent : Option String := h.elements.get? 1
  if element = "adag" then
    let name := aget attrs "name"
    let count := aget attrs "count"
    let index := aget attrs "index"
    .ok { h with adag := some (ADAG.init name (optPyV count) (optPyV index)) }
  else if element = "file" then
    let name := aget attrs "name"
    let link := aget attrs "link"
    let looked : Except DErr (DAXHandler × Nat) :=
      match dget h.filemap name with
      | some f => .ok (h, f)
      | none =>
          match File.init name (optPyV link) (.pbool false) (.pbool false) .pnone with
          | .error e => .error e
          | .ok fe =>
              let (st, f) := h.store.allocFile fe
              .ok ({ h with store := st, filemap := dset h.filemap name f }, f)
    match looked with
    | .error e => .error e
    | .ok (h, f) =>
        if parent = some "adag" then
          match h.adag with
          | none => .error (.attributeError "NoneType has no attribute addFile")
          | some a => .ok { h with adag := some (a.addFile f), lastFile := some f }
        else if parent = some "argument" then
          match h.lastArgument with
          | none => .error (.attributeError "NoneType has no attribute append")
          | some args =>
              .ok { h with lastArgument := some (args ++ [.file f]),
                           lastFile := some f }
        else .error (.context "file" parent)
  else if element = "executable" then
    let name := aget attrs "name"
    (do
      let fe ← Executable.init name (.pstr "input") (.pbool false)
        (.pbool true) .pnone (aget attrs "namespace") (aget attrs "version")
        (aget attrs "arch") (aget attrs "os") (aget attrs "osrelease")
        (aget attrs "osversion") (aget attrs "glibc")
      let (st, e) := h.store.allocFile fe
      match h.adag with
      | none => .error (.attributeError "NoneType has no attribute addExecutable")
      | some a =>
          .ok { h with store := st, filemap := dset h.filemap name e,
                       adag := some (a.addExecutable e), lastFile := some e })
  else if element = "transformation" then
    let t := Transformation.init (aget attrs "name") (aget attrs "namespace")
      (aget attrs "version")
    let (st, r) := h.store.allocTrans t
    match h.adag with
    | none => .error (.attributeError "NoneType has no attribute addTransformation")
    | some a =>
        .ok { h with store := st, lastTransformation := some r,
                     adag := some (a.addTransformation r) }
  else if element = "job" ∨ element = "dag" ∨ element = "dax" then
    let id := aget attrs "id"
    let name := aget attrs "name"
    (do
      let je ←
        if element = "job" then
          Job.init name id (aget attrs "namespace") (aget attrs "version")
            (aget attrs "node-label")
        else if element = "dag" then
          SubWf.init .dag name id (aget attrs "node-label")
        else
          SubWf.init .dax name id (aget attrs "node-label")
      let (st, r) := h.store.allocJob je
      match h.adag with
      | none => .error (.attributeError "NoneType has no attribute addJob")
      | some a =>
          let (st, a) := a.addJob st r
          .ok { h with store := st, adag := some a,
                       jobmap := dset h.jobmap id r, lastJob := some r })
  else if element = "argument" then
    .ok { h with lastArgument := some [] }
  else if element = "profile" then
    let p : Profile := ⟨aget attrs "namespace", aget attrs "key", ""⟩
    let (st, r) := h.store.allocProfile p
    let h := { h with store := st }
    if parent = some "job" then
      match h.lastJob with
      | none => .error (.attributeError "NoneType has no attribute addProfile")
      | some j =>
          .ok { h with store := h.store.setJob j ((h.store.getJob j).addProfile r),
                       lastProfile := some r }
    else if parent = some "file" ∨ parent = some "executable" then
      match h.lastFile with
      | none => .error (.attributeError "NoneType has no attribute addProfile")
      | some f =>
          .ok { h with store := h.store.setFile f ((h.store.getFile f).addProfile r),
                       lastProfile := some r }
    else if parent = some "pfn" then
      match h.lastPFN with
      | none => .error (.attributeError "NoneType has no attribute addProfile")
      | some f =>
          .ok { h with store := h.store.setPFN f ((h.store.getPFN f).addProfile r),
                       lastProfile := some r }
    else .error (.context "profile" parent)
  else if element = "metadata" then
    let m : Metadata := ⟨aget attrs "key", aget attrs "type", ""⟩
    let (st, r) := h.store.allocMetadata m
    let h := { h with store := st }
    if parent = some "file" ∨ parent = some "executable" then
      match h.lastFile with
      | none => .error (.attributeError "NoneType has no attribute addMetadata")
      | some f =>
          .ok { h with store := h.store.setFile f ((h.store.getFile f).addMetadata r),
                       lastMetadata := some r }
    else if parent = some "transformation" then
      -- `Transformation` defines no `addMetadata` method, so this call
      -- raises `AttributeError` in the source.
      .error (.attributeError "Transformation instance has no attribute addMetadata")
    else if parent = some "job" then
      match h.lastJob with
      | none => .error (.attributeError "NoneType has no attribute addMetadata")
      | some j =>
          -- `AbstractJob` defines no `addMetadata` method either: same slip.
          .error (.attributeError "Job instance has no attribute addMetadata")
    else .error (.context "metadata" parent)
  else if element = "pfn" then
    let p : PFN := ⟨aget attrs "url", aget attrs "site", []⟩
    let (st, r) := h.store.allocPFN p
    let h := { h with store := st }
    if parent = some "file" ∨ parent = some "executable" then
      match h.lastFile with
      | none => .error (.attributeError "NoneType has no attribute addPFN")
      | some f =>
          .ok { h with store := h.store.setFile f ((h.store.getFile f).addPFN r),
                       lastPFN := some r }
    else .error (.context "PFN" parent)
  else if element = "stdin" ∨ element = "stdout" ∨ element = "stderr" then
    let name := aget attrs "name"
    let link := aget attrs "link"
    (do
      let fe ← File.init name (optPyV link) (.pbool false) (.pbool false) .pnone
      let (st, f) := h.store.allocFile fe
      let h := { h with store := st }
      match h.lastJob with
      | none => .error (.attributeError "NoneType has no attribute setStdin")
      | some j =>
          let je := h.store.getJob j
          let je :=
            if element = "stdin" then je.setStdin f
            else if element = "stdout" then je.setStdout f
            else je.setStderr f
          .ok { h with store := h.store.setJob j je })
  else if element = "uses" then
    let name := aget attrs "name"
    let link := aget attrs "link"
    let optional := aget attrs "optional"
    let register := aget attrs "register"
    let transfer := aget attrs "transfer"
    let ns := aget attrs "namespace"
    let version := aget attrs "version"
    let executable : Bool := exeFlag attrs
    (do
      let (h, f) ←
        match dget h.filemap name with
        | some f => pure (h, f)
        | none =>
            if executable then do
              let fe ← Executable.init name (optPyV link) (optPyV register)
                (optPyV transfer) .pnone ns version
              let (st, f) := h.store.allocFile fe
              pure ({ h with store := st, filemap := dset h.filemap name f }, f)
            else do
              let fe ← File.init name (optPyV link) (optPyV register)
                (optPyV transfer) .pnone
              let (st, f) := h.store.allocFile fe
              pure ({ h with store := st, filemap := dset h.filemap name f }, f)
      if parent = some "job" ∨ parent = some "dax" ∨ parent = some "dag" then
        match h.lastJob with
        | none => .error (.attributeError "NoneType has no attribute uses")
        | some j =>
            let je := (h.store.getJob j).uses f (optPyV link)
              (optPyV register) (optPyV transfer) (optPyV optional)
            .ok { h with store := h.store.setJob j je }
      else if parent = some "transformation" then
        match h.lastTransformation with
        | none => .error (.attributeError "NoneType has no attribute uses")
        | some t =>
            let te := (h.store.getTrans t).uses f (optPyV link)
              (optPyV register) (optPyV transfer) (optPyV optional)
            .ok { h with store := h.store.setTrans t te }
      else .error (.context "uses" parent))
  else if element = "invoke" then
    .ok { h with lastInvoke := some (aget attrs "when", "") }
  else if element = "child" then
    let ref := aget attrs "ref"
    match dget h.jobmap ref with
    | none => .error (.keyError (optStr ref))
    | some j => .ok { h with lastChild := some j }
  else if element = "parent" then
    let ref := aget attrs "ref"
    let edge_label := aget attrs "edge-label"
    match dget h.jobmap ref with
    | none => .error (.keyError (optStr ref))
    | some p =>
        match h.adag with
        | none => .error (.attributeError "NoneType has no attribute addDependency")
        | some a =>
            .ok { h with adag := some (a.addDependency p h.lastChild edge_label) }
  else
    -- `raise Exception("Unrecognized element %s" % name)`: `name` is an
    -- unbound local in this branch, so Python raises UnboundLocalError.
    .error .unboundLocalName

/-- `DAXHandler.characters`. -/
def DAXHandler.characters (h : DAXHandler) (chars : String) :
    Except DErr DAXHandler :=
  match h.elements with
  | [] => .error .indexError
  | parent :: _ =>
      if parent = "argument" then
        match h.lastArgument with
        | none => .error (.typeError "unsupported operand for NoneType +=")
        | some args =>
            let args' := args ++ (shlexSplit chars).map Arg.lit
            .ok { h with lastArgument := some args' }
      else if parent = "profile" then
        match h.lastProfile with
        | none => .error (.attributeError "NoneType has no attribute value")
        | some r =>
            let p := h.store.getProfile r
            .ok { h with store := h.store.setProfile r { p with value := p.value ++ chars } }
      else if parent = "metadata" then
        match h.lastMetadata with
        | none => .error (.attributeError "NoneType has no attribute value")
        | some r =>
            let m := h.store.getMetadata r
            .ok { h with store := h.store.setMetadata r { m with value := m.value ++ chars } }
      else if parent = "invoke" then
        match h.lastInvoke with
        | none => .error (.typeError "NoneType does not support item assignment")
        | some (w, t) => .ok { h with lastInvoke := some (w, t ++ chars) }
      else .ok h

/-- `DAXHandler.endElement`. -/
def DAXHandler.endElement (h0 : DAXHandler) (element : String) :
    Except DErr DAXHandler :=
  let h := { h0 with elements := h0.elements.drop 1 }
  if element = "child" then
    .ok { h with lastChild := none }
  else if element = "job" ∨ element = "dax" ∨ element = "dag" then
    .ok { h with lastJob := none }
  else if element = "argument" then
    match h.lastArgument with
    | none => .error (.typeError "argument list is not iterable")
    | some args =>
        match h.lastJob with
        | none => .error (.attributeError "NoneType has no attribute addArguments")
        | some j =>
            let st := h.store.setJob j ((h.store.getJob j).addArguments args)
            .ok { h with store := st, lastArgument := none }
  else if element = "profile" then
    .ok { h with lastProfile := none }
  else if element = "metadata" then
    .ok { h with lastMetadata := none }
  else if element = "pfn" then
    .ok { h with lastPFN := none }
  else if element = "invoke" then
    match h.lastInvoke with
    | none => .error (.typeError "invoke pair is not iterable")
    | some (w, t) =>
        match h.lastJob with
        | none => .error (.attributeError "NoneType has no attribute invoke")
        | some j =>
            let st := h.store.setJob j ((h.store.getJob j).invoke w t)
            .ok { h with store := st, lastInvoke := none }
  else if element = "transformation" then
    .ok { h with lastTransformation := none }
  else .ok h

/-- One SAX event dispatched to the corresponding handler method. -/
def DAXHandler.step (h : DAXHandler) : XEvent → Except DErr DAXHandler
  | .start el attrs => h.startElement el attrs
  | .chars s => h.characters s
  | .stop el => h.endElement el

/-- Feed a list of events through the handler; the first raised exception
aborts the parse. -/
def runEvents (h : DAXHandler) : List XEvent → Except DErr DAXHandler
  | [] => .ok h
  | e :: rest =>
      match h.step e with
      | .ok h' => runEvents h' rest
      | .error err => .error err

/-- `parseString`: run a fresh handler over the document's events and return
`handler.adag` (with the heap it lives in). -/
def parseEvents (evs : List XEvent) : Except DErr (Store × Option ADAG) :=
  (runEvents DAXHandler.init evs).map (fun h => (h.store, h.adag))

/-! ## Programmatic graph building -/

/-- Allocate each node entity on the heap and hand it to `ADAG.addJob`, in
order — the way a caller builds up `adag.jobs`. -/
def addJobs : Store → ADAG → List JobE → Store × ADAG
  | st, a, [] => (st, a)
  | st, a, j :: rest =>
      let (st', r) := st.allocJob j
      let (st'', a') := ADAG.addJob st' a r
      addJobs st'' a' rest

/-- The node entities as they end up on the heap after `addJobs`: ids are
filled in from the running sequence counter exactly when missing. -/
def processIds (s : Nat) : List JobE → List JobE
  | [] => []
  | j :: rest =>
      match j.id with
      | none => { j with id := some (autoId s) } :: processIds (s + 1) rest
      | some _ => j :: processIds s rest

theorem processIds_length (s : Nat) (js : List JobE) :
    (processIds s js).length = js.length := by
  induction js generalizing s with
  | nil => rfl
  | cons j rest ih =>
      cases hj : j.id <;> simp [processIds, hj, ih]

theorem addJobs_spec (js : List JobE) (st : Store) (a : ADAG) :
    (addJobs st a js).1.jobs = st.jobs ++ processIds a.sequence js
    ∧ (addJobs st a js).2.jobs
        = a.jobs ++ (List.range js.length).map (fun i => st.jobs.length + i)
    ∧ (addJobs st a js).2.sequence
        = a.sequence + js.countP (fun j => j.id.isNone) := by
  induction js generalizing st a with
  | nil => simp [addJobs, processIds]
  | cons j rest ih =>
      cases hj : j.id with
      | none =>
          have hget : (st.jobs ++ [j]).getD st.jobs.length default = j := by
            simp
          have hset :
              (st.jobs ++ [j]).set st.jobs.length { j with id := some (autoId a.sequence) }
                = st.jobs ++ [{ j with id := some (autoId a.sequence) }] := by
            rw [List.set_append_right _ _ (Nat.le_refl _)]
            simp
          obtain ⟨ih1, ih2, ih3⟩ := ih
            { st with jobs := st.jobs ++ [{ j with id := some (autoId a.sequence) }] }
            { a with sequence := a.sequence + 1,
                     jobs := a.jobs ++ [st.jobs.length] }
          refine ⟨?_, ?_, ?_⟩
          · simpa [addJobs, Store.allocJob, ADAG.addJob, Store.getJob,
              Store.setJob, hget, hj, hset, processIds] using ih1
          · rw [show (addJobs st a (j :: rest)).2
                = (addJobs { st with jobs := st.jobs ++ [{ j with id := some (autoId a.sequence) }] }
                    { a with sequence := a.sequence + 1,
                             jobs := a.jobs ++ [st.jobs.length] } rest).2 by
                simp [addJobs, Store.allocJob, ADAG.addJob, Store.getJob,
                  Store.setJob, hget, hj, hset]]
            rw [ih2]
            simp [List.range_succ_eq_map, List.map_map, Function.comp,
              Nat.add_assoc, Nat.add_comm 1]
          · rw [show (addJobs st a (j :: rest)).2
                = (addJobs { st with jobs := st.jobs ++ [{ j with id := some (autoId a.sequence) }] }
                    { a with sequence := a.sequence + 1,
                             jobs := a.jobs ++ [st.jobs.length] } rest).2 by
                simp [addJobs, Store.allocJob, ADAG.addJob, Store.getJob,
                  Store.setJob, hget, hj, hset]]
            rw [ih3]
            simp [List.countP_cons, hj, Option.isNone]
            omega
      | some i =>
          have hget : (st.jobs ++ [j]).getD st.jobs.length default = j := by
            simp
          obtain ⟨ih1, ih2, ih3⟩ := ih
            { st with jobs := st.jobs ++ [j] }
            { a with jobs := a.jobs ++ [st.jobs.length] }
          refine ⟨?_, ?_, ?_⟩
          · simpa [addJobs, Store.allocJob, ADAG.addJob, Store.getJob, hget,
              hj, processIds] using ih1
          · rw [show (addJobs st a (j :: rest)).2
                = (addJobs { st with jobs := st.jobs ++ [j] }
                    { a with jobs := a.jobs ++ [st.jobs.length] } rest).2 by
                simp [addJobs, Store.allocJob, ADAG.addJob, Store.getJob, hget, hj]]
            rw [ih2]
            simp [List.range_succ_eq_map, List.map_map, Function.comp,
              Nat.add_assoc, Nat.add_comm 1]
          · rw [show (addJobs st a (j :: rest)).2
                = (addJobs { st with jobs := st.jobs ++ [j] }
                    { a with jobs := a.jobs ++ [st.jobs.length] } rest).2 by
                simp [addJobs, Store.allocJob, ADAG.addJob, Store.getJob, hget, hj]]
            rw [ih3]
            simp [List.countP_cons, hj, Option.isNone]

theorem processIds_getD (js : List JobE) (s k : Nat) (hk : k < js.length) :
    ((processIds s js).getD k default).id =
      match (js.getD k default).id with
      | some i => some i
      | none => some (autoId (s + (js.take k).countP (fun j => j.id.isNone))) := by
  induction js generalizing s k with
  | nil => simp at hk
  | cons j rest ih =>
      cases k with
      | zero => cases hj : j.id <;> simp [processIds, hj]
      | succ k =>
          have hk' : k < rest.length := by simpa using hk
          cases hj : j.id with
          | none =>
              have := ih (s + 1) k hk'
              simp only [processIds, hj, List.getD_cons_succ, List.take_succ_cons,
                List.countP_cons, this]
              cases hr : (rest.getD k default).id <;>
                simp [hj, Option.isNone, Nat.add_assoc, Nat.add_comm 1]
          | some i =>
              have := ih s k hk'
              simp only [processIds, hj, List.getD_cons_succ, List.take_succ_cons,
                List.countP_cons, this]
              cases hr : (rest.getD k default).id <;> simp [hj, Option.isNone]

/-- **C3.**  For every sequence of nodes (any mix of `Job`/`DAX`/`DAG`
entities, with or without explicit ids) added to a fresh graph through
`ADAG.addJob`, the node at position `k` of `adag.jobs` ends up with its
explicit id if it had one, and otherwise with `"ID" ++ zero-padded counter`
where the counter value is one plus the number of earlier id-less nodes
(so the n-th id-less node gets `ID%07d % n`: `ID0000001`, `ID0000002`, …).
Nodes with explicit ids do not advance the shared counter: the final counter
is `1 +` the number of id-less nodes. -/
theorem C3_id_allocation (st : Store) (nm : Option String) (cnt idx : PyV)
    (js : List JobE) (k : Nat) (hk : k < js.length) :
    ((addJobs st (ADAG.init nm cnt idx) js).1.getJob
        ((addJobs st (ADAG.init nm cnt idx) js).2.jobs.getD k 0)).id =
      (match (js.getD k default).id with
       | some i => some i
       | none => some (autoId ((js.take k).countP (fun j => j.id.isNone) + 1)))
    ∧ (addJobs st (ADAG.init nm cnt idx) js).2.sequence
        = 1 + js.countP (fun j => j.id.isNone) := by
  obtain ⟨h1, h2, h3⟩ := addJobs_spec js st (ADAG.init nm cnt idx)
  constructor
  · have href : (addJobs st (ADAG.init nm cnt idx) js).2.jobs.getD k 0
        = st.jobs.length + k := by
      rw [h2]
      simp only [ADAG.init, List.nil_append]
      rw [List.getD_eq_getElem _ _ (by simpa using hk)]
      simp
    rw [href, Store.getJob, h1,
      List.getD_append_right _ _ _ _ (Nat.le_add_right _ _)]
    simp only [Nat.add_sub_cancel_left, ADAG.init]
    rw [processIds_getD js 1 k hk]
    cases hr : (js.getD k default).id <;> simp [Nat.add_comm 1]
  · rw [h3]; simp [ADAG.init, Nat.add_comm 1]

/-- Witness for C3: three nodes of mixed kinds — an id-less job, a `DAX`
with explicit id `"X"`, an id-less `DAG` — receive `ID0000001`, `X`,
`ID0000002`, and the counter ends at 3. -/
theorem C3_id_allocation_witness :
    (2 < ([⟨.job, "a", none, none, none, none, [], [], [], [], none, none, none⟩,
           ⟨.dax, "b", some "X", none, none, none, [], [], [], [], none, none, none⟩,
           ⟨.dag, "c", none, none, none, none, [], [], [], [], none, none, none⟩] :
            List JobE).length)
    ∧ ((addJobs Store.empty (ADAG.init (some "w") .pnone .pnone)
          [⟨.job, "a", none, none, none, none, [], [], [], [], none, none, none⟩,
           ⟨.dax, "b", some "X", none, none, none, [], [], [], [], none, none, none⟩,
           ⟨.dag, "c", none, none, none, none, [], [], [], [], none, none, none⟩]).1.getJob
        ((addJobs Store.empty (ADAG.init (some "w") .pnone .pnone)
          [⟨.job, "a", none, none, none, none, [], [], [], [], none, none, none⟩,
           ⟨.dax, "b", some "X", none, none, none, [], [], [], [], none, none, none⟩,
           ⟨.dag, "c", none, none, none, none, [], [], [], [], none, none, none⟩]).2.jobs.getD 2 0)).id
        = some "ID0000002" := by
  constructor
  · decide
  · have := (C3_id_allocation Store.empty (some "w") .pnone .pnone
      [⟨.job, "a", none, none, none, none, [], [], [], [], none, none, none⟩,
       ⟨.dax, "b", some "X", none, none, none, [], [], [], [], none, none, none⟩,
       ⟨.dag, "c", none, none, none, none, [], [], [], [], none, none, none⟩]
      2 (by decide)).1
    rw [this]
    decide

/-- **C5, counterexample.**  The claim says an empty name raises a
ValidationError, but `CatalogType.__init__` and `AbstractJob.__init__` only
test `name is None`: constructing a `File` or a `Job` with the empty string
as name succeeds. -/
theorem C5_empty_name_accepted :
    (CatalogType.init (some "") .pnone (.pbool false) (.pbool false) .pnone).isOk
      = true
    ∧ (AbstractJob.init .job (some "") none none).isOk = true := by
  decide

/-- **C5 as amended.**  Constructing a CatalogEntry (`File`/`Executable`) or
an AbstractNode (`Job`/`SubDax`/`SubDag`) with a *missing* (`None`) name
raises `ValueError` synchronously; for every provided name string — the empty
string included — the constructor succeeds with respect to this check. -/
theorem C5_name_required :
    (∀ l r t o, CatalogType.init none l r t o
        = .error (.valueError "name required"))
    ∧ (∀ (s : String) l r t o, ∃ f, CatalogType.init (some s) l r t o = .ok f
        ∧ f.name = s)
    ∧ (∀ k id nl, AbstractJob.init k none id nl
        = .error (.valueError "name required"))
    ∧ (∀ k (s : String) id nl, ∃ j, AbstractJob.init k (some s) id nl = .ok j
        ∧ j.name = s) := by
  refine ⟨fun l r t o => rfl, fun s l r t o => ⟨_, rfl, rfl⟩,
    fun k id nl => rfl, fun k s id nl => ⟨_, rfl, rfl⟩⟩

theorem depAddParent_append_not_mem (ds ds' : List Dep) (c : Option Nat)
    (p : Nat) (l : Option String) (h : ∀ d ∈ ds, d.child ≠ c) :
    depAddParent (ds ++ ds') c p l = ds ++ depAddParent ds' c p l := by
  induction ds with
  | nil => simp
  | cons d rest ih =>
      have hd : d.child ≠ c := h d (List.mem_cons_self _ _)
      simp only [List.cons_append, depAddParent, if_neg hd, List.append_eq]
      rw [ih (fun d' hd' => h d' (List.mem_cons_of_mem _ hd'))]

theorem any_child_eq_false {ds : List Dep} {c : Option Nat}
    (h : ∀ d ∈ ds, d.child ≠ c) :
    ds.any (fun d => d.child = c) = false := by
  simp only [List.any_eq_false, decide_eq_true_eq]
  exact h

/-- Fresh child: `addDependency` appends a new singleton record. -/
theorem addDependency_fresh (a : ADAG) (p c : Nat) (l : Option String)
    (h : ∀ d ∈ a.dependencies, d.child ≠ some c) :
    (a.addDependency p (some c) l).dependencies
      = a.dependencies ++ [{ child := some c, parents := [(p, l)] }] := by
  simp only [ADAG.addDependency, any_child_eq_false h, Bool.false_eq_true,
    if_false]
  rw [depAddParent_append_not_mem _ _ _ _ _ h]
  simp [depAddParent]

/-- **C7.**  The dependency index: (a) a child without a record gets a fresh
record appended at the end; (b) a child that already has a record has that
record extended in place (same record list, one more parent pair) rather
than duplicated; (c) adding the same parent twice to the same child appends
two pairs — no parent de-duplication; (d) lookup is by child node identity
(the reference), not by id string: two distinct nodes carrying the *same* id
string still get two separate records; (e) `writeXML` emits the dependency
records in record-creation order (the `dependencies` list order), as the
final section before `</adag>`. -/
theorem C7_dependency_index :
    (∀ (a : ADAG) (p c : Nat) (l : Option String),
      (∀ d ∈ a.dependencies, d.child ≠ some c) →
      (a.addDependency p (some c) l).dependencies
        = a.dependencies ++ [{ child := some c, parents := [(p, l)] }])
    ∧ (∀ (a : ADAG) (p c : Nat) (l : Option String) (ds1 : List Dep) (d : Dep)
        (ds2 : List Dep),
      a.dependencies = ds1 ++ d :: ds2 → d.child = some c →
      (∀ d' ∈ ds1, d'.child ≠ some c) →
      (a.addDependency p (some c) l).dependencies
        = ds1 ++ { d with parents := d.parents ++ [(p, l)] } :: ds2)
    ∧ (∀ (a : ADAG) (p c : Nat) (l l' : Option String),
      (∀ d ∈ a.dependencies, d.child ≠ some c) →
      ((a.addDependency p (some c) l).addDependency p (some c) l').dependencies
        = a.dependencies
            ++ [{ child := some c, parents := [(p, l), (p, l')] }])
    ∧ (∀ (st : Store) (a : ADAG) (p c1 c2 : Nat) (l : Option String),
      c1 ≠ c2 → (st.getJob c1).id = (st.getJob c2).id →
      (∀ d ∈ a.dependencies, d.child ≠ some c1 ∧ d.child ≠ some c2) →
      ((a.addDependency p (some c1) l).addDependency p (some c2) l).dependencies
        = a.dependencies
            ++ [{ child := some c1, parents := [(p, l)] },
                { child := some c2, parents := [(p, l)] }])
    ∧ (∀ (st : Store) (a : ADAG) (evs : List XEvent)
        (depEvs : List (List XEvent)),
      a.dependencies.mapM (Dep.toEvents st) = .ok depEvs →
      a.toEvents st = .ok evs →
      ∃ pre, evs = pre ++ depEvs.flatten ++ [XEvent.stop "adag"]) := by
  have hb : ∀ (a : ADAG) (p c : Nat) (l : Option String) (ds1 : List Dep)
      (d : Dep) (ds2 : List Dep),
      a.dependencies = ds1 ++ d :: ds2 → d.child = some c →
      (∀ d' ∈ ds1, d'.child ≠ some c) →
      (a.addDependency p (some c) l).dependencies
        = ds1 ++ { d with parents := d.parents ++ [(p, l)] } :: ds2 := by
    intro a p c l ds1 d ds2 hds hdc hne
    have hany : ((ds1 ++ d :: ds2).any (fun d => d.child = some c)) = true := by
      simp [hdc]
    simp only [ADAG.addDependency, hds, hany, if_true]
    rw [depAddParent_append_not_mem _ _ _ _ _ hne]
    simp [depAddParent, hdc]
  refine ⟨addDependency_fresh, hb, ?_, ?_, ?_⟩
  · intro a p c l l' h
    have h1 := addDependency_fresh a p c l h
    have h2 := hb (a.addDependency p (some c) l) p c l' a.dependencies
      { child := some c, parents := [(p, l)] } [] (by rw [h1]) rfl h
    rw [h2]
    simp
  · intro st a p c1 c2 l hne hid h
    have h1 := addDependency_fresh a p c1 l (fun d hd => (h d hd).1)
    have h2 := addDependency_fresh (a.addDependency p (some c1) l) p c2 l
      (by
        rw [h1]
        intro d hd
        rcases List.mem_append.1 hd with hd | hd
        · exact (h d hd).2
        · simp only [List.mem_singleton] at hd
          subst hd
          simp only [ne_eq, Option.some.injEq]
          exact fun hcc => hne hcc)
    rw [h2, h1, List.append_assoc]
    rfl
  · intro st a evs depEvs hmap htoe
    unfold ADAG.toEvents at htoe
    rcases hA : adagAttrs a with e | attrs
    · rw [hA] at htoe; simp [Bind.bind, Except.bind] at htoe
    rw [hA, hmap] at htoe
    simp only [Bind.bind, Except.bind, Except.ok.injEq] at htoe
    refine ⟨[XEvent.start "adag" attrs]
        ++ (a.files.map (fun r => (st.getFile r).toEvents st)).flatten
        ++ (a.executables.map (fun r => (st.getFile r).toEvents st)).flatten
        ++ (a.transformations.map (fun r => (st.getTrans r).toEvents st)).flatten
        ++ (a.jobs.map (fun r => (st.getJob r).toEvents st)).flatten, ?_⟩
    rw [← htoe]

/-- A heap with two distinct job entities that carry the *same* id string. -/
def c7St : Store :=
  { Store.empty with
    jobs := [⟨.job, "a", some "SAME", none, none, none, [], [], [], [], none, none, none⟩,
             ⟨.job, "b", some "SAME", none, none, none, [], [], [], [], none, none, none⟩] }

/-- Witness for C7 (part d): on a fresh graph, registering dependencies for
the two distinct nodes of `c7St` — which carry the same id string — creates
two separate records. -/
theorem C7_dependency_index_witness :
    ((0 : Nat) ≠ 1 ∧ (c7St.getJob 0).id = (c7St.getJob 1).id
      ∧ ∀ d ∈ (ADAG.init (some "w") .pnone .pnone).dependencies,
          d.child ≠ some 0 ∧ d.child ≠ some 1)
    ∧ (((ADAG.init (some "w") .pnone .pnone).addDependency 2 (some 0) none).addDependency
          2 (some 1) none).dependencies
        = [{ child := some 0, parents := [(2, none)] },
           { child := some 1, parents := [(2, none)] }] := by
  refine ⟨⟨by decide, rfl, by simp [ADAG.init]⟩, ?_⟩
  have h := C7_dependency_index.2.2.2.1 c7St (ADAG.init (some "w") .pnone .pnone)
    2 0 1 none (by decide) rfl (by simp [ADAG.init])
  simpa [ADAG.init] using h

theorem aget_append (l1 l2 : List (String × String)) (k : String) :
    aget (l1 ++ l2) k = (aget l1 k).or (aget l2 k) := by
  induction l1 with
  | nil => simp [aget]
  | cons p rest ih =>
      by_cases hp : p.1 = k
      · simp [aget, hp]
      · simp [aget, hp, ih]

/-- The `File` entity produced by `File("post.xml")` (all catalog defaults). -/
def c8File : FileE :=
  ⟨"post.xml", .pnone, .pbool false, .pbool false, .pnone, false, none, none,
    none, none, none, none, none, [], [], []⟩

def c8St : Store := { Store.empty with files := [c8File] }

/-- The node produced by `DAX(File("post.xml"))`. -/
def c8Node : JobE := (SubWf.initOfFile c8St .dax 0).toOption.getD default

/-- **C8, counterexample.**  Constructing a SubDax from `File("post.xml")`
does copy the name and add exactly one implicit `Use` with overrides
`link=input, transfer=True, register=False` — but the emitted `uses` element
does *not* carry `register="false"`: `Use.toXML` only writes attributes whose
effective value is truthy, and `register=False` falls back to the file's
default `register=False`, so the attribute is omitted entirely. -/
theorem C8_register_attribute_omitted :
    File.init (some "post.xml") = .ok c8File
    ∧ SubWf.initOfFile c8St .dax 0 = .ok c8Node
    ∧ c8Node.used_files
        = [{ file := 0, link := .pstr "input", optional := .pnone,
             register := .pbool false, transfer := .pbool true }]
    ∧ aget (Use.attrsX c8St
        { file := 0, link := .pstr "input", optional := .pnone,
          register := .pbool false, transfer := .pbool true }) "register"
        = none := by
  refine ⟨rfl, rfl, rfl, ?_⟩
  decide

/-- **C8 as amended.**  Constructing a SubDax from a LogicalFile named
`post.xml` copies the file's name as the node's name and adds exactly one
implicit Use of that file (`link=input, transfer=True, register=False`), and
encoding that node produces exactly one `uses` element for `post.xml`, with
`link="input"` and `transfer="true"`; the falsy `register` override (whose
fallback, the file's default, is also falsy) is omitted from the element. -/
theorem C8_subdax_implicit_use :
    c8Node.name = "post.xml"
    ∧ c8Node.used_files
        = [{ file := 0, link := .pstr "input", optional := .pnone,
             register := .pbool false, transfer := .pbool true }]
    ∧ (JobE.toEvents c8St c8Node).filter
        (fun e => match e with
          | XEvent.start el _ => el == "uses"
          | _ => false)
        = [XEvent.start "uses"
            [("name", "post.xml"), ("link", "input"), ("transfer", "true")]] := by
  refine ⟨rfl, rfl, ?_⟩
  decide

/-- A falsy explicit override behaves exactly like an unset one. -/
theorem pyOr_falsy {v : PyV} (h : v.truthy = false) (b : PyV) :
    pyOr v b = pyOr .pnone b := by
  unfold pyOr
  rw [h]
  simp [PyV.truthy]

/-- **C10.**  In `Use.toXML`, an override explicitly set to a falsy value
(`False`, `""`, `None`, `0`) is treated exactly like an unset override: the
emitted attribute list is unchanged if the override is replaced by `None`
(for each of link/optional/register/transfer).  In particular a Use with
`register=False` referencing a File whose `register` is `True` is emitted
with `register="true"`, and when the effective value is falsy the attribute
is omitted from the element entirely. -/
theorem C10_falsy_override_fallback :
    (∀ (st : Store) (u : Use) (v : PyV), v.truthy = false →
      Use.attrsX st { u with link := v }
          = Use.attrsX st { u with link := .pnone }
        ∧ Use.attrsX st { u with optional := v }
            = Use.attrsX st { u with optional := .pnone }
        ∧ Use.attrsX st { u with register := v }
            = Use.attrsX st { u with register := .pnone }
        ∧ Use.attrsX st { u with transfer := v }
            = Use.attrsX st { u with transfer := .pnone })
    ∧ (∀ (st : Store) (u : Use), u.register = .pbool false →
        (st.getFile u.file).register = .pbool true →
        aget (Use.attrsX st u) "register" = some "true")
    ∧ (∀ (st : Store) (u : Use),
        (pyOr u.register (st.getFile u.file).register).truthy = false →
        aget (Use.attrsX st u) "register" = none) := by
  refine ⟨?_, ?_, ?_⟩
  · intro st u v h
    refine ⟨?_, ?_, ?_, ?_⟩ <;> simp [Use.attrsX, pyOr_falsy h]
  · intro st u hu hf
    have hreg : pyOr u.register (st.getFile u.file).register = .pbool true := by
      rw [hu, hf]; rfl
    simp only [Use.attrsX, hreg, aget_append]
    cases h1 : (pyOr u.link (st.getFile u.file).link).truthy <;>
      cases h2 : (pyOr u.optional (st.getFile u.file).optional).truthy <;>
        simp [attrIf, aget, PyV.truthy, PyV.toStrLower, PyV.toStr, strLower,
          charLower]
  · intro st u h
    simp only [Use.attrsX, aget_append, h]
    cases h1 : (pyOr u.link (st.getFile u.file).link).truthy <;>
      cases h2 : (pyOr u.optional (st.getFile u.file).optional).truthy <;>
        cases h3 : (pyOr u.transfer (st.getFile u.file).transfer).truthy <;>
          cases h4 : (st.getFile u.file).isExe <;>
            cases h5 : optTruthy (st.getFile u.file).ns <;>
              cases h6 : optTruthy (st.getFile u.file).version <;>
                simp [attrIf, aget]

/-- A file whose catalog-level `register` is `True`. -/
def c10St : Store :=
  { Store.empty with
    files := [⟨"f", .pnone, .pbool true, .pnone, .pnone, false, none, none,
      none, none, none, none, none, [], [], []⟩] }

/-- A use of that file with explicit `register=False`. -/
def c10Use : Use := ⟨0, .pnone, .pnone, .pbool false, .pnone⟩

/-- Witness for C10: the `register=False` override on `c10Use` is ignored
and the referenced file's `register=True` is emitted as `register="true"`. -/
theorem C10_falsy_override_fallback_witness :
    (c10Use.register = .pbool false
      ∧ (c10St.getFile c10Use.file).register = .pbool true)
    ∧ aget (Use.attrsX c10St c10Use) "register" = some "true" :=
  ⟨⟨rfl, rfl⟩, C10_falsy_override_fallback.2.1 c10St c10Use rfl rfl⟩

/-! ## Decoder claims -/

/-- **C9.**  Decoding a document with an element named `bogus` as a direct
child of the graph element aborts the parse at that element and yields no
Graph — but the exception is an `UnboundLocalError`, not the intended
`Exception("Unrecognized element bogus")`: the unknown-element branch
formats the message with the local variable `name`, which is never assigned
on the path to that branch (`element` was meant). -/
theorem C9_bogus_element_aborts :
    parseEvents [.start "adag" [("name", "w")], .start "bogus" [],
      .stop "bogus", .stop "adag"]
      = .error .unboundLocalName := by
  decide

/-- **C4.**  A `profile` element under a `dax` (or `dag`) node is *rejected*
with a context error, although `dax`/`dag` open a current node exactly like
`job` and the `Profile` docstring says profiles can be added to DAX and DAG:
the dispatch only accepts the parents `job`, `file`/`executable` and `pfn`.
Under `job` the same profile decodes fine and is attached to the node with
its value accumulated from character content. -/
theorem C4_profile_under_dax_rejected :
    parseEvents [.start "adag" [("name", "w")],
      .start "dax" [("id", "ID1"), ("name", "d.dax")],
      .start "profile" [("namespace", "env"), ("key", "PATH")],
      .chars "/bin", .stop "profile", .stop "dax", .stop "adag"]
      = .error (.context "profile" (some "dax"))
    ∧ (match parseEvents [.start "adag" [("name", "w")],
        .start "job" [("id", "ID1"), ("name", "j")],
        .start "profile" [("namespace", "env"), ("key", "PATH")],
        .chars "/bin", .stop "profile", .stop "job", .stop "adag"] with
       | .ok (st, some _) =>
           (st.getJob 0).profiles.map (fun r => st.getProfile r)
       | _ => [])
      = [⟨some "env", some "PATH", "/bin"⟩] := by
  refine ⟨by decide, by decide⟩

/-- An optional attribute in a hand-written document: present with a value,
or absent. -/
def optAttr (k : String) : Option String → List (String × String)
  | none => []
  | some v => [(k, v)]

theorem aget_optAttr (k : String) (v : Option String) :
    aget (optAttr k v) k = v := by
  cases v <;> simp [optAttr, aget]

theorem aget_optAttr_ne (k k' : String) (v : Option String) (h : k' ≠ k) :
    aget (optAttr k' v) k = none := by
  cases v <;> simp [optAttr, aget, h]

/-- **C2, counterexample.**  Decoding a document with two top-level
`<file name="f.a"/>` declarations yields a file *catalog list* with **two**
entries, not one: the second declaration re-uses the existing entity via the
name table but `ADAG.addFile` appends it to `adag.files` again. -/
theorem C2_catalog_has_two_entries :
    (match parseEvents [.start "adag" [("name", "w")],
      .start "file" [("name", "f.a")], .stop "file",
      .start "file" [("name", "f.a")], .stop "file",
      .start "job" [("id", "J1"), ("name", "j")],
      .start "uses" [("name", "f.a")], .stop "uses",
      .stop "job", .stop "adag"] with
     | .ok (st, some a) => (st.files.length, a.files)
     | _ => (0, []))
    = (1, [0, 0]) := by
  decide

/-- **C2 as amended.**  Decoding a document with two top-level file
declarations of the same name (each with an optional `link` attribute)
creates exactly **one** `File` entity — from the first declaration; the
second declaration's attributes are ignored — while the graph's file catalog
list receives one (aliased) entry per declaration, and a `uses` element
referencing that name resolves to that same single entity. -/
theorem C2_duplicate_file_declarations (nm jid jn : String)
    (l1 l2 : Option String) :
    parseEvents [.start "adag" [("name", "w")],
      .start "file" ([("name", nm)] ++ optAttr "link" l1), .stop "file",
      .start "file" ([("name", nm)] ++ optAttr "link" l2), .stop "file",
      .start "job" [("id", jid), ("name", jn)],
      .start "uses" [("name", nm)], .stop "uses",
      .stop "job", .stop "adag"]
    = .ok
      ({ files := [⟨nm, optPyV l1, .pbool false, .pbool false, .pnone, false,
                    none, none, none, none, none, none, none, [], [], []⟩],
         jobs := [⟨.job, jn, some jid, none, none, none, [], [],
                   [⟨0, .pnone, .pnone, .pnone, .pnone⟩], [], none, none, none⟩],
         trans := [], profiles := [], metadatas := [], pfns := [] },
       some { name := some "w", count := .pnone, index := .pnone, sequence := 1,
              jobs := [0], files := [0, 0], executables := [],
              dependencies := [], transformations := [] }) := by
  simp [parseEvents, runEvents, DAXHandler.step, DAXHandler.startElement,
    DAXHandler.endElement, DAXHandler.init, aget, dget, dset, aget_optAttr,
    aget_optAttr_ne, File.init, CatalogType.init, Job.init,
    AbstractJob.init, Store.empty, Store.allocFile, Store.allocJob,
    Store.getJob, Store.setJob, ADAG.init, ADAG.addFile, ADAG.addJob,
    JobE.uses, optPyV, optTruthy, Store.getFile, Except.bind, Bind.bind,
    Except.map, pure, Except.pure]

/-- **C6, counterexample.**  For `executable` elements the decoder does *not*
look the name up first: decoding two `<executable name="e"/>` declarations
constructs two distinct entities (heap size 2) and appends both to the
executable catalog — the claim's lookup-first/reuse rule holds for `file`
elements only. -/
theorem C6_executable_not_reused :
    (match parseEvents [.start "adag" [("name", "w")],
      .start "executable" [("name", "e")], .stop "executable",
      .start "executable" [("name", "e")], .stop "executable"] with
     | .ok (st, some a) => (st.files.length, a.executables)
     | _ => (0, []))
    = (2, [0, 1]) := by
  decide

/-- **C6 as amended.**  As a direct child of the graph element: a `file`
element is looked up by name in the name table first — if present the
existing entity is reused and the repeated declaration's attributes are
ignored (first definition wins), otherwise a fresh entity is constructed and
registered both in the table and in the file catalog.  An `executable`
element, by contrast, never consults the table: it always constructs a fresh
entity, overwrites the table binding for its name, and appends to the
executable catalog. -/
theorem C6_catalog_registration (h : DAXHandler) (a : ADAG) (nm : String)
    (rest : List String) (extra : List (String × String)) :
    (∀ r, h.elements = "adag" :: rest → h.adag = some a →
      dget h.filemap (some nm) = some r →
      h.startElement "file" (("name", nm) :: extra)
        = .ok { h with elements := "file" :: "adag" :: rest,
                       adag := some (a.addFile r), lastFile := some r })
    ∧ (h.elements = "adag" :: rest → h.adag = some a →
      dget h.filemap (some nm) = none →
      h.startElement "file" (("name", nm) :: extra)
        = .ok { h with elements := "file" :: "adag" :: rest,
                       store := { h.store with files := h.store.files
                         ++ [⟨nm, optPyV (aget extra "link"), .pbool false,
                              .pbool false, .pnone, false, none, none, none,
                              none, none, none, none, [], [], []⟩] },
                       filemap := dset h.filemap (some nm) h.store.files.length,
                       adag := some (a.addFile h.store.files.length),
                       lastFile := some h.store.files.length })
    ∧ (h.elements = "adag" :: rest → h.adag = some a →
      h.startElement "executable" (("name", nm) :: extra)
        = .ok { h with elements := "executable" :: "adag" :: rest,
                       store := { h.store with files := h.store.files
                         ++ [⟨nm, .pstr "input", .pbool false, .pbool true,
                              .pnone, true, aget extra "namespace",
                              aget extra "version", aget extra "arch",
                              aget extra "os", aget extra "osrelease",
                              aget extra "osversion", aget extra "glibc",
                              [], [], []⟩] },
                       filemap := dset h.filemap (some nm) h.store.files.length,
                       adag := some (a.addExecutable h.store.files.length),
                       lastFile := some h.store.files.length }) := by
  refine ⟨?_, ?_, ?_⟩
  · intro r hel had hget
    simp [DAXHandler.startElement, hel, had, aget, hget]
  · intro hel had hget
    simp [DAXHandler.startElement, hel, had, aget, hget, File.init,
      CatalogType.init, Store.allocFile, optPyV]
  · intro hel had
    simp [DAXHandler.startElement, hel, had, aget, Executable.init,
      CatalogType.init, Store.allocFile, Except.bind, Bind.bind]

/-- Witness for C6: on a handler whose table already binds `"f"`, a repeated
`<file name="f" link="x"/>` reuses entity 0 and ignores the `link`
attribute, appending the alias to the catalog. -/
theorem C6_catalog_registration_witness :
    (({ DAXHandler.init with
          elements := ["adag"],
          adag := some (ADAG.init (some "w") .pnone .pnone),
          filemap := [(some "f", 0)] } : DAXHandler).elements = ["adag"]
      ∧ dget [(some "f", 0)] (some "f") = some 0)
    ∧ ({ DAXHandler.init with
          elements := ["adag"],
          adag := some (ADAG.init (some "w") .pnone .pnone),
          filemap := [(some "f", 0)] } : DAXHandler).startElement "file"
            [("name", "f"), ("link", "x")]
        = .ok { DAXHandler.init with
                elements := ["file", "adag"],
                adag := some ((ADAG.init (some "w") .pnone .pnone).addFile 0),
                filemap := [(some "f", 0)],
                lastFile := some 0 } := by
  refine ⟨⟨rfl, by decide⟩, ?_⟩
  exact (C6_catalog_registration
      { DAXHandler.init with
        elements := ["adag"],
        adag := some (ADAG.init (some "w") .pnone .pnone),
        filemap := [(some "f", 0)] }
      (ADAG.init (some "w") .pnone .pnone) "f" [] [("link", "x")]).1
    0 rfl rfl (by decide)

/-! ## Round trip (C1): word splitting -/

/-- A shell word: nonempty and whitespace-free.  (`argTokenOK` below adds
the exclusion of the characters that would defeat the shlex model.) -/
def wordlike (s : String) : Prop :=
  s.data ≠ [] ∧ ∀ c ∈ s.data, ¬c.isWhitespace

/-- An argument token on which the shlex model is exact: a `wordlike` word
containing no double quote (code 34), no single quote (code 39) and no
backslash (code 92) — the only non-whitespace characters that
`shlex.split`'s POSIX lexer treats specially (comments are off, so the hash
is ordinary).  A token carrying a quote would decode with the quote
stripped, and an unbalanced quote or trailing backslash raises
`ValueError`, so such graphs are excluded from the amended round trip. -/
def argTokenOK (s : String) : Prop :=
  wordlike s ∧ ∀ c ∈ s.data, c.toNat ≠ 34 ∧ c.toNat ≠ 39 ∧ c.toNat ≠ 92

theorem data_append (s t : String) : (s ++ t).data = s.data ++ t.data := rfl

theorem mk_data (s : String) : String.mk s.data = s := rfl

theorem map_mk_data (ws : List String) : ws.map (String.mk ∘ String.data) = ws := by
  induction ws with
  | nil => rfl
  | cons w rest ih => simp [ih, mk_data]

theorem foldl_splitStep_word (w : List Char) (hw : ∀ c ∈ w, ¬c.isWhitespace)
    (ws : List (List Char)) (acc : List Char) :
    w.foldl splitStep (ws, acc) = (ws, w.reverse ++ acc) := by
  induction w generalizing acc with
  | nil => simp
  | cons c cs ih =>
      have hc : c.isWhitespace = false := by
        simpa using hw c (List.mem_cons_self _ _)
      rw [List.foldl_cons,
        show splitStep (ws, acc) c = (ws, c :: acc) by simp [splitStep, hc]]
      rw [ih (fun c h => hw c (List.mem_cons_of_mem _ h))]
      simp

theorem space_data : (" " : String).data = [' '] := rfl

theorem splitStep_space (p : List (List Char) × List Char) :
    splitStep p ' ' = (flushWS p, []) := by
  have hws : (' ').isWhitespace = true := rfl
  by_cases h : p.2 = [] <;> simp [splitStep, flushWS, hws, h]

/-- "The buffer `acc` splits into the words `ws` with no pending partial
word": the state after a separator (or at the very start). -/
def sepSt (acc : String) (ws : List String) : Prop :=
  acc.data.foldl splitStep ([], []) = (ws.map String.data, [])

theorem sepSt_nil : sepSt "" [] := rfl

theorem sepSt_space {acc : String} {ws : List String} (h : sepSt acc ws) :
    sepSt (acc ++ " ") ws := by
  unfold sepSt at h ⊢
  rw [data_append, List.foldl_append, h, space_data, List.foldl_cons,
    List.foldl_nil, splitStep_space]
  simp [flushWS]

theorem sepSt_word_split {acc : String} {ws : List String} {w : String}
    (h : sepSt acc ws) (hw : wordlike w) :
    shlexSplit (acc ++ w) = ws ++ [w] := by
  unfold sepSt at h
  unfold shlexSplit
  rw [data_append, List.foldl_append, h,
    foldl_splitStep_word w.data hw.2 _ _]
  simp only [flushWS, List.append_nil]
  rw [if_neg (by simpa using hw.1)]
  simp [mk_data, map_mk_data]

theorem sepSt_word_space {acc : String} {ws : List String} {w : String}
    (h : sepSt acc ws) (hw : wordlike w) :
    sepSt (acc ++ w ++ " ") (ws ++ [w]) := by
  unfold sepSt at h ⊢
  rw [data_append, data_append, List.foldl_append, List.foldl_append, h,
    foldl_splitStep_word w.data hw.2 _ _, space_data, List.foldl_cons,
    List.foldl_nil, splitStep_space]
  simp only [flushWS, List.append_nil]
  rw [if_neg (by simpa using hw.1)]
  simp

theorem shlexSplit_sepSt {acc : String} {ws : List String} (h : sepSt acc ws) :
    shlexSplit acc = ws := by
  unfold shlexSplit
  rw [h]
  simp [flushWS, map_mk_data]

theorem shlexSplit_empty : shlexSplit "" = [] := rfl

/-! ## Round trip (C1): signatures

The claim's structural equality is over node ids, argument sequences
(literal tokens and file references), use-attribute overrides, and
dependency edges with labels; entities are compared through their arena
references' content, file references through the referenced name. -/

inductive ArgSig where
  | lit (s : String)
  | file (name : String)
  deriving Repr, DecidableEq

def Arg.sig (st : Store) : Arg → ArgSig
  | .lit s => .lit s
  | .file r => .file (st.getFile r).name

structure UseSig where
  name : String
  link : PyV
  optional : PyV
  register : PyV
  transfer : PyV
  deriving Repr, DecidableEq

def Use.sig (st : Store) (u : Use) : UseSig :=
  ⟨(st.getFile u.file).name, u.link, u.optional, u.register, u.transfer⟩

structure NodeSig where
  id : Option String
  args : List ArgSig
  uses : List UseSig
  deriving Repr, DecidableEq

def nodeSig (st : Store) (r : Nat) : NodeSig :=
  ⟨(st.getJob r).id, (st.getJob r).arguments.map (Arg.sig st),
   (st.getJob r).used_files.map (Use.sig st)⟩

structure DepSig where
  child : Option String
  parents : List (Option String × Option String)
  deriving Repr, DecidableEq

def depSig (st : Store) (d : Dep) : DepSig :=
  ⟨d.child.bind (fun c => (st.getJob c).id),
   d.parents.map (fun p => ((st.getJob p.1).id, p.2))⟩

/-- The compared structure: node signatures in graph order and dependency
signatures in record order. -/
def graphSig (st : Store) (a : ADAG) : List NodeSig × List DepSig :=
  (a.jobs.map (nodeSig st), a.dependencies.map (depSig st))

/-! ## Round trip (C1): store evolution frames -/

/-- The fields of a catalog entity never touched by decode-time inner-element
mutation (which only appends to `profiles`/`metadata`/`pfns`). -/
def fileCore (f : FileE) :
    String × PyV × PyV × PyV × PyV × Bool × Option String × Option String :=
  (f.name, f.link, f.register, f.transfer, f.optional, f.isExe, f.ns, f.version)

/-- File-arena evolution during decode: entities are only appended, or
inner-mutated in ways that keep their core. -/
def FilesExt (s1 s2 : Store) : Prop :=
  s1.files.length ≤ s2.files.length
  ∧ ∀ i, i < s1.files.length → fileCore (s2.getFile i) = fileCore (s1.getFile i)

theorem filesExt_refl (s : Store) : FilesExt s s :=
  ⟨Nat.le_refl _, fun _ _ => rfl⟩

theorem filesExt_trans {s1 s2 s3 : Store} (h1 : FilesExt s1 s2)
    (h2 : FilesExt s2 s3) : FilesExt s1 s3 :=
  ⟨h1.1.trans h2.1,
   fun i hi => (h2.2 i (Nat.lt_of_lt_of_le hi h1.1)).trans (h1.2 i hi)⟩

theorem filesExt_name_eq {s1 s2 : Store} (h : FilesExt s1 s2) {i : Nat}
    (hi : i < s1.files.length) :
    (s2.getFile i).name = (s1.getFile i).name :=
  congrArg (fun p => p.1) (h.2 i hi)

/-- Store evolution during decode, outside the current node: jobs unchanged,
files only appended or inner-mutated. -/
def StoreExt (s1 s2 : Store) : Prop :=
  s1.jobs = s2.jobs ∧ FilesExt s1 s2

theorem storeExt_refl (s : Store) : StoreExt s s :=
  ⟨rfl, filesExt_refl s⟩

theorem storeExt_trans {s1 s2 s3 : Store} (h1 : StoreExt s1 s2)
    (h2 : StoreExt s2 s3) : StoreExt s1 s3 :=
  ⟨h1.1.trans h2.1, filesExt_trans h1.2 h2.2⟩

theorem storeExt_name_eq {s1 s2 : Store} (h : StoreExt s1 s2) {i : Nat}
    (hi : i < s1.files.length) :
    (s2.getFile i).name = (s1.getFile i).name :=
  filesExt_name_eq h.2 hi

/-- The name table is well-formed: every binding maps `some nm` to an
in-range entity named `nm`. -/
def FilemapWF (st : Store) (fm : List (Option String × Nat)) : Prop :=
  ∀ kv ∈ fm, ∃ nm, kv.1 = some nm ∧ kv.2 < st.files.length
    ∧ (st.getFile kv.2).name = nm

theorem FilemapWF.mono {s1 s2 : Store} {fm : List (Option String × Nat)}
    (h : FilemapWF s1 fm) (hext : FilesExt s1 s2) : FilemapWF s2 fm := by
  intro kv hkv
  obtain ⟨nm, h1, h2, h3⟩ := h kv hkv
  exact ⟨nm, h1, Nat.lt_of_lt_of_le h2 hext.1,
    ((filesExt_name_eq hext h2)).trans h3⟩

theorem FilemapWF.lookup {st : Store} {fm : List (Option String × Nat)}
    (h : FilemapWF st fm) {nm : String} {r : Nat}
    (hl : dget fm (some nm) = some r) :
    r < st.files.length ∧ (st.getFile r).name = nm := by
  induction fm with
  | nil => simp [dget] at hl
  | cons kv rest ih =>
      by_cases hk : kv.1 = some nm
      · rw [dget, if_pos hk] at hl
        obtain ⟨nm', h1, h2, h3⟩ := h kv (List.mem_cons_self _ _)
        cases hl
        rw [h1] at hk
        cases hk
        exact ⟨h2, h3⟩
      · rw [dget, if_neg hk] at hl
        exact ih (fun kv' hkv' => h kv' (List.mem_cons_of_mem _ hkv')) hl

/-! ## Round trip (C1): running event sections -/

theorem runEvents_append (h : DAXHandler) (l1 l2 : List XEvent) :
    runEvents h (l1 ++ l2)
      = match runEvents h l1 with
        | .ok h' => runEvents h' l2
        | .error e => .error e := by
  induction l1 generalizing h with
  | nil => simp [runEvents]
  | cons e rest ih =>
      rw [List.cons_append, runEvents, runEvents]
      cases h.step e with
      | ok h' => exact ih h'
      | error err => rfl

/-- The jobs/dependencies/sequence part of the graph under construction. -/
def adagJDS : Option ADAG → Option (List Nat × List Dep × Nat)
  | none => none
  | some a => some (a.jobs, a.dependencies, a.sequence)

/-- What every decode step of a catalog or transformation section preserves:
the element stack is restored, the job arena and the graph's
jobs/dependencies/counter are untouched, the resolution state for the node
and dependency sections is untouched, and the name table stays well-formed
over a file arena that only grows. -/
def CatStep (h h' : DAXHandler) : Prop :=
  h'.elements = h.elements
  ∧ StoreExt h.store h'.store
  ∧ h'.jobmap = h.jobmap
  ∧ h'.lastJob = h.lastJob
  ∧ h'.lastChild = h.lastChild
  ∧ h'.lastArgument = h.lastArgument
  ∧ h'.lastInvoke = h.lastInvoke
  ∧ adagJDS h'.adag = adagJDS h.adag
  ∧ (FilemapWF h.store h.filemap → FilemapWF h'.store h'.filemap)

theorem catStep_refl (h : DAXHandler) : CatStep h h :=
  ⟨rfl, storeExt_refl _, rfl, rfl, rfl, rfl, rfl, rfl, id⟩

theorem catStep_trans {h1 h2 h3 : DAXHandler} (a : CatStep h1 h2)
    (b : CatStep h2 h3) : CatStep h1 h3 :=
  ⟨b.1.trans a.1, storeExt_trans a.2.1 b.2.1, b.2.2.1.trans a.2.2.1,
   b.2.2.2.1.trans a.2.2.2.1, b.2.2.2.2.1.trans a.2.2.2.2.1,
   b.2.2.2.2.2.1.trans a.2.2.2.2.2.1,
   b.2.2.2.2.2.2.1.trans a.2.2.2.2.2.2.1,
   b.2.2.2.2.2.2.2.1.trans a.2.2.2.2.2.2.2.1,
   fun hwf => b.2.2.2.2.2.2.2.2 (a.2.2.2.2.2.2.2.2 hwf)⟩

/-- Composition: a list of event blocks, each of which runs to success under
an invariant `P` while performing a `CatStep`, runs to success as a whole. -/
theorem runEvents_blocks {P : DAXHandler → Prop} (blocks : List (List XEvent))
    (h : DAXHandler) (hP : P h)
    (hstep : ∀ h' b, P h' → b ∈ blocks →
      ∃ h'', runEvents h' b = .ok h'' ∧ CatStep h' h'' ∧ P h'') :
    ∃ h', runEvents h blocks.flatten = .ok h' ∧ CatStep h h' ∧ P h' := by
  induction blocks generalizing h with
  | nil => exact ⟨h, rfl, catStep_refl h, hP⟩
  | cons b rest ih =>
      obtain ⟨h1, hrun, hcs, hP1⟩ :=
        hstep h b hP (List.mem_cons_self _ _)
      obtain ⟨h2, hrun2, hcs2, hP2⟩ := ih h1 hP1
        (fun h' b' hP' hb' => hstep h' b' hP' (List.mem_cons_of_mem _ hb'))
      refine ⟨h2, ?_, catStep_trans hcs hcs2, hP2⟩
      rw [List.flatten_cons, runEvents_append, hrun]
      exact hrun2

theorem runEvents_cons_ok {h h1 : DAXHandler} {e : XEvent} (rest : List XEvent)
    (hs : h.step e = .ok h1) : runEvents h (e :: rest) = runEvents h1 rest := by
  rw [runEvents, hs]

/-! ### Step equations: element-end events -/

theorem step_stop_other (h : DAXHandler) (el : String)
    (hel : el ∈ ["file", "executable", "uses", "stdin", "stdout", "stderr",
      "parent", "adag"]) :
    h.step (.stop el) = .ok { h with elements := h.elements.drop 1 } := by
  fin_cases hel <;> simp [DAXHandler.step, DAXHandler.endElement]

theorem step_stop_profile (h : DAXHandler) :
    h.step (.stop "profile")
      = .ok { h with elements := h.elements.drop 1, lastProfile := none } := by
  simp [DAXHandler.step, DAXHandler.endElement]

theorem step_stop_metadata (h : DAXHandler) :
    h.step (.stop "metadata")
      = .ok { h with elements := h.elements.drop 1, lastMetadata := none } := by
  simp [DAXHandler.step, DAXHandler.endElement]

theorem step_stop_pfn (h : DAXHandler) :
    h.step (.stop "pfn")
      = .ok { h with elements := h.elements.drop 1, lastPFN := none } := by
  simp [DAXHandler.step, DAXHandler.endElement]

theorem step_stop_transformation (h : DAXHandler) :
    h.step (.stop "transformation")
      = .ok { h with elements := h.elements.drop 1,
                     lastTransformation := none } := by
  simp [DAXHandler.step, DAXHandler.endElement]

theorem step_stop_child (h : DAXHandler) :
    h.step (.stop "child")
      = .ok { h with elements := h.elements.drop 1, lastChild := none } := by
  simp [DAXHandler.step, DAXHandler.endElement]

theorem step_stop_node (h : DAXHandler) (el : String)
    (hel : el ∈ ["job", "dax", "dag"]) :
    h.step (.stop el)
      = .ok { h with elements := h.elements.drop 1, lastJob := none } := by
  fin_cases hel <;> simp [DAXHandler.step, DAXHandler.endElement]

theorem step_stop_argument (h : DAXHandler) {args : List Arg} {j : Nat}
    (ha : h.lastArgument = some args) (hj : h.lastJob = some j) :
    h.step (.stop "argument")
      = .ok { h with
          elements := h.elements.drop 1,
          store := { h.store with jobs := h.store.jobs.set j ((h.store.getJob j).addArguments args) },
          lastArgument := none } := by
  simp [DAXHandler.step, DAXHandler.endElement, ha, hj, Store.setJob]

theorem step_stop_invoke (h : DAXHandler) {w : Option String} {t : String}
    {j : Nat} (hi : h.lastInvoke = some (w, t)) (hj : h.lastJob = some j) :
    h.step (.stop "invoke")
      = .ok { h with
          elements := h.elements.drop 1,
          store := { h.store with jobs := h.store.jobs.set j ((h.store.getJob j).invoke w t) },
          lastInvoke := none } := by
  simp [DAXHandler.step, DAXHandler.endElement, hi, hj, Store.setJob]

/-! ### Step equations: character events -/

theorem step_chars_profile (h : DAXHandler) {rest : List String} {r : Nat}
    (hel : h.elements = "profile" :: rest) (hp : h.lastProfile = some r)
    (s : String) :
    h.step (.chars s)
      = .ok { h with
          store := { h.store with profiles := h.store.profiles.set r { h.store.getProfile r with value := (h.store.getProfile r).value ++ s } } } := by
  simp [DAXHandler.step, DAXHandler.characters, hel, hp, Store.setProfile]

theorem step_chars_metadata (h : DAXHandler) {rest : List String} {r : Nat}
    (hel : h.elements = "metadata" :: rest) (hm : h.lastMetadata = some r)
    (s : String) :
    h.step (.chars s)
      = .ok { h with
          store := { h.store with metadatas := h.store.metadatas.set r { h.store.getMetadata r with value := (h.store.getMetadata r).value ++ s } } } := by
  simp [DAXHandler.step, DAXHandler.characters, hel, hm, Store.setMetadata]

theorem step_chars_invoke (h : DAXHandler) {rest : List String}
    {w : Option String} {t : String}
    (hel : h.elements = "invoke" :: rest) (hi : h.lastInvoke = some (w, t))
    (s : String) :
    h.step (.chars s) = .ok { h with lastInvoke := some (w, t ++ s) } := by
  simp [DAXHandler.step, DAXHandler.characters, hel, hi]

theorem step_chars_argument (h : DAXHandler) {rest : List String}
    {args : List Arg}
    (hel : h.elements = "argument" :: rest) (ha : h.lastArgument = some args)
    (s : String) :
    h.step (.chars s)
      = .ok { h with lastArgument := some (args ++ (shlexSplit s).map Arg.lit) } := by
  simp [DAXHandler.step, DAXHandler.characters, hel, ha]

/-! ### Step equations: element-start events -/

theorem step_start_adag (h : DAXHandler) (attrs : List (String × String)) :
    h.step (.start "adag" attrs)
      = .ok { h with
          elements := "adag" :: h.elements,
          adag := some (ADAG.init (aget attrs "name")
            (optPyV (aget attrs "count")) (optPyV (aget attrs "index"))) } := by
  simp [DAXHandler.step, DAXHandler.startElement]

theorem step_start_argument (h : DAXHandler) (attrs : List (String × String)) :
    h.step (.start "argument" attrs)
      = .ok { h with
          elements := "argument" :: h.elements,
          lastArgument := some [] } := by
  simp [DAXHandler.step, DAXHandler.startElement]

theorem step_start_invoke (h : DAXHandler) (attrs : List (String × String)) :
    h.step (.start "invoke" attrs)
      = .ok { h with
          elements := "invoke" :: h.elements,
          lastInvoke := some (aget attrs "when", "") } := by
  simp [DAXHandler.step, DAXHandler.startElement]

theorem step_start_child (h : DAXHandler) (attrs : List (String × String))
    {c : Nat} (hl : dget h.jobmap (aget attrs "ref") = some c) :
    h.step (.start "child" attrs)
      = .ok { h with
          elements := "child" :: h.elements,
          lastChild := some c } := by
  simp [DAXHandler.step, DAXHandler.startElement, hl]

theorem step_start_parent (h : DAXHandler) (attrs : List (String × String))
    {p : Nat} {a : ADAG}
    (hl : dget h.jobmap (aget attrs "ref") = some p) (ha : h.adag = some a) :
    h.step (.start "parent" attrs)
      = .ok { h with
          elements := "parent" :: h.elements,
          adag := some (a.addDependency p h.lastChild
            (aget attrs "edge-label")) } := by
  simp [DAXHandler.step, DAXHandler.startElement, hl, ha]

theorem step_start_transformation (h : DAXHandler)
    (attrs : List (String × String)) {a : ADAG} (ha : h.adag = some a) :
    h.step (.start "transformation" attrs)
      = .ok { h with
          elements := "transformation" :: h.elements,
          store := { h.store with trans := h.store.trans
            ++ [Transformation.init (aget attrs "name")
                 (aget attrs "namespace") (aget attrs "version")] },
          lastTransformation := some h.store.trans.length,
          adag := some (a.addTransformation h.store.trans.length) } := by
  simp [DAXHandler.step, DAXHandler.startElement, ha, Store.allocTrans]

theorem step_start_profile_file (h : DAXHandler)
    (attrs : List (String × String)) {el0 : String} {rest : List String}
    {f : Nat} (hel : h.elements = el0 :: rest)
    (hp : el0 = "file" ∨ el0 = "executable") (hf : h.lastFile = some f) :
    h.step (.start "profile" attrs)
      = .ok { h with
          elements := "profile" :: h.elements,
          store := { h.store with
            profiles := h.store.profiles ++ [⟨aget attrs "namespace", aget attrs "key", ""⟩],
            files := h.store.files.set f ((h.store.getFile f).addProfile h.store.profiles.length) },
          lastProfile := some h.store.profiles.length } := by
  rcases hp with rfl | rfl <;>
    simp [DAXHandler.step, DAXHandler.startElement, hel, hf,
      Store.allocProfile, Store.setFile, Store.getFile]

theorem step_start_profile_pfn (h : DAXHandler)
    (attrs : List (String × String)) {rest : List String} {q : Nat}
    (hel : h.elements = "pfn" :: rest) (hq : h.lastPFN = some q) :
    h.step (.start "profile" attrs)
      = .ok { h with
          elements := "profile" :: h.elements,
          store := { h.store with
            profiles := h.store.profiles ++ [⟨aget attrs "namespace", aget attrs "key", ""⟩],
            pfns := h.store.pfns.set q ((h.store.getPFN q).addProfile h.store.profiles.length) },
          lastProfile := some h.store.profiles.length } := by
  simp [DAXHandler.step, DAXHandler.startElement, hel, hq,
    Store.allocProfile, Store.setPFN, Store.getPFN]

theorem step_start_profile_job (h : DAXHandler)
    (attrs : List (String × String)) {rest : List String} {j : Nat}
    (hel : h.elements = "job" :: rest) (hj : h.lastJob = some j) :
    h.step (.start "profile" attrs)
      = .ok { h with
          elements := "profile" :: h.elements,
          store := { h.store with
            profiles := h.store.profiles ++ [⟨aget attrs "namespace", aget attrs "key", ""⟩],
            jobs := h.store.jobs.set j ((h.store.getJob j).addProfile h.store.profiles.length) },
          lastProfile := some h.store.profiles.length } := by
  simp [DAXHandler.step, DAXHandler.startElement, hel, hj,
    Store.allocProfile, Store.setJob, Store.getJob]

theorem step_start_metadata_file (h : DAXHandler)
    (attrs : List (String × String)) {el0 : String} {rest : List String}
    {f : Nat} (hel : h.elements = el0 :: rest)
    (hp : el0 = "file" ∨ el0 = "executable") (hf : h.lastFile = some f) :
    h.step (.start "metadata" attrs)
      = .ok { h with
          elements := "metadata" :: h.elements,
          store := { h.store with
            metadatas := h.store.metadatas ++ [⟨aget attrs "key", aget attrs "type", ""⟩],
            files := h.store.files.set f ((h.store.getFile f).addMetadata h.store.metadatas.length) },
          lastMetadata := some h.store.metadatas.length } := by
  rcases hp with rfl | rfl <;>
    simp [DAXHandler.step, DAXHandler.startElement, hel, hf,
      Store.allocMetadata, Store.setFile, Store.getFile]

theorem step_start_pfn_file (h : DAXHandler)
    (attrs : List (String × String)) {el0 : String} {rest : List String}
    {f : Nat} (hel : h.elements = el0 :: rest)
    (hp : el0 = "file" ∨ el0 = "executable") (hf : h.lastFile = some f) :
    h.step (.start "pfn" attrs)
      = .ok { h with
          elements := "pfn" :: h.elements,
          store := { h.store with
            pfns := h.store.pfns ++ [⟨aget attrs "url", aget attrs "site", []⟩],
            files := h.store.files.set f ((h.store.getFile f).addPFN h.store.pfns.length) },
          lastPFN := some h.store.pfns.length } := by
  rcases hp with rfl | rfl <;>
    simp [DAXHandler.step, DAXHandler.startElement, hel, hf,
      Store.allocPFN, Store.setFile, Store.getFile]

theorem step_start_file_adag_found (h : DAXHandler)
    (attrs : List (String × String)) {rest : List String} {a : ADAG}
    {nm : String} {r : Nat}
    (hel : h.elements = "adag" :: rest) (ha : h.adag = some a)
    (hn : aget attrs "name" = some nm)
    (hlk : dget h.filemap (some nm) = some r) :
    h.step (.start "file" attrs)
      = .ok { h with
          elements := "file" :: h.elements,
          adag := some (a.addFile r),
          lastFile := some r } := by
  simp [DAXHandler.step, DAXHandler.startElement, hel, ha, hn, hlk]

theorem step_start_file_adag_fresh (h : DAXHandler)
    (attrs : List (String × String)) {rest : List String} {a : ADAG}
    {nm : String}
    (hel : h.elements = "adag" :: rest) (ha : h.adag = some a)
    (hn : aget attrs "name" = some nm)
    (hlk : dget h.filemap (some nm) = none) :
    h.step (.start "file" attrs)
      = .ok { h with
          elements := "file" :: h.elements,
          store := { h.store with files := h.store.files
            ++ [⟨nm, optPyV (aget attrs "link"), .pbool false, .pbool false,
                 .pnone, false, none, none, none, none, none, none, none,
                 [], [], []⟩] },
          filemap := dset h.filemap (some nm) h.store.files.length,
          adag := some (a.addFile h.store.files.length),
          lastFile := some h.store.files.length } := by
  simp [DAXHandler.step, DAXHandler.startElement, hel, ha, hn, hlk,
    File.init, CatalogType.init, Store.allocFile]

theorem step_start_file_arg_found (h : DAXHandler)
    (attrs : List (String × String)) {rest : List String}
    {args : List Arg} {nm : String} {r : Nat}
    (hel : h.elements = "argument" :: rest)
    (harg : h.lastArgument = some args)
    (hn : aget attrs "name" = some nm)
    (hlk : dget h.filemap (some nm) = some r) :
    h.step (.start "file" attrs)
      = .ok { h with
          elements := "file" :: h.elements,
          lastArgument := some (args ++ [.file r]),
          lastFile := some r } := by
  simp [DAXHandler.step, DAXHandler.startElement, hel, harg, hn, hlk]

theorem step_start_file_arg_fresh (h : DAXHandler)
    (attrs : List (String × String)) {rest : List String}
    {args : List Arg} {nm : String}
    (hel : h.elements = "argument" :: rest)
    (harg : h.lastArgument = some args)
    (hn : aget attrs "name" = some nm)
    (hlk : dget h.filemap (some nm) = none) :
    h.step (.start "file" attrs)
      = .ok { h with
          elements := "file" :: h.elements,
          store := { h.store with files := h.store.files
            ++ [⟨nm, optPyV (aget attrs "link"), .pbool false, .pbool false,
                 .pnone, false, none, none, none, none, none, none, none,
                 [], [], []⟩] },
          filemap := dset h.filemap (some nm) h.store.files.length,
          lastArgument := some (args ++ [.file h.store.files.length]),
          lastFile := some h.store.files.length } := by
  simp [DAXHandler.step, DAXHandler.startElement, hel, harg, hn, hlk,
    File.init, CatalogType.init, Store.allocFile]

theorem step_start_exe_adag (h : DAXHandler)
    (attrs : List (String × String)) {a : ADAG} {nm : String}
    (ha : h.adag = some a) (hn : aget attrs "name" = some nm) :
    h.step (.start "executable" attrs)
      = .ok { h with
          elements := "executable" :: h.elements,
          store := { h.store with files := h.store.files
            ++ [⟨nm, .pstr "input", .pbool false, .pbool true, .pnone, true,
                 aget attrs "namespace", aget attrs "version",
                 aget attrs "arch", aget attrs "os", aget attrs "osrelease",
                 aget attrs "osversion", aget attrs "glibc", [], [], []⟩] },
          filemap := dset h.filemap (some nm) h.store.files.length,
          adag := some (a.addExecutable h.store.files.length),
          lastFile := some h.store.files.length } := by
  simp [DAXHandler.step, DAXHandler.startElement, ha, hn,
    Executable.init, CatalogType.init, Store.allocFile, Bind.bind, Except.bind]

theorem step_start_job (h : DAXHandler) (attrs : List (String × String))
    {a : ADAG} {nmS idS : String}
    (ha : h.adag = some a) (hn : aget attrs "name" = some nmS)
    (hid : aget attrs "id" = some idS) :
    h.step (.start "job" attrs)
      = .ok { h with
          elements := "job" :: h.elements,
          store := { h.store with jobs := h.store.jobs
            ++ [⟨.job, nmS, some idS, aget attrs "node-label",
                 (if optTruthy (aget attrs "namespace") then aget attrs "namespace" else none),
                 (if optTruthy (aget attrs "version") then aget attrs "version" else none),
                 [], [], [], [], none, none, none⟩] },
          adag := some { a with jobs := a.jobs ++ [h.store.jobs.length] },
          jobmap := dset h.jobmap (some idS) h.store.jobs.length,
          lastJob := some h.store.jobs.length } := by
  simp [DAXHandler.step, DAXHandler.startElement, ha, hn, hid,
    Job.init, AbstractJob.init, Store.allocJob, ADAG.addJob, Store.getJob,
    Store.setJob, Bind.bind, Except.bind]

theorem step_start_dag (h : DAXHandler) (attrs : List (String × String))
    {a : ADAG} {nmS idS : String}
    (ha : h.adag = some a) (hn : aget attrs "name" = some nmS)
    (hid : aget attrs "id" = some idS) :
    h.step (.start "dag" attrs)
      = .ok { h with
          elements := "dag" :: h.elements,
          store := { h.store with jobs := h.store.jobs
            ++ [⟨.dag, nmS, some idS, aget attrs "node-label", none, none,
                 [], [], [], [], none, none, none⟩] },
          adag := some { a with jobs := a.jobs ++ [h.store.jobs.length] },
          jobmap := dset h.jobmap (some idS) h.store.jobs.length,
          lastJob := some h.store.jobs.length } := by
  simp [DAXHandler.step, DAXHandler.startElement, ha, hn, hid,
    SubWf.init, AbstractJob.init, Store.allocJob, ADAG.addJob, Store.getJob,
    Store.setJob, Bind.bind, Except.bind]

theorem step_start_dax (h : DAXHandler) (attrs : List (String × String))
    {a : ADAG} {nmS idS : String}
    (ha : h.adag = some a) (hn : aget attrs "name" = some nmS)
    (hid : aget attrs "id" = some idS) :
    h.step (.start "dax" attrs)
      = .ok { h with
          elements := "dax" :: h.elements,
          store := { h.store with jobs := h.store.jobs
            ++ [⟨.dax, nmS, some idS, aget attrs "node-label", none, none,
                 [], [], [], [], none, none, none⟩] },
          adag := some { a with jobs := a.jobs ++ [h.store.jobs.length] },
          jobmap := dset h.jobmap (some idS) h.store.jobs.length,
          lastJob := some h.store.jobs.length } := by
  simp [DAXHandler.step, DAXHandler.startElement, ha, hn, hid,
    SubWf.init, AbstractJob.init, Store.allocJob, ADAG.addJob, Store.getJob,
    Store.setJob, Bind.bind, Except.bind]

theorem step_start_stdin (h : DAXHandler) (attrs : List (String × String))
    {j : Nat} {nmS : String}
    (hj : h.lastJob = some j) (hn : aget attrs "name" = some nmS) :
    h.step (.start "stdin" attrs)
      = .ok { h with
          elements := "stdin" :: h.elements,
          store := { h.store with
            files := h.store.files
              ++ [⟨nmS, optPyV (aget attrs "link"), .pbool false, .pbool false,
                   .pnone, false, none, none, none, none, none, none, none,
                   [], [], []⟩],
            jobs := h.store.jobs.set j ((h.store.getJob j).setStdin h.store.files.length) } } := by
  simp [DAXHandler.step, DAXHandler.startElement, hj, hn, File.init,
    CatalogType.init, Store.allocFile, Store.getJob, Store.setJob,
    Bind.bind, Except.bind]

theorem step_start_stdout (h : DAXHandler) (attrs : List (String × String))
    {j : Nat} {nmS : String}
    (hj : h.lastJob = some j) (hn : aget attrs "name" = some nmS) :
    h.step (.start "stdout" attrs)
      = .ok { h with
          elements := "stdout" :: h.elements,
          store := { h.store with
            files := h.store.files
              ++ [⟨nmS, optPyV (aget attrs "link"), .pbool false, .pbool false,
                   .pnone, false, none, none, none, none, none, none, none,
                   [], [], []⟩],
            jobs := h.store.jobs.set j ((h.store.getJob j).setStdout h.store.files.length) } } := by
  simp [DAXHandler.step, DAXHandler.startElement, hj, hn, File.init,
    CatalogType.init, Store.allocFile, Store.getJob, Store.setJob,
    Bind.bind, Except.bind]

theorem step_start_stderr (h : DAXHandler) (attrs : List (String × String))
    {j : Nat} {nmS : String}
    (hj : h.lastJob = some j) (hn : aget attrs "name" = some nmS) :
    h.step (.start "stderr" attrs)
      = .ok { h with
          elements := "stderr" :: h.elements,
          store := { h.store with
            files := h.store.files
              ++ [⟨nmS, optPyV (aget attrs "link"), .pbool false, .pbool false,
                   .pnone, false, none, none, none, none, none, none, none,
                   [], [], []⟩],
            jobs := h.store.jobs.set j ((h.store.getJob j).setStderr h.store.files.length) } } := by
  simp [DAXHandler.step, DAXHandler.startElement, hj, hn, File.init,
    CatalogType.init, Store.allocFile, Store.getJob, Store.setJob,
    Bind.bind, Except.bind]

theorem step_start_uses_job_found (h : DAXHandler)
    (attrs : List (String × String)) {el0 : String} {rest : List String}
    {j : Nat} {nm : String} {r : Nat}
    (hel : h.elements = el0 :: rest)
    (hp : el0 = "job" ∨ el0 = "dax" ∨ el0 = "dag")
    (hj : h.lastJob = some j)
    (hn : aget attrs "name" = some nm)
    (hlk : dget h.filemap (some nm) = some r) :
    h.step (.start "uses" attrs)
      = .ok { h with
          elements := "uses" :: h.elements,
          store := { h.store with jobs := h.store.jobs.set j ((h.store.getJob j).uses r (optPyV (aget attrs "link")) (optPyV (aget attrs "register")) (optPyV (aget attrs "transfer")) (optPyV (aget attrs "optional"))) } } := by
  rcases hp with rfl | rfl | rfl <;>
    simp [DAXHandler.step, DAXHandler.startElement, hel, hj, hn, hlk,
      Store.getJob, Store.setJob, Bind.bind, Except.bind, pure, Except.pure]

theorem step_start_uses_job_freshFile (h : DAXHandler)
    (attrs : List (String × String)) {el0 : String} {rest : List String}
    {j : Nat} {nm : String}
    (hel : h.elements = el0 :: rest)
    (hp : el0 = "job" ∨ el0 = "dax" ∨ el0 = "dag")
    (hj : h.lastJob = some j)
    (hn : aget attrs "name" = some nm)
    (hlk : dget h.filemap (some nm) = none)
    (hex : exeFlag attrs = false) :
    h.step (.start "uses" attrs)
      = .ok { h with
          elements := "uses" :: h.elements,
          store := { h.store with
            files := h.store.files
              ++ [⟨nm, optPyV (aget attrs "link"), optPyV (aget attrs "register"),
                   optPyV (aget attrs "transfer"), .pnone, false, none, none,
                   none, none, none, none, none, [], [], []⟩],
            jobs := h.store.jobs.set j ((h.store.getJob j).uses h.store.files.length (optPyV (aget attrs "link")) (optPyV (aget attrs "register")) (optPyV (aget attrs "transfer")) (optPyV (aget attrs "optional"))) },
          filemap := dset h.filemap (some nm) h.store.files.length } := by
  rcases hp with rfl | rfl | rfl <;>
    simp [DAXHandler.step, DAXHandler.startElement, hel, hj, hn, hlk, hex,
      File.init, CatalogType.init, Store.allocFile, Store.getJob, Store.setJob,
      Bind.bind, Except.bind, pure, Except.pure]

theorem step_start_uses_job_freshExe (h : DAXHandler)
    (attrs : List (String × String)) {el0 : String} {rest : List String}
    {j : Nat} {nm : String}
    (hel : h.elements = el0 :: rest)
    (hp : el0 = "job" ∨ el0 = "dax" ∨ el0 = "dag")
    (hj : h.lastJob = some j)
    (hn : aget attrs "name" = some nm)
    (hlk : dget h.filemap (some nm) = none)
    (hex : exeFlag attrs = true) :
    h.step (.start "uses" attrs)
      = .ok { h with
          elements := "uses" :: h.elements,
          store := { h.store with
            files := h.store.files
              ++ [⟨nm, optPyV (aget attrs "link"), optPyV (aget attrs "register"),
                   optPyV (aget attrs "transfer"), .pnone, true,
                   aget attrs "namespace", aget attrs "version", none, none,
                   none, none, none, [], [], []⟩],
            jobs := h.store.jobs.set j ((h.store.getJob j).uses h.store.files.length (optPyV (aget attrs "link")) (optPyV (aget attrs "register")) (optPyV (aget attrs "transfer")) (optPyV (aget attrs "optional"))) },
          filemap := dset h.filemap (some nm) h.store.files.length } := by
  rcases hp with rfl | rfl | rfl <;>
    simp [DAXHandler.step, DAXHandler.startElement, hel, hj, hn, hlk, hex,
      Executable.init, CatalogType.init, Store.allocFile, Store.getJob,
      Store.setJob, Bind.bind, Except.bind, pure, Except.pure]

theorem step_start_uses_trans_found (h : DAXHandler)
    (attrs : List (String × String)) {rest : List String}
    {t : Nat} {nm : String} {r : Nat}
    (hel : h.elements = "transformation" :: rest)
    (ht : h.lastTransformation = some t)
    (hn : aget attrs "name" = some nm)
    (hlk : dget h.filemap (some nm) = some r) :
    h.step (.start "uses" attrs)
      = .ok { h with
          elements := "uses" :: h.elements,
          store := { h.store with trans := h.store.trans.set t ((h.store.getTrans t).uses r (optPyV (aget attrs "link")) (optPyV (aget attrs "register")) (optPyV (aget attrs "transfer")) (optPyV (aget attrs "optional"))) } } := by
  simp [DAXHandler.step, DAXHandler.startElement, hel, ht, hn, hlk,
    Store.getTrans, Store.setTrans, Bind.bind, Except.bind, pure, Except.pure]

theorem step_start_uses_trans_freshFile (h : DAXHandler)
    (attrs : List (String × String)) {rest : List String}
    {t : Nat} {nm : String}
    (hel : h.elements = "transformation" :: rest)
    (ht : h.lastTransformation = some t)
    (hn : aget attrs "name" = some nm)
    (hlk : dget h.filemap (some nm) = none)
    (hex : exeFlag attrs = false) :
    h.step (.start "uses" attrs)
      = .ok { h with
          elements := "uses" :: h.elements,
          store := { h.store with
            files := h.store.files
              ++ [⟨nm, optPyV (aget attrs "link"), optPyV (aget attrs "register"),
                   optPyV (aget attrs "transfer"), .pnone, false, none, none,
                   none, none, none, none, none, [], [], []⟩],
            trans := h.store.trans.set t ((h.store.getTrans t).uses h.store.files.length (optPyV (aget attrs "link")) (optPyV (aget attrs "register")) (optPyV (aget attrs "transfer")) (optPyV (aget attrs "optional"))) },
          filemap := dset h.filemap (some nm) h.store.files.length } := by
  simp [DAXHandler.step, DAXHandler.startElement, hel, ht, hn, hlk, hex,
    File.init, CatalogType.init, Store.allocFile, Store.getTrans,
    Store.setTrans, Bind.bind, Except.bind, pure, Except.pure]

theorem step_start_uses_trans_freshExe (h : DAXHandler)
    (attrs : List (String × String)) {rest : List String}
    {t : Nat} {nm : String}
    (hel : h.elements = "transformation" :: rest)
    (ht : h.lastTransformation = some t)
    (hn : aget attrs "name" = some nm)
    (hlk : dget h.filemap (some nm) = none)
    (hex : exeFlag attrs = true) :
    h.step (.start "uses" attrs)
      = .ok { h with
          elements := "uses" :: h.elements,
          store := { h.store with
            files := h.store.files
              ++ [⟨nm, optPyV (aget attrs "link"), optPyV (aget attrs "register"),
                   optPyV (aget attrs "transfer"), .pnone, true,
                   aget attrs "namespace", aget attrs "version", none, none,
                   none, none, none, [], [], []⟩],
            trans := h.store.trans.set t ((h.store.getTrans t).uses h.store.files.length (optPyV (aget attrs "link")) (optPyV (aget attrs "register")) (optPyV (aget attrs "transfer")) (optPyV (aget attrs "optional"))) },
          filemap := dset h.filemap (some nm) h.store.files.length } := by
  simp [DAXHandler.step, DAXHandler.startElement, hel, ht, hn, hlk, hex,
    Executable.init, CatalogType.init, Store.allocFile, Store.getTrans,
    Store.setTrans, Bind.bind, Except.bind, pure, Except.pure]

/-! ### Block lemmas: catalog and transformation sections -/

theorem FilesExt_of_eq {st st' : Store} (h : st'.files = st.files) :
    FilesExt st st' := by
  constructor
  · rw [h]
  · intro i hi
    simp [Store.getFile, h]

theorem FilesExt_append {st st' : Store} {l : List FileE}
    (h : st'.files = st.files ++ l) : FilesExt st st' := by
  constructor
  · rw [h]; simp
  · intro i hi
    unfold Store.getFile
    rw [h, List.getD_append _ _ _ _ hi]

theorem FilesExt_set_core {st st' : Store} (f : Nat) (g : FileE → FileE)
    (hg : ∀ x, fileCore (g x) = fileCore x)
    (h : st'.files = st.files.set f (g (st.getFile f))) : FilesExt st st' := by
  constructor
  · rw [h]; simp
  · intro i hi
    by_cases hif : i = f
    · subst hif
      simp [Store.getFile, h, List.getD, List.getElem?_set_self, hi, hg]
    · simp [Store.getFile, h, List.getD,
        List.getElem?_set_ne (by omega : f ≠ i)]

theorem catStep_fields {h h' : DAXHandler}
    (he : h'.elements = h.elements) (hst : StoreExt h.store h'.store)
    (hjm : h'.jobmap = h.jobmap) (hlj : h'.lastJob = h.lastJob)
    (hlc : h'.lastChild = h.lastChild)
    (hla : h'.lastArgument = h.lastArgument)
    (hli : h'.lastInvoke = h.lastInvoke)
    (hfm : h'.filemap = h.filemap) (had : h'.adag = h.adag) :
    CatStep h h' :=
  ⟨he, hst, hjm, hlj, hlc, hla, hli, by rw [had],
   fun hwf => hfm ▸ (hwf.mono hst.2)⟩

/-- A profile element under an open `file`/`executable` parent decodes
cleanly and only grows the current entity's profile list. -/
theorem profile_block_cat (h : DAXHandler) (p : Profile)
    {el0 : String} {rest : List String} {f : Nat}
    (hel : h.elements = el0 :: rest)
    (hp : el0 = "file" ∨ el0 = "executable") (hf : h.lastFile = some f) :
    ∃ h', runEvents h p.toEvents = .ok h'
      ∧ CatStep h h'
      ∧ h'.lastFile = h.lastFile
      ∧ h'.lastPFN = h.lastPFN
      ∧ h'.lastTransformation = h.lastTransformation := by
  have e1 := step_start_profile_file h
    [("namespace", optStr p.ns), ("key", optStr p.key)] hel hp hf
  by_cases hv : p.value = ""
  · simp only [Profile.toEvents, charsOf, if_pos hv, List.append_nil,
      List.nil_append, List.cons_append]
    have hrun := (runEvents_cons_ok [XEvent.stop "profile"] e1).trans
      ((runEvents_cons_ok [] (step_stop_profile _)).trans rfl)
    refine ⟨_, hrun, ?_, rfl, rfl, rfl⟩
    refine catStep_fields ?_ ⟨rfl, ?_⟩ rfl rfl rfl rfl rfl rfl rfl
    · simp [hel]
    · exact FilesExt_set_core f (fun x => x.addProfile h.store.profiles.length)
        (fun x => rfl) rfl
  · simp only [Profile.toEvents, charsOf, if_neg hv, List.append_nil,
      List.nil_append, List.cons_append, List.singleton_append]
    have hrun := (runEvents_cons_ok [XEvent.chars p.value, XEvent.stop "profile"] e1).trans
      ((runEvents_cons_ok [XEvent.stop "profile"]
          (step_chars_profile _ rfl rfl p.value)).trans
        ((runEvents_cons_ok [] (step_stop_profile _)).trans rfl))
    refine ⟨_, hrun, ?_, rfl, rfl, rfl⟩
    refine catStep_fields ?_ ⟨rfl, ?_⟩ rfl rfl rfl rfl rfl rfl rfl
    · simp [hel]
    · exact FilesExt_set_core f (fun x => x.addProfile h.store.profiles.length)
        (fun x => rfl) rfl

/-- A metadata element under an open `file`/`executable` parent. -/
theorem metadata_block_cat (h : DAXHandler) (m : Metadata)
    {el0 : String} {rest : List String} {f : Nat}
    (hel : h.elements = el0 :: rest)
    (hp : el0 = "file" ∨ el0 = "executable") (hf : h.lastFile = some f) :
    ∃ h', runEvents h m.toEvents = .ok h'
      ∧ CatStep h h'
      ∧ h'.lastFile = h.lastFile
      ∧ h'.lastPFN = h.lastPFN
      ∧ h'.lastTransformation = h.lastTransformation := by
  have e1 := step_start_metadata_file h
    [("key", optStr m.key), ("type", optStr m.type_)] hel hp hf
  by_cases hv : m.value = ""
  · simp only [Metadata.toEvents, charsOf, if_pos hv, List.append_nil,
      List.nil_append, List.cons_append]
    have hrun := (runEvents_cons_ok [XEvent.stop "metadata"] e1).trans
      ((runEvents_cons_ok [] (step_stop_metadata _)).trans rfl)
    refine ⟨_, hrun, ?_, rfl, rfl, rfl⟩
    refine catStep_fields ?_ ⟨rfl, ?_⟩ rfl rfl rfl rfl rfl rfl rfl
    · simp [hel]
    · exact FilesExt_set_core f (fun x => x.addMetadata h.store.metadatas.length)
        (fun x => rfl) rfl
  · simp only [Metadata.toEvents, charsOf, if_neg hv, List.append_nil,
      List.nil_append, List.cons_append, List.singleton_append]
    have hrun := (runEvents_cons_ok [XEvent.chars m.value, XEvent.stop "metadata"] e1).trans
      ((runEvents_cons_ok [XEvent.stop "metadata"]
          (step_chars_metadata _ rfl rfl m.value)).trans
        ((runEvents_cons_ok [] (step_stop_metadata _)).trans rfl))
    refine ⟨_, hrun, ?_, rfl, rfl, rfl⟩
    refine catStep_fields ?_ ⟨rfl, ?_⟩ rfl rfl rfl rfl rfl rfl rfl
    · simp [hel]
    · exact FilesExt_set_core f (fun x => x.addMetadata h.store.metadatas.length)
        (fun x => rfl) rfl

/-- A profile element under an open `pfn` parent. -/
theorem profile_block_pfn (h : DAXHandler) (p : Profile)
    {rest : List String} {q : Nat}
    (hel : h.elements = "pfn" :: rest) (hq : h.lastPFN = some q) :
    ∃ h', runEvents h p.toEvents = .ok h'
      ∧ CatStep h h'
      ∧ h'.lastFile = h.lastFile
      ∧ h'.lastPFN = h.lastPFN
      ∧ h'.lastTransformation = h.lastTransformation := by
  have e1 := step_start_profile_pfn h
    [("namespace", optStr p.ns), ("key", optStr p.key)] hel hq
  by_cases hv : p.value = ""
  · simp only [Profile.toEvents, charsOf, if_pos hv, List.append_nil,
      List.nil_append, List.cons_append]
    have hrun := (runEvents_cons_ok [XEvent.stop "profile"] e1).trans
      ((runEvents_cons_ok [] (step_stop_profile _)).trans rfl)
    refine ⟨_, hrun, ?_, rfl, rfl, rfl⟩
    refine catStep_fields ?_ ⟨rfl, FilesExt_of_eq rfl⟩ rfl rfl rfl rfl rfl rfl rfl
    simp [hel]
  · simp only [Profile.toEvents, charsOf, if_neg hv, List.append_nil,
      List.nil_append, List.cons_append, List.singleton_append]
    have hrun := (runEvents_cons_ok [XEvent.chars p.value, XEvent.stop "profile"] e1).trans
      ((runEvents_cons_ok [XEvent.stop "profile"]
          (step_chars_profile _ rfl rfl p.value)).trans
        ((runEvents_cons_ok [] (step_stop_profile _)).trans rfl))
    refine ⟨_, hrun, ?_, rfl, rfl, rfl⟩
    refine catStep_fields ?_ ⟨rfl, FilesExt_of_eq rfl⟩ rfl rfl rfl rfl rfl rfl rfl
    simp [hel]

/-- An element with inner blocks: run the start step, then the blocks under
an invariant. -/
theorem runEvents_sandwich {h h1 : DAXHandler} {e : XEvent}
    (blocks : List (List XEvent)) (efin : XEvent) {P : DAXHandler → Prop}
    (hstart : h.step e = .ok h1) (hP1 : P h1)
    (hstep : ∀ h' b, P h' → b ∈ blocks →
      ∃ h'', runEvents h' b = .ok h'' ∧ CatStep h' h'' ∧ P h'') :
    ∃ h2, runEvents h (e :: (blocks.flatten ++ [efin])) = runEvents h2 [efin]
      ∧ CatStep h1 h2 ∧ P h2 := by
  obtain ⟨h2, hrun2, hcs2, hP2⟩ := runEvents_blocks blocks h1 hP1 hstep
  refine ⟨h2, ?_, hcs2, hP2⟩
  rw [runEvents_cons_ok _ hstart, runEvents_append, hrun2]

/-- A `pfn` element (with nested profiles) under an open `file`/`executable`
parent. -/
theorem pfn_block_cat (st0 : Store) (h : DAXHandler) (q : PFN)
    {el0 : String} {rest : List String} {f : Nat}
    (hel : h.elements = el0 :: rest)
    (hp : el0 = "file" ∨ el0 = "executable") (hf : h.lastFile = some f) :
    ∃ h', runEvents h (PFN.toEvents st0 q) = .ok h'
      ∧ CatStep h h'
      ∧ h'.lastFile = h.lastFile
      ∧ h'.lastTransformation = h.lastTransformation := by
  have e1 := step_start_pfn_file h
    [("url", optStr q.url), ("site", optStr q.site)] hel hp hf
  obtain ⟨h2, hrun, hcs2, hP2⟩ := runEvents_sandwich
    (q.profiles.map (fun r => (st0.getProfile r).toEvents))
    (XEvent.stop "pfn")
    (P := fun h' => h'.elements = "pfn" :: h.elements
      ∧ h'.lastPFN = some h.store.pfns.length
      ∧ h'.lastFile = h.lastFile
      ∧ h'.lastTransformation = h.lastTransformation)
    e1 ⟨rfl, rfl, rfl, rfl⟩
    (by
      intro h' b hP' hb
      obtain ⟨r, hr, rfl⟩ := List.mem_map.1 hb
      obtain ⟨h'', hrun'', hcs'', hlf'', hlp'', hlt''⟩ :=
        profile_block_pfn h' (st0.getProfile r) hP'.1 hP'.2.1
      exact ⟨h'', hrun'', hcs'',
        hcs''.1.trans hP'.1, hlp''.trans hP'.2.1,
        hlf''.trans hP'.2.2.1, hlt''.trans hP'.2.2.2⟩)
  have hfin := hrun.trans
    ((runEvents_cons_ok [] (step_stop_pfn h2)).trans rfl)
  refine ⟨_, hfin, ?_, ?_, ?_⟩
  · refine ⟨?_, ?_, hcs2.2.2.1, hcs2.2.2.2.1, hcs2.2.2.2.2.1,
      hcs2.2.2.2.2.2.1, hcs2.2.2.2.2.2.2.1, hcs2.2.2.2.2.2.2.2.1, ?_⟩
    · show (h2.elements.drop 1) = h.elements
      rw [hP2.1]
      rfl
    · refine storeExt_trans ?_ hcs2.2.1
      exact ⟨rfl, FilesExt_set_core f (fun x => x.addPFN h.store.pfns.length)
        (fun x => rfl) rfl⟩
    · intro hwf
      refine hcs2.2.2.2.2.2.2.2.2 ?_
      exact hwf.mono (FilesExt_set_core f (fun x => x.addPFN h.store.pfns.length)
        (fun x => rfl) rfl)
  · exact hP2.2.2.1
  · exact hP2.2.2.2

theorem getD_append_length {α : Type} [Inhabited α] (l : List α) (x : α) :
    (l ++ [x]).getD l.length default = x := by
  simp

theorem FilemapWF.insert {st st' : Store} {fm : List (Option String × Nat)}
    (h : FilemapWF st fm) {nm : String} {fe : FileE}
    (hfiles : st'.files = st.files ++ [fe]) (hfe : fe.name = nm) :
    FilemapWF st' (dset fm (some nm) st.files.length) := by
  intro kv hkv
  rcases List.mem_cons.1 hkv with rfl | hkv
  · refine ⟨nm, rfl, by rw [hfiles]; simp, ?_⟩
    unfold Store.getFile
    rw [hfiles, getD_append_length]
    exact hfe
  · exact (h.mono (FilesExt_append hfiles)) kv hkv

theorem aget_attrsX_name (st0 : Store) (u : Use) :
    aget (u.attrsX st0) "name" = some (st0.getFile u.file).name := by
  simp [Use.attrsX, aget]

/-- A `uses` element under an open `transformation`. -/
theorem uses_block_trans (st0 : Store) (h : DAXHandler) (u : Use)
    {rest : List String} {t : Nat}
    (hel : h.elements = "transformation" :: rest)
    (ht : h.lastTransformation = some t) :
    ∃ h', runEvents h (Use.toEvents st0 u) = .ok h'
      ∧ CatStep h h'
      ∧ h'.lastTransformation = h.lastTransformation
      ∧ h'.lastFile = h.lastFile := by
  have hn := aget_attrsX_name st0 u
  rcases hlk : dget h.filemap (some (st0.getFile u.file).name) with _ | r
  · rcases hex : exeFlag (u.attrsX st0) with _ | _
    · have e1 := step_start_uses_trans_freshFile h (u.attrsX st0) hel ht hn hlk hex
      have hfin := (runEvents_cons_ok [XEvent.stop "uses"] e1).trans
        ((runEvents_cons_ok []
          (step_stop_other _ "uses" (by simp))).trans rfl)
      refine ⟨_, hfin, ?_, rfl, rfl⟩
      refine ⟨by simp [hel], ⟨rfl, FilesExt_append rfl⟩, rfl, rfl, rfl, rfl,
        rfl, rfl, ?_⟩
      intro hwf
      exact FilemapWF.insert hwf rfl rfl
    · have e1 := step_start_uses_trans_freshExe h (u.attrsX st0) hel ht hn hlk hex
      have hfin := (runEvents_cons_ok [XEvent.stop "uses"] e1).trans
        ((runEvents_cons_ok []
          (step_stop_other _ "uses" (by simp))).trans rfl)
      refine ⟨_, hfin, ?_, rfl, rfl⟩
      refine ⟨by simp [hel], ⟨rfl, FilesExt_append rfl⟩, rfl, rfl, rfl, rfl,
        rfl, rfl, ?_⟩
      intro hwf
      exact FilemapWF.insert hwf rfl rfl
  · have e1 := step_start_uses_trans_found h (u.attrsX st0) hel ht hn hlk
    have hfin := (runEvents_cons_ok [XEvent.stop "uses"] e1).trans
      ((runEvents_cons_ok []
        (step_stop_other _ "uses" (by simp))).trans rfl)
    refine ⟨_, hfin, ?_, rfl, rfl⟩
    refine ⟨by simp [hel], ⟨rfl, FilesExt_of_eq rfl⟩, rfl, rfl, rfl, rfl,
      rfl, rfl, ?_⟩
    intro hwf
    exact hwf.mono (FilesExt_of_eq rfl)

/-- A `transformation` element with its nested `uses`. -/
theorem trans_block (st0 : Store) (h : DAXHandler) (t : TransE)
    {rest : List String} {a : ADAG}
    (hel : h.elements = "adag" :: rest) (ha : h.adag = some a) :
    ∃ h', runEvents h (TransE.toEvents st0 t) = .ok h'
      ∧ CatStep h h' := by
  have e1 := step_start_transformation h
    (attrIf (optTruthy t.ns) "namespace" (optStr t.ns)
      ++ [("name", optStr t.name)]
      ++ attrIf (optTruthy t.version) "version" (optStr t.version)) ha
  obtain ⟨h2, hrun, hcs2, hP2⟩ := runEvents_sandwich
    (t.used_files.map (Use.toEvents st0)) (XEvent.stop "transformation")
    (P := fun h' => h'.elements = "transformation" :: h.elements
      ∧ h'.lastTransformation = some h.store.trans.length)
    e1 ⟨rfl, rfl⟩
    (by
      intro h' b hP' hb
      obtain ⟨u, hu, rfl⟩ := List.mem_map.1 hb
      obtain ⟨h'', hrun'', hcs'', hlt'', hlf''⟩ :=
        uses_block_trans st0 h' u hP'.1 hP'.2
      exact ⟨h'', hrun'', hcs'', hcs''.1.trans hP'.1,
        hlt''.trans hP'.2⟩)
  have hfin := hrun.trans
    ((runEvents_cons_ok [] (step_stop_transformation h2)).trans rfl)
  have hlist : TransE.toEvents st0 t
      = XEvent.start "transformation"
          (attrIf (optTruthy t.ns) "namespace" (optStr t.ns)
            ++ [("name", optStr t.name)]
            ++ attrIf (optTruthy t.version) "version" (optStr t.version))
        :: ((t.used_files.map (Use.toEvents st0)).flatten
            ++ [XEvent.stop "transformation"]) := by
    simp [TransE.toEvents]
  rw [hlist]
  refine ⟨_, hfin, ?_⟩
  refine ⟨?_, ?_, hcs2.2.2.1, hcs2.2.2.2.1, hcs2.2.2.2.2.1,
    hcs2.2.2.2.2.2.1, hcs2.2.2.2.2.2.2.1, ?_, ?_⟩
  · show (h2.elements.drop 1) = h.elements
    rw [hP2.1]
    rfl
  · refine storeExt_trans ?_ hcs2.2.1
    exact ⟨rfl, FilesExt_of_eq rfl⟩
  · rw [ha]
    exact hcs2.2.2.2.2.2.2.2.1
  · intro hwf
    refine hcs2.2.2.2.2.2.2.2.2 ?_
    exact hwf.mono (FilesExt_of_eq rfl)

/-- One inner block of a catalog entity (a profile, metadata or pfn), run
under "some `file`/`executable` element is open and `lastFile` points at the
current entity". -/
theorem fileInner_step (st0 : Store) (fe : FileE) {el : String}
    (hpel : el = "file" ∨ el = "executable") (base : List String) (fr : Nat) :
    ∀ h' b, (h'.elements = el :: base ∧ h'.lastFile = some fr) →
      b ∈ (fe.profiles.map (fun r => (st0.getProfile r).toEvents))
          ++ (fe.metadata.map (fun r => (st0.getMetadata r).toEvents))
          ++ (fe.pfns.map (fun r => PFN.toEvents st0 (st0.getPFN r))) →
      ∃ h'', runEvents h' b = .ok h'' ∧ CatStep h' h''
        ∧ (h''.elements = el :: base ∧ h''.lastFile = some fr) := by
  intro h' b hP' hb
  rcases List.mem_append.1 hb with hb' | hbp
  · rcases List.mem_append.1 hb' with hbq | hbm
    · obtain ⟨r, hr, rfl⟩ := List.mem_map.1 hbq
      obtain ⟨h'', hrun'', hcs'', hlf'', hlp'', hlt''⟩ :=
        profile_block_cat h' (st0.getProfile r) hP'.1 hpel
          (hP'.2.trans rfl)
      exact ⟨h'', hrun'', hcs'', hcs''.1.trans hP'.1,
        hlf''.trans hP'.2⟩
    · obtain ⟨r, hr, rfl⟩ := List.mem_map.1 hbm
      obtain ⟨h'', hrun'', hcs'', hlf'', hlp'', hlt''⟩ :=
        metadata_block_cat h' (st0.getMetadata r) hP'.1 hpel
          (hP'.2.trans rfl)
      exact ⟨h'', hrun'', hcs'', hcs''.1.trans hP'.1,
        hlf''.trans hP'.2⟩
  · obtain ⟨r, hr, rfl⟩ := List.mem_map.1 hbp
    obtain ⟨h'', hrun'', hcs'', hlf'', hlt''⟩ :=
      pfn_block_cat st0 h' (st0.getPFN r) hP'.1 hpel
        (hP'.2.trans rfl)
    exact ⟨h'', hrun'', hcs'', hcs''.1.trans hP'.1,
      hlf''.trans hP'.2⟩

/-- A top-level `file` declaration (with nested profiles/metadata/pfns)
under the open `adag` root performs a `CatStep`. -/
theorem file_cat_block (st0 : Store) (h : DAXHandler) (g : FileE)
    {rest : List String} {a : ADAG}
    (hel : h.elements = "adag" :: rest) (ha : h.adag = some a) :
    ∃ h', runEvents h (FileE.toEventsFile st0 g) = .ok h'
      ∧ CatStep h h' := by
  have hn : aget ([("name", g.name)]
      ++ attrIf g.link.truthy "link" g.link.toStr) "name" = some g.name := by
    simp [aget]
  have hlist : FileE.toEventsFile st0 g
      = XEvent.start "file"
          ([("name", g.name)] ++ attrIf g.link.truthy "link" g.link.toStr)
        :: (((g.profiles.map (fun r => (st0.getProfile r).toEvents))
              ++ (g.metadata.map (fun r => (st0.getMetadata r).toEvents))
              ++ (g.pfns.map (fun r => PFN.toEvents st0 (st0.getPFN r)))).flatten
            ++ [XEvent.stop "file"]) := by
    simp [FileE.toEventsFile, FileE.innerEvents, List.flatten_append,
      List.append_assoc]
  rcases hlk : dget h.filemap (some g.name) with _ | r
  · have e1 := step_start_file_adag_fresh h
      ([("name", g.name)] ++ attrIf g.link.truthy "link" g.link.toStr)
      hel ha hn hlk
    obtain ⟨h2, hrun, hcs2, hP2⟩ := runEvents_sandwich
      ((g.profiles.map (fun r => (st0.getProfile r).toEvents))
        ++ (g.metadata.map (fun r => (st0.getMetadata r).toEvents))
        ++ (g.pfns.map (fun r => PFN.toEvents st0 (st0.getPFN r))))
      (XEvent.stop "file")
      (P := fun h' => h'.elements = "file" :: h.elements
        ∧ h'.lastFile = some h.store.files.length)
      e1 ⟨rfl, rfl⟩
      (fileInner_step st0 g (Or.inl rfl) h.elements h.store.files.length)
    have hfin := hrun.trans
      ((runEvents_cons_ok [] (step_stop_other h2 "file" (by simp))).trans rfl)
    rw [hlist]
    refine ⟨_, hfin, ?_, ?_, hcs2.2.2.1, hcs2.2.2.2.1, hcs2.2.2.2.2.1,
      hcs2.2.2.2.2.2.1, hcs2.2.2.2.2.2.2.1, ?_, ?_⟩
    · show h2.elements.drop 1 = h.elements
      rw [hP2.1]
      rfl
    · refine storeExt_trans ?_ hcs2.2.1
      exact ⟨rfl, FilesExt_append rfl⟩
    · rw [ha]
      exact hcs2.2.2.2.2.2.2.2.1
    · intro hwf
      exact hcs2.2.2.2.2.2.2.2.2 (FilemapWF.insert hwf rfl rfl)
  · have e1 := step_start_file_adag_found h
      ([("name", g.name)] ++ attrIf g.link.truthy "link" g.link.toStr)
      hel ha hn hlk
    obtain ⟨h2, hrun, hcs2, hP2⟩ := runEvents_sandwich
      ((g.profiles.map (fun r => (st0.getProfile r).toEvents))
        ++ (g.metadata.map (fun r => (st0.getMetadata r).toEvents))
        ++ (g.pfns.map (fun r => PFN.toEvents st0 (st0.getPFN r))))
      (XEvent.stop "file")
      (P := fun h' => h'.elements = "file" :: h.elements
        ∧ h'.lastFile = some r)
      e1 ⟨rfl, rfl⟩
      (fileInner_step st0 g (Or.inl rfl) h.elements r)
    have hfin := hrun.trans
      ((runEvents_cons_ok [] (step_stop_other h2 "file" (by simp))).trans rfl)
    rw [hlist]
    refine ⟨_, hfin, ?_, hcs2.2.1, hcs2.2.2.1, hcs2.2.2.2.1, hcs2.2.2.2.2.1,
      hcs2.2.2.2.2.2.1, hcs2.2.2.2.2.2.2.1, ?_, hcs2.2.2.2.2.2.2.2.2⟩
    · show h2.elements.drop 1 = h.elements
      rw [hP2.1]
      rfl
    · rw [ha]
      exact hcs2.2.2.2.2.2.2.2.1

/-- A top-level `executable` declaration under the open `adag` root performs
a `CatStep`. -/
theorem exe_cat_block (st0 : Store) (h : DAXHandler) (g : FileE)
    {rest : List String} {a : ADAG}
    (hel : h.elements = "adag" :: rest) (ha : h.adag = some a) :
    ∃ h', runEvents h (FileE.toEventsExe st0 g) = .ok h'
      ∧ CatStep h h' := by
  have hn : aget ([("name", g.name)]
      ++ attrIf (optTruthy g.ns) "namespace" (optStr g.ns)
      ++ attrIf (optTruthy g.version) "version" (optStr g.version)
      ++ attrIf (optTruthy g.arch) "arch" (optStr g.arch)
      ++ attrIf (optTruthy g.os) "os" (optStr g.os)
      ++ attrIf (optTruthy g.osrelease) "osrelease" (optStr g.osrelease)
      ++ attrIf (optTruthy g.osversion) "osversion" (optStr g.osversion)
      ++ attrIf (optTruthy g.glibc) "glibc" (optStr g.glibc)) "name"
      = some g.name := by
    simp [aget]
  have hlist : FileE.toEventsExe st0 g
      = XEvent.start "executable"
          ([("name", g.name)]
            ++ attrIf (optTruthy g.ns) "namespace" (optStr g.ns)
            ++ attrIf (optTruthy g.version) "version" (optStr g.version)
            ++ attrIf (optTruthy g.arch) "arch" (optStr g.arch)
            ++ attrIf (optTruthy g.os) "os" (optStr g.os)
            ++ attrIf (optTruthy g.osrelease) "osrelease" (optStr g.osrelease)
            ++ attrIf (optTruthy g.osversion) "osversion" (optStr g.osversion)
            ++ attrIf (optTruthy g.glibc) "glibc" (optStr g.glibc))
        :: (((g.profiles.map (fun r => (st0.getProfile r).toEvents))
              ++ (g.metadata.map (fun r => (st0.getMetadata r).toEvents))
              ++ (g.pfns.map (fun r => PFN.toEvents st0 (st0.getPFN r)))).flatten
            ++ [XEvent.stop "executable"]) := by
    simp [FileE.toEventsExe, FileE.innerEvents, List.flatten_append,
      List.append_assoc]
  have e1 := step_start_exe_adag h
    ([("name", g.name)]
      ++ attrIf (optTruthy g.ns) "namespace" (optStr g.ns)
      ++ attrIf (optTruthy g.version) "version" (optStr g.version)
      ++ attrIf (optTruthy g.arch) "arch" (optStr g.arch)
      ++ attrIf (optTruthy g.os) "os" (optStr g.os)
      ++ attrIf (optTruthy g.osrelease) "osrelease" (optStr g.osrelease)
      ++ attrIf (optTruthy g.osversion) "osversion" (optStr g.osversion)
      ++ attrIf (optTruthy g.glibc) "glibc" (optStr g.glibc))
    ha hn
  obtain ⟨h2, hrun, hcs2, hP2⟩ := runEvents_sandwich
    ((g.profiles.map (fun r => (st0.getProfile r).toEvents))
      ++ (g.metadata.map (fun r => (st0.getMetadata r).toEvents))
      ++ (g.pfns.map (fun r => PFN.toEvents st0 (st0.getPFN r))))
    (XEvent.stop "executable")
    (P := fun h' => h'.elements = "executable" :: h.elements
      ∧ h'.lastFile = some h.store.files.length)
    e1 ⟨rfl, rfl⟩
    (fileInner_step st0 g (Or.inr rfl) h.elements h.store.files.length)
  have hfin := hrun.trans
    ((runEvents_cons_ok [] (step_stop_other h2 "executable" (by simp))).trans rfl)
  rw [hlist]
  refine ⟨_, hfin, ?_, ?_, hcs2.2.2.1, hcs2.2.2.2.1, hcs2.2.2.2.2.1,
    hcs2.2.2.2.2.2.1, hcs2.2.2.2.2.2.2.1, ?_, ?_⟩
  · show h2.elements.drop 1 = h.elements
    rw [hP2.1]
    rfl
  · refine storeExt_trans ?_ hcs2.2.1
    exact ⟨rfl, FilesExt_append rfl⟩
  · rw [ha]
    exact hcs2.2.2.2.2.2.2.2.1
  · intro hwf
    exact hcs2.2.2.2.2.2.2.2.2 (FilemapWF.insert hwf rfl rfl)

/-- Any catalog entity emission (`File.toXML` or `Executable.toXML`) under
the open `adag` root performs a `CatStep`. -/
theorem cat_block (st0 : Store) (h : DAXHandler) (g : FileE)
    {rest : List String} {a : ADAG}
    (hel : h.elements = "adag" :: rest) (ha : h.adag = some a) :
    ∃ h', runEvents h (FileE.toEvents st0 g) = .ok h'
      ∧ CatStep h h' := by
  rw [FileE.toEvents]
  by_cases hx : g.isExe
  · rw [if_pos hx]
    exact exe_cat_block st0 h g hel ha
  · rw [if_neg hx]
    exact file_cat_block st0 h g hel ha

/-! ## Round trip (C1): the job section.

The node blocks grow the job arena, so they are composed under plain
invariants rather than `CatStep`. -/

theorem runEvents_blocksP {P : DAXHandler → Prop} (blocks : List (List XEvent))
    (h : DAXHandler) (hP : P h)
    (hstep : ∀ h' b, P h' → b ∈ blocks →
      ∃ h'', runEvents h' b = .ok h'' ∧ P h'') :
    ∃ h', runEvents h blocks.flatten = .ok h' ∧ P h' := by
  induction blocks generalizing h with
  | nil => exact ⟨h, rfl, hP⟩
  | cons b rest ih =>
      obtain ⟨h1, hrun, hP1⟩ := hstep h b hP (List.mem_cons_self _ _)
      obtain ⟨h2, hrun2, hP2⟩ := ih h1 hP1
        (fun h' b' hP' hb' => hstep h' b' hP' (List.mem_cons_of_mem _ hb'))
      refine ⟨h2, ?_, hP2⟩
      rw [List.flatten_cons, runEvents_append, hrun]
      exact hrun2

theorem set_append_length {α : Type} (l : List α) (x y : α) :
    (l ++ [x]).set l.length y = l ++ [y] := by
  simp

theorem getJob_append {st : Store} {JS : List JobE} {cur : JobE}
    (h : st.jobs = JS ++ [cur]) : st.getJob JS.length = cur := by
  unfold Store.getJob
  rw [h, getD_append_length]

/-- Argument lists whose signature is pinned over later file-arena growth:
the signature is already `S` and every file reference is in range (so its
name can no longer change). -/
def ArgsFixed (st : Store) (L : List Arg) (S : List ArgSig) : Prop :=
  L.map (Arg.sig st) = S ∧ ∀ r, Arg.file r ∈ L → r < st.files.length

/-- Use lists whose signature is pinned over later file-arena growth. -/
def UsesFixed (st : Store) (L : List Use) (S : List UseSig) : Prop :=
  L.map (Use.sig st) = S ∧ ∀ u ∈ L, u.file < st.files.length

theorem argsFixed_mono {st st' : Store} {L : List Arg} {S : List ArgSig}
    (h : ArgsFixed st L S) (hfe : FilesExt st st') : ArgsFixed st' L S := by
  refine ⟨?_, fun r hr => Nat.lt_of_lt_of_le (h.2 r hr) hfe.1⟩
  rw [← h.1]
  apply List.map_congr_left
  intro a ha
  cases a with
  | lit s => rfl
  | file r => simp [Arg.sig, filesExt_name_eq hfe (h.2 r ha)]

theorem usesFixed_mono {st st' : Store} {L : List Use} {S : List UseSig}
    (h : UsesFixed st L S) (hfe : FilesExt st st') : UsesFixed st' L S := by
  refine ⟨?_, fun u hu => Nat.lt_of_lt_of_le (h.2 u hu) hfe.1⟩
  rw [← h.1]
  apply List.map_congr_left
  intro u hu
  simp [Use.sig, filesExt_name_eq hfe (h.2 u hu)]

theorem argsFixed_nil (st : Store) : ArgsFixed st [] [] :=
  ⟨rfl, by simp⟩

theorem usesFixed_nil (st : Store) : UsesFixed st [] [] :=
  ⟨rfl, by simp⟩

theorem argsFixed_lits {st : Store} {L : List Arg} {S : List ArgSig}
    (h : ArgsFixed st L S) (ws : List String) :
    ArgsFixed st (L ++ ws.map Arg.lit) (S ++ ws.map ArgSig.lit) := by
  refine ⟨?_, ?_⟩
  · rw [List.map_append, h.1, List.map_map]
    congr 1
  · intro r hr
    rcases List.mem_append.1 hr with h1 | h2
    · exact h.2 r h1
    · simp at h2

theorem argsFixed_file {st : Store} {L : List Arg} {S : List ArgSig}
    (h : ArgsFixed st L S) {f : Nat} {n : String}
    (hf : f < st.files.length) (hn : (st.getFile f).name = n) :
    ArgsFixed st (L ++ [Arg.file f]) (S ++ [ArgSig.file n]) := by
  refine ⟨?_, ?_⟩
  · rw [List.map_append, h.1]
    simp [Arg.sig, hn]
  · intro r hr
    rcases List.mem_append.1 hr with h1 | h2
    · exact h.2 r h1
    · simp at h2
      rw [h2]
      exact hf

theorem usesFixed_snoc {st : Store} {L : List Use} {S : List UseSig}
    (h : UsesFixed st L S) {u : Use} {s : UseSig}
    (hu : u.file < st.files.length) (hs : Use.sig st u = s) :
    UsesFixed st (L ++ [u]) (S ++ [s]) := by
  refine ⟨?_, ?_⟩
  · rw [List.map_append, h.1]
    simp [hs]
  · intro v hv
    rcases List.mem_append.1 hv with h1 | h2
    · exact h.2 v h1
    · simp at h2
      rw [h2]
      exact hu

/-- Character content inside an open `argument` element appends the
whitespace-split tokens (uniformly: empty text appends nothing). -/
theorem argument_chars (h : DAXHandler) {rest : List String} {args : List Arg}
    (hel : h.elements = "argument" :: rest) (ha : h.lastArgument = some args)
    (s : String) :
    runEvents h (charsOf s)
      = .ok { h with lastArgument := some (args ++ (shlexSplit s).map Arg.lit) } := by
  by_cases hs : s = ""
  · subst hs
    rw [shlexSplit_empty]
    simp only [charsOf, if_pos rfl, List.map_nil, List.append_nil, runEvents]
    rw [← ha]
  · rw [charsOf, if_neg hs]
    exact (runEvents_cons_ok [] (step_chars_argument h hel ha s)).trans rfl

/-- The argument-signature contribution of a piece stream, mirroring
`piecesEvents`: each maximal text run is whitespace-split into literal
tokens, file pieces keep their place. -/
def pieceSigs : Option String → List Piece → List ArgSig
  | acc, [] => (shlexSplit (acc.getD "")).map ArgSig.lit
  | acc, .txt s :: rest => pieceSigs (some (acc.getD "" ++ s)) rest
  | acc, .fel n :: rest =>
      (shlexSplit (acc.getD "")).map ArgSig.lit
        ++ ArgSig.file n :: pieceSigs none rest

theorem pieceSigs_none (L : List Piece) :
    pieceSigs none L = pieceSigs (some "") L := by
  cases L with
  | nil => rfl
  | cons p r => cases p <;> rfl

theorem piecesEvents_none (L : List Piece) :
    piecesEvents none L = piecesEvents (some "") L := by
  cases L with
  | nil => rfl
  | cons p r => cases p <;> rfl

theorem intersperse_tail {α : Type} (sep : α) :
    ∀ (x : α) (xs : List α),
      List.intersperse sep (x :: xs) = x :: xs.flatMap (fun q => [sep, q]) := by
  intro x xs
  induction xs generalizing x with
  | nil => rfl
  | cons y ys ih =>
      rw [show List.intersperse sep (x :: y :: ys)
          = x :: sep :: List.intersperse sep (y :: ys) from rfl, ih y]
      rfl

/-- Walking the interspersed tail: every remaining piece is preceded by a
single space, so each literal word is flushed as its own token. -/
theorem pieceSigs_tail (st0 : Store) :
    ∀ (args : List Arg) (A : String) (ws : List String),
      shlexSplit A = ws → sepSt (A ++ " ") ws →
      (∀ s, Arg.lit s ∈ args → wordlike s) →
      pieceSigs (some A)
          ((args.map (Arg.piece st0)).flatMap (fun p => [Piece.txt " ", p]))
        = ws.map ArgSig.lit ++ args.map (Arg.sig st0) := by
  intro args
  induction args with
  | nil =>
      intro A ws h1 h2 hw
      simp [pieceSigs, h1]
  | cons a rest ih =>
      intro A ws h1 h2 hw
      cases a with
      | lit w =>
          have hww : wordlike w := hw w (List.mem_cons_self _ _)
          show pieceSigs (some A)
              (Piece.txt " " :: Piece.txt w
                :: (rest.map (Arg.piece st0)).flatMap (fun p => [Piece.txt " ", p]))
            = _
          rw [pieceSigs, pieceSigs]
          have h1' : shlexSplit ((A ++ " ") ++ w) = ws ++ [w] :=
            sepSt_word_split h2 hww
          have h2' : sepSt (((A ++ " ") ++ w) ++ " ") (ws ++ [w]) :=
            sepSt_word_space h2 hww
          have hrec := ih ((A ++ " ") ++ w) (ws ++ [w]) h1' h2'
            (fun s hs => hw s (List.mem_cons_of_mem _ hs))
          simp only [Option.getD_some] at hrec ⊢
          rw [hrec]
          simp [Arg.sig]
      | file r =>
          show pieceSigs (some A)
              (Piece.txt " " :: Piece.fel (st0.getFile r).name
                :: (rest.map (Arg.piece st0)).flatMap (fun p => [Piece.txt " ", p]))
            = _
          rw [pieceSigs, pieceSigs]
          have hflush : shlexSplit (A ++ " ") = ws := shlexSplit_sepSt h2
          simp only [Option.getD_some]
          rw [hflush, pieceSigs_none]
          have hrec := ih "" [] shlexSplit_empty (sepSt_space sepSt_nil)
            (fun s hs => hw s (List.mem_cons_of_mem _ hs))
          rw [hrec]
          simp [Arg.sig]

/-- The encoder's interspersed rendering of a wordlike argument list has
exactly the original signature. -/
theorem pieceSigs_intersperse (st0 : Store) (args : List Arg)
    (hw : ∀ s, Arg.lit s ∈ args → wordlike s) :
    pieceSigs none (List.intersperse (.txt " ") (args.map (Arg.piece st0)))
      = args.map (Arg.sig st0) := by
  cases args with
  | nil => rfl
  | cons a rest =>
      rw [List.map_cons, intersperse_tail]
      cases a with
      | lit w =>
          have hww : wordlike w := hw w (List.mem_cons_self _ _)
          show pieceSigs none
              (Piece.txt w
                :: (rest.map (Arg.piece st0)).flatMap (fun p => [Piece.txt " ", p]))
            = _
          rw [pieceSigs]
          have h1 : shlexSplit ((none : Option String).getD "" ++ w) = [w] := by
            simpa using sepSt_word_split sepSt_nil hww
          have h2 : sepSt ((((none : Option String).getD "" ++ w)) ++ " ") [w] := by
            simpa using sepSt_word_space sepSt_nil hww
          have hrec := pieceSigs_tail st0 rest ((none : Option String).getD "" ++ w)
            [w] h1 h2 (fun s hs => hw s (List.mem_cons_of_mem _ hs))
          rw [hrec]
          simp [Arg.sig]
      | file r =>
          show pieceSigs none
              (Piece.fel (st0.getFile r).name
                :: (rest.map (Arg.piece st0)).flatMap (fun p => [Piece.txt " ", p]))
            = _
          rw [pieceSigs, pieceSigs_none]
          have hrec := pieceSigs_tail st0 rest "" [] shlexSplit_empty
            (sepSt_space sepSt_nil)
            (fun s hs => hw s (List.mem_cons_of_mem _ hs))
          rw [hrec]
          simp [Arg.sig, shlexSplit_empty]

/-- What every event inside an open `argument` element preserves. -/
def ArgFrame (h h' : DAXHandler) : Prop :=
  h'.elements = h.elements
  ∧ FilesExt h.store h'.store
  ∧ h'.store.jobs = h.store.jobs
  ∧ h'.jobmap = h.jobmap
  ∧ h'.adag = h.adag
  ∧ h'.lastJob = h.lastJob

theorem argFrame_refl (h : DAXHandler) : ArgFrame h h :=
  ⟨rfl, filesExt_refl _, rfl, rfl, rfl, rfl⟩

theorem argFrame_trans {h1 h2 h3 : DAXHandler} (a : ArgFrame h1 h2)
    (b : ArgFrame h2 h3) : ArgFrame h1 h3 :=
  ⟨b.1.trans a.1, filesExt_trans a.2.1 b.2.1, b.2.2.1.trans a.2.2.1,
   b.2.2.2.1.trans a.2.2.2.1, b.2.2.2.2.1.trans a.2.2.2.2.1,
   b.2.2.2.2.2.trans a.2.2.2.2.2⟩

/-- A `file` element inside an open `argument`: the reference is resolved
through the name table (or freshly created) and appended to the pending
argument list. -/
theorem file_arg_block (h : DAXHandler) (n : String)
    {rest : List String} {args : List Arg}
    (hel : h.elements = "argument" :: rest)
    (ha : h.lastArgument = some args)
    (hwf : FilemapWF h.store h.filemap) :
    ∃ h' f, runEvents h [.start "file" [("name", n)], .stop "file"] = .ok h'
      ∧ ArgFrame h h'
      ∧ FilemapWF h'.store h'.filemap
      ∧ h'.lastArgument = some (args ++ [Arg.file f])
      ∧ f < h'.store.files.length
      ∧ (h'.store.getFile f).name = n := by
  have hn : aget [("name", n)] "name" = some n := by simp [aget]
  rcases hlk : dget h.filemap (some n) with _ | r
  · have e1 := step_start_file_arg_fresh h [("name", n)] hel ha hn hlk
    have hfin := (runEvents_cons_ok [XEvent.stop "file"] e1).trans
      ((runEvents_cons_ok [] (step_stop_other _ "file" (by simp))).trans rfl)
    refine ⟨_, h.store.files.length, hfin,
      ⟨rfl, FilesExt_append rfl, rfl, rfl, rfl, rfl⟩,
      FilemapWF.insert hwf rfl rfl, rfl, by simp, ?_⟩
    show ((h.store.files
        ++ [(⟨n, optPyV (aget [("name", n)] "link"), .pbool false, .pbool false,
             .pnone, false, none, none, none, none, none, none, none,
             [], [], []⟩ : FileE)]).getD h.store.files.length default).name = n
    rw [getD_append_length]
  · have e1 := step_start_file_arg_found h [("name", n)] hel ha hn hlk
    have hfin := (runEvents_cons_ok [XEvent.stop "file"] e1).trans
      ((runEvents_cons_ok [] (step_stop_other _ "file" (by simp))).trans rfl)
    obtain ⟨hr, hname⟩ := hwf.lookup hlk
    exact ⟨_, r, hfin, ⟨rfl, FilesExt_of_eq rfl, rfl, rfl, rfl, rfl⟩,
      hwf, rfl, hr, hname⟩

/-- Decoding the body of an `argument` element: each text run is re-split on
whitespace, each nested `file` element contributes its resolved reference. -/
theorem pieces_decode (st0 : Store) :
    ∀ (ps : List Piece) (acc : Option String) (h : DAXHandler)
      (rest : List String) (args : List Arg) (S : List ArgSig),
      h.elements = "argument" :: rest →
      h.lastArgument = some args →
      FilemapWF h.store h.filemap →
      ArgsFixed h.store args S →
      ∃ h' args', runEvents h (piecesEvents acc ps) = .ok h'
        ∧ ArgFrame h h'
        ∧ FilemapWF h'.store h'.filemap
        ∧ h'.lastArgument = some args'
        ∧ ArgsFixed h'.store args' (S ++ pieceSigs acc ps) := by
  intro ps
  induction ps with
  | nil =>
      intro acc h rest args S hel ha hwf hfix
      refine ⟨_, _, argument_chars h hel ha (acc.getD ""),
        ⟨rfl, filesExt_refl _, rfl, rfl, rfl, rfl⟩, hwf, rfl, ?_⟩
      show ArgsFixed h.store _ (S ++ pieceSigs acc [])
      rw [pieceSigs]
      exact argsFixed_lits hfix _
  | cons p rest' ih =>
      intro acc h rest args S hel ha hwf hfix
      cases p with
      | txt s =>
          have hev : piecesEvents acc (.txt s :: rest')
              = piecesEvents (some (acc.getD "" ++ s)) rest' := by
            rw [piecesEvents]
          have hsg : pieceSigs acc (.txt s :: rest')
              = pieceSigs (some (acc.getD "" ++ s)) rest' := by
            rw [pieceSigs]
          rw [hev, hsg]
          exact ih (some (acc.getD "" ++ s)) h rest args S hel ha hwf hfix
      | fel n =>
          obtain ⟨h2, f, hrun2, hfr2, hwf2, ha2, hf2, hn2⟩ :=
            file_arg_block { h with lastArgument := some (args
                ++ (shlexSplit (acc.getD "")).map Arg.lit) } n hel rfl hwf
          have hfix2 : ArgsFixed h2.store (args
              ++ (shlexSplit (acc.getD "")).map Arg.lit ++ [Arg.file f])
              ((S ++ (shlexSplit (acc.getD "")).map ArgSig.lit)
                ++ [ArgSig.file n]) :=
            argsFixed_file (argsFixed_mono (argsFixed_lits hfix _) hfr2.2.1)
              hf2 hn2
          have hel2 : h2.elements = "argument" :: rest := hfr2.1.trans hel
          obtain ⟨h3, args', hrun3, hfr3, hwf3, ha3, hfix3⟩ :=
            ih none h2 rest _ _ hel2 ha2 hwf2 hfix2
          refine ⟨h3, args', ?_, ?_, hwf3, ha3, ?_⟩
          · show runEvents h (charsOf (acc.getD "")
                ++ [XEvent.start "file" [("name", n)], XEvent.stop "file"]
                ++ piecesEvents none rest') = .ok h3
            have hAB : runEvents h (charsOf (acc.getD "")
                ++ [XEvent.start "file" [("name", n)], XEvent.stop "file"])
                = .ok h2 := by
              rw [runEvents_append, argument_chars h hel ha (acc.getD "")]
              exact hrun2
            rw [runEvents_append, hAB]
            exact hrun3
          · exact argFrame_trans (argFrame_trans
              ⟨rfl, filesExt_refl _, rfl, rfl, rfl, rfl⟩ hfr2) hfr3
          · show ArgsFixed h3.store args' (S ++ pieceSigs acc (.fel n :: rest'))
            rw [pieceSigs]
            simpa [List.append_assoc] using hfix3

/-- A complete `argument` element under an open node: the decoded token list
is appended to the current job by `addArguments`, and its signature is the
encoded one provided every literal token is a single whitespace-free word. -/
theorem argument_block_job (st0 : Store) (h : DAXHandler) (args0 : List Arg)
    {jr : Nat} {JS : List JobE} {cur : JobE}
    (hj : h.lastJob = some jr)
    (hjobs : h.store.jobs = JS ++ [cur])
    (hlen : JS.length = jr)
    (hwf : FilemapWF h.store h.filemap)
    (hw : ∀ s, Arg.lit s ∈ args0 → wordlike s) :
    ∃ h' L, runEvents h ([.start "argument" []] ++ argContent st0 args0
        ++ [.stop "argument"]) = .ok h'
      ∧ h'.elements = h.elements
      ∧ FilesExt h.store h'.store
      ∧ FilemapWF h'.store h'.filemap
      ∧ h'.store.jobs = JS ++ [cur.addArguments L]
      ∧ h'.jobmap = h.jobmap
      ∧ h'.adag = h.adag
      ∧ h'.lastJob = h.lastJob
      ∧ ArgsFixed h'.store L (args0.map (Arg.sig st0)) := by
  subst hlen
  have e1 := step_start_argument h []
  obtain ⟨h2, L, hrun2, hfr2, hwf2, ha2, hfix2⟩ :=
    pieces_decode st0
      (List.intersperse (.txt " ") (args0.map (Arg.piece st0))) none
      { h with elements := "argument" :: h.elements, lastArgument := some [] }
      h.elements [] [] rfl rfl hwf (argsFixed_nil _)
  have hj2 : h2.lastJob = some JS.length := hfr2.2.2.2.2.2.trans hj
  have hjobs2 : h2.store.jobs = JS ++ [cur] := hfr2.2.2.1.trans hjobs
  have estop := step_stop_argument h2 ha2 hj2
  have hsig : ([] : List ArgSig) ++ pieceSigs none
      (List.intersperse (.txt " ") (args0.map (Arg.piece st0)))
      = args0.map (Arg.sig st0) := by
    rw [List.nil_append, pieceSigs_intersperse st0 args0 hw]
  have hAB : runEvents h ([XEvent.start "argument" []] ++ argContent st0 args0)
      = .ok h2 := by
    rw [List.singleton_append, runEvents_cons_ok (argContent st0 args0) e1]
    exact hrun2
  have hfin : runEvents h ([XEvent.start "argument" []] ++ argContent st0 args0
      ++ [XEvent.stop "argument"]) = runEvents h2 [XEvent.stop "argument"] := by
    rw [runEvents_append, hAB]
  have hfin2 := hfin.trans ((runEvents_cons_ok [] estop).trans rfl)
  refine ⟨_, L, hfin2, ?_, ?_, ?_, ?_, ?_, ?_, ?_, ?_⟩
  · show h2.elements.drop 1 = h.elements
    rw [hfr2.1]
    rfl
  · show FilesExt h.store { h2.store with
      jobs := h2.store.jobs.set JS.length ((h2.store.getJob JS.length).addArguments L) }
    exact filesExt_trans (filesExt_trans (FilesExt_of_eq rfl) hfr2.2.1)
      (FilesExt_of_eq rfl)
  · exact hwf2.mono (FilesExt_of_eq rfl)
  · show h2.store.jobs.set JS.length ((h2.store.getJob JS.length).addArguments L)
        = JS ++ [cur.addArguments L]
    rw [getJob_append hjobs2, hjobs2, set_append_length]
  · exact hfr2.2.2.2.1
  · exact hfr2.2.2.2.2.1
  · exact hfr2.2.2.2.2.2
  · rw [← hsig]
    exact argsFixed_mono hfix2 (FilesExt_of_eq rfl)

theorem aget_attrIf_same (b : Bool) (k v : String) :
    aget (attrIf b k v) k = if b then some v else none := by
  cases b <;> simp [attrIf, aget]

theorem aget_attrIf_ne {q : String} (b : Bool) (k v : String) (h : q ≠ k) :
    aget (attrIf b q v) k = none := by
  cases b <;> simp [attrIf, aget, h]

theorem aget_attrsX_link (st0 : Store) (u : Use) :
    aget (u.attrsX st0) "link"
      = (if (pyOr u.link (st0.getFile u.file).link).truthy
         then some (pyOr u.link (st0.getFile u.file).link).toStr else none) := by
  by_cases hx : (st0.getFile u.file).isExe <;>
    simp [Use.attrsX, aget_append, aget, aget_attrIf_same, aget_attrIf_ne, hx]

theorem aget_attrsX_optional (st0 : Store) (u : Use) :
    aget (u.attrsX st0) "optional"
      = (if (pyOr u.optional (st0.getFile u.file).optional).truthy
         then some (pyOr u.optional (st0.getFile u.file).optional).toStrLower
         else none) := by
  by_cases hx : (st0.getFile u.file).isExe <;>
    simp [Use.attrsX, aget_append, aget, aget_attrIf_same, aget_attrIf_ne, hx]

theorem aget_attrsX_register (st0 : Store) (u : Use) :
    aget (u.attrsX st0) "register"
      = (if (pyOr u.register (st0.getFile u.file).register).truthy
         then some (pyOr u.register (st0.getFile u.file).register).toStrLower
         else none) := by
  by_cases hx : (st0.getFile u.file).isExe <;>
    simp [Use.attrsX, aget_append, aget, aget_attrIf_same, aget_attrIf_ne, hx]

theorem aget_attrsX_transfer (st0 : Store) (u : Use) :
    aget (u.attrsX st0) "transfer"
      = (if (pyOr u.transfer (st0.getFile u.file).transfer).truthy
         then some (pyOr u.transfer (st0.getFile u.file).transfer).toStrLower
         else none) := by
  by_cases hx : (st0.getFile u.file).isExe <;>
    simp [Use.attrsX, aget_append, aget, aget_attrIf_same, aget_attrIf_ne, hx]

/-- `uses` elements carry `executable="true"` exactly for `Executable`
referents, and the decoder's `bool(attrs.get("executable", False))` reads it
back faithfully. -/
theorem exeFlag_attrsX (st0 : Store) (u : Use) :
    exeFlag (u.attrsX st0) = (st0.getFile u.file).isExe := by
  unfold exeFlag
  by_cases hx : (st0.getFile u.file).isExe <;>
    simp [Use.attrsX, aget_append, aget, aget_attrIf_same, aget_attrIf_ne, hx]

/-- The override values that survive the truthiness-guarded, lowercased
attribute rendering: a nonempty string (for the lowered attributes, ASCII
and already lowercase — on ASCII strings `strLower` is exactly Python
`lower()`, so the string renders to itself; a non-ASCII string could be
fixed by `strLower` yet still be rewritten by Python's `lower()`), or an
unset override whose fallback is falsy (so the attribute is omitted and
decodes back to `None`). -/
def OverrideOK (lower : Bool) (raw fb : PyV) : Prop :=
  (∃ s, raw = .pstr s ∧ s ≠ ""
    ∧ (lower = true → (∀ c ∈ s.data, c.toNat < 128) ∧ strLower s = s))
  ∨ (raw = .pnone ∧ fb.truthy = false)

theorem optPyV_round_plain {raw fb : PyV} (h : OverrideOK false raw fb) :
    optPyV (if (pyOr raw fb).truthy then some (pyOr raw fb).toStr else none)
      = raw := by
  rcases h with ⟨s, rfl, hs, _⟩ | ⟨rfl, hfb⟩
  · have ht : (PyV.pstr s).truthy = true := by simp [PyV.truthy, hs]
    rw [pyOr, if_pos ht, if_pos ht]
    simp [PyV.toStr, optPyV]
  · have hp : pyOr .pnone fb = fb := by simp [pyOr, PyV.truthy]
    rw [hp, hfb]
    simp [optPyV]

theorem optPyV_round_lower {raw fb : PyV} (h : OverrideOK true raw fb) :
    optPyV (if (pyOr raw fb).truthy then some (pyOr raw fb).toStrLower else none)
      = raw := by
  rcases h with ⟨s, rfl, hs, hlow⟩ | ⟨rfl, hfb⟩
  · have ht : (PyV.pstr s).truthy = true := by simp [PyV.truthy, hs]
    rw [pyOr, if_pos ht, if_pos ht]
    simp [PyV.toStrLower, PyV.toStr, optPyV, (hlow rfl).2]
  · have hp : pyOr .pnone fb = fb := by simp [pyOr, PyV.truthy]
    rw [hp, hfb]
    simp [optPyV]

/-- The per-use side condition of the round trip: every override either
renders to itself or is unset with a falsy fallback. -/
def UseOK (st0 : Store) (u : Use) : Prop :=
  OverrideOK false u.link (st0.getFile u.file).link
  ∧ OverrideOK true u.optional (st0.getFile u.file).optional
  ∧ OverrideOK true u.register (st0.getFile u.file).register
  ∧ OverrideOK true u.transfer (st0.getFile u.file).transfer

theorem uses_decoded_overrides (st0 : Store) (u : Use) (hok : UseOK st0 u) :
    optPyV (aget (u.attrsX st0) "link") = u.link
    ∧ optPyV (aget (u.attrsX st0) "optional") = u.optional
    ∧ optPyV (aget (u.attrsX st0) "register") = u.register
    ∧ optPyV (aget (u.attrsX st0) "transfer") = u.transfer := by
  refine ⟨?_, ?_, ?_, ?_⟩
  · rw [aget_attrsX_link]
    exact optPyV_round_plain hok.1
  · rw [aget_attrsX_optional]
    exact optPyV_round_lower hok.2.1
  · rw [aget_attrsX_register]
    exact optPyV_round_lower hok.2.2.1
  · rw [aget_attrsX_transfer]
    exact optPyV_round_lower hok.2.2.2

/-- A single `uses` element under an open node: the current job gains one
`Use` whose overrides are exactly the encoded ones and whose referent is an
in-range entity carrying the encoded name. -/
theorem uses_block_job (st0 : Store) (h : DAXHandler) (u : Use)
    {el0 : String} {rest : List String} {JS : List JobE} {cur : JobE}
    (hel : h.elements = el0 :: rest)
    (hp : el0 = "job" ∨ el0 = "dax" ∨ el0 = "dag")
    (hj : h.lastJob = some JS.length)
    (hjobs : h.store.jobs = JS ++ [cur])
    (hwf : FilemapWF h.store h.filemap)
    (hok : UseOK st0 u) :
    ∃ h' f, runEvents h (Use.toEvents st0 u) = .ok h'
      ∧ h'.elements = h.elements
      ∧ FilesExt h.store h'.store
      ∧ FilemapWF h'.store h'.filemap
      ∧ h'.store.jobs
          = JS ++ [cur.uses f u.link u.register u.transfer u.optional]
      ∧ h'.jobmap = h.jobmap
      ∧ h'.adag = h.adag
      ∧ h'.lastJob = h.lastJob
      ∧ f < h'.store.files.length
      ∧ (h'.store.getFile f).name = (st0.getFile u.file).name := by
  have hn := aget_attrsX_name st0 u
  have hov := uses_decoded_overrides st0 u hok
  rcases hlk : dget h.filemap (some (st0.getFile u.file).name) with _ | r
  · rcases hex : exeFlag (u.attrsX st0) with _ | _
    · have e1 := step_start_uses_job_freshFile h (u.attrsX st0) hel hp hj hn hlk hex
      have hfin := (runEvents_cons_ok [XEvent.stop "uses"] e1).trans
        ((runEvents_cons_ok []
          (step_stop_other _ "uses" (by simp))).trans rfl)
      refine ⟨_, h.store.files.length, hfin, by simp [hel], FilesExt_append rfl,
        FilemapWF.insert hwf rfl rfl, ?_, rfl, rfl, rfl, by simp, ?_⟩
      · show h.store.jobs.set JS.length
            ((h.store.getJob JS.length).uses h.store.files.length
              (optPyV (aget (u.attrsX st0) "link"))
              (optPyV (aget (u.attrsX st0) "register"))
              (optPyV (aget (u.attrsX st0) "transfer"))
              (optPyV (aget (u.attrsX st0) "optional")))
          = JS ++ [cur.uses h.store.files.length u.link u.register u.transfer
              u.optional]
        rw [getJob_append hjobs, hjobs, set_append_length,
          hov.1, hov.2.1, hov.2.2.1, hov.2.2.2]
      · show ((h.store.files ++ [_]).getD h.store.files.length default).name = _
        rw [getD_append_length]
    · have e1 := step_start_uses_job_freshExe h (u.attrsX st0) hel hp hj hn hlk hex
      have hfin := (runEvents_cons_ok [XEvent.stop "uses"] e1).trans
        ((runEvents_cons_ok []
          (step_stop_other _ "uses" (by simp))).trans rfl)
      refine ⟨_, h.store.files.length, hfin, by simp [hel], FilesExt_append rfl,
        FilemapWF.insert hwf rfl rfl, ?_, rfl, rfl, rfl, by simp, ?_⟩
      · show h.store.jobs.set JS.length
            ((h.store.getJob JS.length).uses h.store.files.length
              (optPyV (aget (u.attrsX st0) "link"))
              (optPyV (aget (u.attrsX st0) "register"))
              (optPyV (aget (u.attrsX st0) "transfer"))
              (optPyV (aget (u.attrsX st0) "optional")))
          = JS ++ [cur.uses h.store.files.length u.link u.register u.transfer
              u.optional]
        rw [getJob_append hjobs, hjobs, set_append_length,
          hov.1, hov.2.1, hov.2.2.1, hov.2.2.2]
      · show ((h.store.files ++ [_]).getD h.store.files.length default).name = _
        rw [getD_append_length]
  · have e1 := step_start_uses_job_found h (u.attrsX st0) hel hp hj hn hlk
    have hfin := (runEvents_cons_ok [XEvent.stop "uses"] e1).trans
      ((runEvents_cons_ok []
        (step_stop_other _ "uses" (by simp))).trans rfl)
    obtain ⟨hr, hname⟩ := hwf.lookup hlk
    refine ⟨_, r, hfin, by simp [hel], FilesExt_of_eq rfl,
      hwf.mono (FilesExt_of_eq rfl), ?_, rfl, rfl, rfl, hr, hname⟩
    show h.store.jobs.set JS.length
        ((h.store.getJob JS.length).uses r
          (optPyV (aget (u.attrsX st0) "link"))
          (optPyV (aget (u.attrsX st0) "register"))
          (optPyV (aget (u.attrsX st0) "transfer"))
          (optPyV (aget (u.attrsX st0) "optional")))
      = JS ++ [cur.uses r u.link u.register u.transfer u.optional]
    rw [getJob_append hjobs, hjobs, set_append_length,
      hov.1, hov.2.1, hov.2.2.1, hov.2.2.2]

/-- The whole `uses` run of a node: the decoded job's use list extends by
records carrying exactly the encoded signatures. -/
theorem uses_fold_job (st0 : Store) :
    ∀ (us : List Use) (h : DAXHandler)
      {el0 : String} {rest : List String} {JS : List JobE} {cur : JobE}
      {S : List UseSig},
      h.elements = el0 :: rest →
      (el0 = "job" ∨ el0 = "dax" ∨ el0 = "dag") →
      h.lastJob = some JS.length →
      h.store.jobs = JS ++ [cur] →
      FilemapWF h.store h.filemap →
      (∀ u ∈ us, UseOK st0 u) →
      UsesFixed h.store cur.used_files S →
      ∃ h' cur', runEvents h ((us.map (Use.toEvents st0)).flatten) = .ok h'
        ∧ h'.elements = h.elements
        ∧ FilesExt h.store h'.store
        ∧ FilemapWF h'.store h'.filemap
        ∧ h'.store.jobs = JS ++ [cur']
        ∧ h'.jobmap = h.jobmap
        ∧ h'.adag = h.adag
        ∧ h'.lastJob = h.lastJob
        ∧ cur'.id = cur.id
        ∧ cur'.arguments = cur.arguments
        ∧ UsesFixed h'.store cur'.used_files (S ++ us.map (Use.sig st0)) := by
  intro us
  induction us with
  | nil =>
      intro h el0 rest JS cur S hel hp hj hjobs hwf hok hfix
      exact ⟨h, cur, rfl, rfl, filesExt_refl _, hwf, hjobs, rfl, rfl, rfl,
        rfl, rfl, by simpa using hfix⟩
  | cons u us' ih =>
      intro h el0 rest JS cur S hel hp hj hjobs hwf hok hfix
      obtain ⟨h1, f, hrun1, hel1, hfe1, hwf1, hjobs1, hjm1, had1, hlj1,
        hf1, hn1⟩ :=
        uses_block_job st0 h u hel hp hj hjobs hwf
          (hok u (List.mem_cons_self _ _))
      have hfix1 : UsesFixed h1.store
          (cur.uses f u.link u.register u.transfer u.optional).used_files
          (S ++ [Use.sig st0 u]) := by
        show UsesFixed h1.store (cur.used_files
          ++ [{ file := f, link := u.link, optional := u.optional,
                register := u.register, transfer := u.transfer }])
          (S ++ [Use.sig st0 u])
        refine usesFixed_snoc (usesFixed_mono hfix hfe1) hf1 ?_
        show UseSig.mk (h1.store.getFile f).name u.link u.optional u.register
            u.transfer = Use.sig st0 u
        rw [hn1]
        rfl
      obtain ⟨h2, cur', hrun2, hel2, hfe2, hwf2, hjobs2, hjm2, had2, hlj2,
        hid2, harg2, hfix2⟩ :=
        ih h1 (hel1.trans hel) hp (hlj1.trans hj) hjobs1 hwf1
          (fun v hv => hok v (List.mem_cons_of_mem _ hv)) hfix1
      refine ⟨h2, cur', ?_, hel2.trans hel1, filesExt_trans hfe1 hfe2, hwf2,
        hjobs2, hjm2.trans hjm1, had2.trans had1, hlj2.trans hlj1,
        by simpa using hid2, by simpa using harg2, ?_⟩
      · rw [List.map_cons, List.flatten_cons, runEvents_append, hrun1]
        exact hrun2
      · rw [List.map_cons]
        simpa [List.append_assoc] using hfix2

/-- A profile element under an open `job` element mutates only the current
job's profile list. -/
theorem profile_block_job (h : DAXHandler) (p : Profile)
    {rest : List String} {JS : List JobE} {cur : JobE}
    (hel : h.elements = "job" :: rest)
    (hj : h.lastJob = some JS.length)
    (hjobs : h.store.jobs = JS ++ [cur]) :
    ∃ h' cur', runEvents h p.toEvents = .ok h'
      ∧ h'.elements = h.elements
      ∧ FilesExt h.store h'.store
      ∧ h'.filemap = h.filemap
      ∧ h'.store.files = h.store.files
      ∧ h'.store.jobs = JS ++ [cur']
      ∧ h'.jobmap = h.jobmap
      ∧ h'.adag = h.adag
      ∧ h'.lastJob = h.lastJob
      ∧ cur'.id = cur.id
      ∧ cur'.arguments = cur.arguments
      ∧ cur'.used_files = cur.used_files := by
  have e1 := step_start_profile_job h
    [("namespace", optStr p.ns), ("key", optStr p.key)] hel hj
  have hset : h.store.jobs.set JS.length
      ((h.store.getJob JS.length).addProfile h.store.profiles.length)
      = JS ++ [cur.addProfile h.store.profiles.length] := by
    rw [getJob_append hjobs, hjobs, set_append_length]
  by_cases hv : p.value = ""
  · simp only [Profile.toEvents, charsOf, if_pos hv, List.append_nil,
      List.nil_append, List.cons_append]
    have hrun := (runEvents_cons_ok [XEvent.stop "profile"] e1).trans
      ((runEvents_cons_ok [] (step_stop_profile _)).trans rfl)
    exact ⟨_, cur.addProfile h.store.profiles.length, hrun, by simp [hel],
      FilesExt_of_eq rfl, rfl, rfl, hset, rfl, rfl, rfl, rfl, rfl, rfl⟩
  · simp only [Profile.toEvents, charsOf, if_neg hv, List.append_nil,
      List.nil_append, List.cons_append, List.singleton_append]
    have hrun := (runEvents_cons_ok [XEvent.chars p.value, XEvent.stop "profile"] e1).trans
      ((runEvents_cons_ok [XEvent.stop "profile"]
          (step_chars_profile _ rfl rfl p.value)).trans
        ((runEvents_cons_ok [] (step_stop_profile _)).trans rfl))
    exact ⟨_, cur.addProfile h.store.profiles.length, hrun, by simp [hel],
      FilesExt_of_eq rfl, rfl, rfl, hset, rfl, rfl, rfl, rfl, rfl, rfl⟩

/-- A `stdin`/`stdout`/`stderr` element under an open node: a fresh file is
always created, and only the job's stdio slot changes. -/
theorem stdio_block_job (st0 : Store) (h : DAXHandler) (tag : String) (r : Nat)
    {JS : List JobE} {cur : JobE}
    (htag : tag = "stdin" ∨ tag = "stdout" ∨ tag = "stderr")
    (hj : h.lastJob = some JS.length)
    (hjobs : h.store.jobs = JS ++ [cur]) :
    ∃ h' cur', runEvents h (stdioEvents st0 tag r) = .ok h'
      ∧ h'.elements = h.elements
      ∧ FilesExt h.store h'.store
      ∧ h'.filemap = h.filemap
      ∧ h'.store.jobs = JS ++ [cur']
      ∧ h'.jobmap = h.jobmap
      ∧ h'.adag = h.adag
      ∧ h'.lastJob = h.lastJob
      ∧ cur'.id = cur.id
      ∧ cur'.arguments = cur.arguments
      ∧ cur'.used_files = cur.used_files := by
  rcases htag with rfl | rfl | rfl
  · have hev : stdioEvents st0 "stdin" r
        = [.start "stdin" [("name", (st0.getFile r).name), ("link", "input")],
           .stop "stdin"] := by
      simp [stdioEvents]
    have hn : aget [("name", (st0.getFile r).name), ("link", "input")] "name"
        = some (st0.getFile r).name := by simp [aget]
    have e1 := step_start_stdin h
      [("name", (st0.getFile r).name), ("link", "input")] hj hn
    have hfin := (runEvents_cons_ok [XEvent.stop "stdin"] e1).trans
      ((runEvents_cons_ok [] (step_stop_other _ "stdin" (by simp))).trans rfl)
    rw [hev]
    refine ⟨_, cur.setStdin h.store.files.length, hfin, by simp,
      FilesExt_append rfl, rfl, ?_, rfl, rfl, rfl, rfl, rfl, rfl⟩
    show h.store.jobs.set JS.length
        ((h.store.getJob JS.length).setStdin h.store.files.length) = _
    rw [getJob_append hjobs, hjobs, set_append_length]
  · have hev : stdioEvents st0 "stdout" r
        = [.start "stdout" [("name", (st0.getFile r).name), ("link", "output")],
           .stop "stdout"] := by
      simp [stdioEvents]
    have hn : aget [("name", (st0.getFile r).name), ("link", "output")] "name"
        = some (st0.getFile r).name := by simp [aget]
    have e1 := step_start_stdout h
      [("name", (st0.getFile r).name), ("link", "output")] hj hn
    have hfin := (runEvents_cons_ok [XEvent.stop "stdout"] e1).trans
      ((runEvents_cons_ok [] (step_stop_other _ "stdout" (by simp))).trans rfl)
    rw [hev]
    refine ⟨_, cur.setStdout h.store.files.length, hfin, by simp,
      FilesExt_append rfl, rfl, ?_, rfl, rfl, rfl, rfl, rfl, rfl⟩
    show h.store.jobs.set JS.length
        ((h.store.getJob JS.length).setStdout h.store.files.length) = _
    rw [getJob_append hjobs, hjobs, set_append_length]
  · have hev : stdioEvents st0 "stderr" r
        = [.start "stderr" [("name", (st0.getFile r).name), ("link", "output")],
           .stop "stderr"] := by
      simp [stdioEvents]
    have hn : aget [("name", (st0.getFile r).name), ("link", "output")] "name"
        = some (st0.getFile r).name := by simp [aget]
    have e1 := step_start_stderr h
      [("name", (st0.getFile r).name), ("link", "output")] hj hn
    have hfin := (runEvents_cons_ok [XEvent.stop "stderr"] e1).trans
      ((runEvents_cons_ok [] (step_stop_other _ "stderr" (by simp))).trans rfl)
    rw [hev]
    refine ⟨_, cur.setStderr h.store.files.length, hfin, by simp,
      FilesExt_append rfl, rfl, ?_, rfl, rfl, rfl, rfl, rfl, rfl⟩
    show h.store.jobs.set JS.length
        ((h.store.getJob JS.length).setStderr h.store.files.length) = _
    rw [getJob_append hjobs, hjobs, set_append_length]

/-- An `invoke` element under an open node mutates only the current job's
notification list. -/
theorem invoke_block_job (h : DAXHandler) (w : Option String) (t : String)
    {JS : List JobE} {cur : JobE}
    (hj : h.lastJob = some JS.length)
    (hjobs : h.store.jobs = JS ++ [cur]) :
    ∃ h' cur', runEvents h ([XEvent.start "invoke" [("when", optStr w)]]
        ++ charsOf t ++ [XEvent.stop "invoke"]) = .ok h'
      ∧ h'.elements = h.elements
      ∧ FilesExt h.store h'.store
      ∧ h'.filemap = h.filemap
      ∧ h'.store.files = h.store.files
      ∧ h'.store.jobs = JS ++ [cur']
      ∧ h'.jobmap = h.jobmap
      ∧ h'.adag = h.adag
      ∧ h'.lastJob = h.lastJob
      ∧ cur'.id = cur.id
      ∧ cur'.arguments = cur.arguments
      ∧ cur'.used_files = cur.used_files := by
  have e1 := step_start_invoke h [("when", optStr w)]
  by_cases hv : t = ""
  · simp only [charsOf, if_pos hv, List.append_nil, List.nil_append,
      List.cons_append, List.singleton_append]
    have estop := step_stop_invoke
      { h with
          elements := "invoke" :: h.elements,
          lastInvoke := some (aget [("when", optStr w)] "when", "") }
      rfl hj
    have hrun := (runEvents_cons_ok [XEvent.stop "invoke"] e1).trans
      ((runEvents_cons_ok [] estop).trans rfl)
    refine ⟨_, cur.invoke (aget [("when", optStr w)] "when") "", hrun, by simp,
      FilesExt_of_eq rfl, rfl, rfl, ?_, rfl, rfl, rfl, rfl, rfl, rfl⟩
    show h.store.jobs.set JS.length ((h.store.getJob JS.length).invoke _ _) = _
    rw [getJob_append hjobs, hjobs, set_append_length]
  · simp only [charsOf, if_neg hv, List.append_nil, List.nil_append,
      List.cons_append, List.singleton_append]
    have echars := step_chars_invoke
      { h with
          elements := "invoke" :: h.elements,
          lastInvoke := some (aget [("when", optStr w)] "when", "") }
      rfl rfl t
    have estop := step_stop_invoke
      { h with
          elements := "invoke" :: h.elements,
          lastInvoke := some (aget [("when", optStr w)] "when", "" ++ t) }
      rfl hj
    have hrun := (runEvents_cons_ok [XEvent.chars t, XEvent.stop "invoke"] e1).trans
      ((runEvents_cons_ok [XEvent.stop "invoke"] echars).trans
        ((runEvents_cons_ok [] estop).trans rfl))
    refine ⟨_, cur.invoke (aget [("when", optStr w)] "when") ("" ++ t), hrun,
      by simp, FilesExt_of_eq rfl, rfl, rfl, ?_, rfl, rfl, rfl, rfl, rfl, rfl⟩
    show h.store.jobs.set JS.length ((h.store.getJob JS.length).invoke _ _) = _
    rw [getJob_append hjobs, hjobs, set_append_length]

/-- The profiles of a node, run in sequence. -/
theorem prof_fold_job (st0 : Store) :
    ∀ (prs : List Nat) (h : DAXHandler) {rest : List String}
      {JS : List JobE} {cur : JobE},
      h.elements = "job" :: rest →
      h.lastJob = some JS.length →
      h.store.jobs = JS ++ [cur] →
      ∃ h' cur', runEvents h
          ((prs.map (fun r => (st0.getProfile r).toEvents)).flatten) = .ok h'
        ∧ h'.elements = h.elements
        ∧ h'.store.files = h.store.files
        ∧ h'.filemap = h.filemap
        ∧ h'.store.jobs = JS ++ [cur']
        ∧ h'.jobmap = h.jobmap
        ∧ h'.adag = h.adag
        ∧ h'.lastJob = h.lastJob
        ∧ cur'.id = cur.id
        ∧ cur'.arguments = cur.arguments
        ∧ cur'.used_files = cur.used_files := by
  intro prs
  induction prs with
  | nil =>
      intro h rest JS cur hel hj hjobs
      exact ⟨h, cur, rfl, rfl, rfl, rfl, hjobs, rfl, rfl, rfl, rfl, rfl, rfl⟩
  | cons r prs' ih =>
      intro h rest JS cur hel hj hjobs
      obtain ⟨h1, cur1, hrun1, hel1, hfe1, hfm1, hfl1, hjobs1, hjm1, had1, hlj1,
        hid1, harg1, hus1⟩ := profile_block_job h (st0.getProfile r) hel hj hjobs
      obtain ⟨h2, cur2, hrun2, hel2, hfl2, hfm2, hjobs2, hjm2, had2, hlj2,
        hid2, harg2, hus2⟩ := ih h1 (hel1.trans hel) (hlj1.trans hj) hjobs1
      refine ⟨h2, cur2, ?_, hel2.trans hel1, hfl2.trans hfl1, hfm2.trans hfm1,
        hjobs2, hjm2.trans hjm1, had2.trans had1, hlj2.trans hlj1,
        hid2.trans hid1, harg2.trans harg1, hus2.trans hus1⟩
      rw [List.map_cons, List.flatten_cons, runEvents_append, hrun1]
      exact hrun2

/-- The notifications of a node, run in sequence. -/
theorem invoke_fold_job :
    ∀ (ns : List (Option String × String)) (h : DAXHandler)
      {JS : List JobE} {cur : JobE},
      h.lastJob = some JS.length →
      h.store.jobs = JS ++ [cur] →
      ∃ h' cur', runEvents h
          ((ns.map (fun p => [XEvent.start "invoke" [("when", optStr p.1)]]
              ++ charsOf p.2 ++ [XEvent.stop "invoke"])).flatten) = .ok h'
        ∧ h'.elements = h.elements
        ∧ h'.store.files = h.store.files
        ∧ h'.filemap = h.filemap
        ∧ h'.store.jobs = JS ++ [cur']
        ∧ h'.jobmap = h.jobmap
        ∧ h'.adag = h.adag
        ∧ h'.lastJob = h.lastJob
        ∧ cur'.id = cur.id
        ∧ cur'.arguments = cur.arguments
        ∧ cur'.used_files = cur.used_files := by
  intro ns
  induction ns with
  | nil =>
      intro h JS cur hj hjobs
      exact ⟨h, cur, rfl, rfl, rfl, rfl, hjobs, rfl, rfl, rfl, rfl, rfl, rfl⟩
  | cons p ns' ih =>
      intro h JS cur hj hjobs
      obtain ⟨h1, cur1, hrun1, hel1, hfe1, hfm1, hfl1, hjobs1, hjm1, had1,
        hlj1, hid1, harg1, hus1⟩ := invoke_block_job h p.1 p.2 hj hjobs
      obtain ⟨h2, cur2, hrun2, hel2, hfl2, hfm2, hjobs2, hjm2, had2, hlj2,
        hid2, harg2, hus2⟩ := ih h1 (hlj1.trans hj) hjobs1
      refine ⟨h2, cur2, ?_, hel2.trans hel1, hfl2.trans hfl1, hfm2.trans hfm1,
        hjobs2, hjm2.trans hjm1, had2.trans had1, hlj2.trans hlj1,
        hid2.trans hid1, harg2.trans harg1, hus2.trans hus1⟩
      rw [List.map_cons, List.flatten_cons, runEvents_append, hrun1]
      exact hrun2

/-- An optional stdio redirection of a node. -/
theorem stdio_opt_job (st0 : Store) (h : DAXHandler) (tag : String)
    (o : Option Nat) {JS : List JobE} {cur : JobE}
    (htag : tag = "stdin" ∨ tag = "stdout" ∨ tag = "stderr")
    (hj : h.lastJob = some JS.length)
    (hjobs : h.store.jobs = JS ++ [cur]) :
    ∃ h' cur', runEvents h
        (match o with | none => [] | some r => stdioEvents st0 tag r) = .ok h'
      ∧ h'.elements = h.elements
      ∧ FilesExt h.store h'.store
      ∧ h'.filemap = h.filemap
      ∧ h'.store.jobs = JS ++ [cur']
      ∧ h'.jobmap = h.jobmap
      ∧ h'.adag = h.adag
      ∧ h'.lastJob = h.lastJob
      ∧ cur'.id = cur.id
      ∧ cur'.arguments = cur.arguments
      ∧ cur'.used_files = cur.used_files := by
  cases o with
  | none =>
      exact ⟨h, cur, rfl, rfl, filesExt_refl _, rfl, hjobs, rfl, rfl, rfl,
        rfl, rfl, rfl⟩
  | some r =>
      obtain ⟨h1, cur1, hrun1, hel1, hfe1, hfm1, hjobs1, hjm1, had1, hlj1,
        hid1, harg1, hus1⟩ := stdio_block_job st0 h tag r htag hj hjobs
      exact ⟨h1, cur1, hrun1, hel1, hfe1, hfm1, hjobs1, hjm1, had1, hlj1,
        hid1, harg1, hus1⟩

/-- The (possibly absent) argument element of a node. -/
theorem arg_stage_job (st0 : Store) (h : DAXHandler) (args0 : List Arg)
    {JS : List JobE} {cur : JobE}
    (hj : h.lastJob = some JS.length)
    (hjobs : h.store.jobs = JS ++ [cur])
    (hwf : FilemapWF h.store h.filemap)
    (hw : ∀ s, Arg.lit s ∈ args0 → wordlike s)
    (hcur : cur.arguments = []) :
    ∃ h' cur', runEvents h
        (if args0.isEmpty then []
         else [.start "argument" []] ++ argContent st0 args0
            ++ [.stop "argument"]) = .ok h'
      ∧ h'.elements = h.elements
      ∧ FilesExt h.store h'.store
      ∧ FilemapWF h'.store h'.filemap
      ∧ h'.store.jobs = JS ++ [cur']
      ∧ h'.jobmap = h.jobmap
      ∧ h'.adag = h.adag
      ∧ h'.lastJob = h.lastJob
      ∧ cur'.id = cur.id
      ∧ cur'.used_files = cur.used_files
      ∧ ArgsFixed h'.store cur'.arguments (args0.map (Arg.sig st0)) := by
  by_cases he : args0.isEmpty
  · rw [if_pos he]
    rw [List.isEmpty_iff] at he
    subst he
    refine ⟨h, cur, rfl, rfl, filesExt_refl _, hwf, hjobs, rfl, rfl, rfl, rfl,
      rfl, ?_⟩
    rw [hcur]
    exact argsFixed_nil _
  · rw [if_neg he]
    obtain ⟨h1, L, hrun1, hel1, hfe1, hwf1, hjobs1, hjm1, had1, hlj1, hfix1⟩ :=
      argument_block_job st0 h args0 hj hjobs rfl hwf hw
    refine ⟨h1, cur.addArguments L, hrun1, hel1, hfe1, hwf1, hjobs1, hjm1,
      had1, hlj1, rfl, rfl, ?_⟩
    show ArgsFixed h1.store (cur.arguments ++ L) (args0.map (Arg.sig st0))
    rw [hcur, List.nil_append]
    exact hfix1

/-- The profiles stage of a node: nonempty profile lists decode only under a
`job` element (the dax/dag dispatch of the decoder rejects them, so those
nodes are required profile-free). -/
theorem prof_stage_job (st0 : Store) (prs : List Nat) (h : DAXHandler)
    {el0 : String} {rest : List String} {JS : List JobE} {cur : JobE}
    (hel : h.elements = el0 :: rest)
    (hcase : el0 = "job" ∨ prs = [])
    (hj : h.lastJob = some JS.length)
    (hjobs : h.store.jobs = JS ++ [cur]) :
    ∃ h' cur', runEvents h
        ((prs.map (fun r => (st0.getProfile r).toEvents)).flatten) = .ok h'
      ∧ h'.elements = h.elements
      ∧ h'.store.files = h.store.files
      ∧ h'.filemap = h.filemap
      ∧ h'.store.jobs = JS ++ [cur']
      ∧ h'.jobmap = h.jobmap
      ∧ h'.adag = h.adag
      ∧ h'.lastJob = h.lastJob
      ∧ cur'.id = cur.id
      ∧ cur'.arguments = cur.arguments
      ∧ cur'.used_files = cur.used_files := by
  rcases hcase with rfl | rfl
  · exact prof_fold_job st0 prs h hel hj hjobs
  · exact ⟨h, cur, rfl, rfl, rfl, rfl, hjobs, rfl, rfl, rfl, rfl, rfl, rfl⟩

theorem runEvents_append_ok {h h1 h2 : DAXHandler} {l1 l2 : List XEvent}
    (a : runEvents h l1 = .ok h1) (b : runEvents h1 l2 = .ok h2) :
    runEvents h (l1 ++ l2) = .ok h2 := by
  rw [runEvents_append, a]
  exact b

/-- The inner region of a node element: argument, profiles, stdio, uses and
notifications, decoded against the job under construction. -/
theorem node_inner_run (st0 : Store) (j : JobE) (h1 : DAXHandler)
    {el0 : String} {rest : List String} {JS : List JobE} {cur0 : JobE}
    (hel : h1.elements = el0 :: rest)
    (hp : el0 = "job" ∨ el0 = "dax" ∨ el0 = "dag")
    (hpcase : el0 = "job" ∨ j.profiles = [])
    (hj : h1.lastJob = some JS.length)
    (hjobs : h1.store.jobs = JS ++ [cur0])
    (hwf : FilemapWF h1.store h1.filemap)
    (hargs0 : cur0.arguments = [])
    (huses0 : cur0.used_files = [])
    (hw : ∀ s, Arg.lit s ∈ j.arguments → wordlike s)
    (hus : ∀ u ∈ j.used_files, UseOK st0 u) :
    ∃ h' cur', runEvents h1 (JobE.innerEvents st0 j) = .ok h'
      ∧ h'.elements = h1.elements
      ∧ FilesExt h1.store h'.store
      ∧ FilemapWF h'.store h'.filemap
      ∧ h'.store.jobs = JS ++ [cur']
      ∧ h'.jobmap = h1.jobmap
      ∧ h'.adag = h1.adag
      ∧ h'.lastJob = h1.lastJob
      ∧ cur'.id = cur0.id
      ∧ ArgsFixed h'.store cur'.arguments (j.arguments.map (Arg.sig st0))
      ∧ UsesFixed h'.store cur'.used_files (j.used_files.map (Use.sig st0)) := by
  obtain ⟨h2, cur1, rA, eA, feA, wfA, jbA, jmA, adA, ljA, idA, ufA, fixA⟩ :=
    arg_stage_job st0 h1 j.arguments hj hjobs hwf hw hargs0
  obtain ⟨h3, cur2, rP, eP, flP, fmP, jbP, jmP, adP, ljP, idP, agP, ufP⟩ :=
    prof_stage_job st0 j.profiles h2 (eA.trans hel) hpcase (ljA.trans hj) jbA
  have wfP : FilemapWF h3.store h3.filemap := by
    rw [fmP]
    exact wfA.mono (FilesExt_of_eq flP)
  obtain ⟨h4, cur3, rSI, eSI, feSI, fmSI, jbSI, jmSI, adSI, ljSI, idSI, agSI,
    ufSI⟩ :=
    stdio_opt_job st0 h3 "stdin" j.stdin (Or.inl rfl)
      ((ljP.trans ljA).trans hj) jbP
  have wfSI : FilemapWF h4.store h4.filemap := by
    rw [fmSI]
    exact wfP.mono feSI
  obtain ⟨h5, cur4, rSO, eSO, feSO, fmSO, jbSO, jmSO, adSO, ljSO, idSO, agSO,
    ufSO⟩ :=
    stdio_opt_job st0 h4 "stdout" j.stdout (Or.inr (Or.inl rfl))
      ((ljSI.trans (ljP.trans ljA)).trans hj) jbSI
  have wfSO : FilemapWF h5.store h5.filemap := by
    rw [fmSO]
    exact wfSI.mono feSO
  obtain ⟨h6, cur5, rSE, eSE, feSE, fmSE, jbSE, jmSE, adSE, ljSE, idSE, agSE,
    ufSE⟩ :=
    stdio_opt_job st0 h5 "stderr" j.stderr (Or.inr (Or.inr rfl))
      ((ljSO.trans (ljSI.trans (ljP.trans ljA))).trans hj) jbSO
  have wfSE : FilemapWF h6.store h6.filemap := by
    rw [fmSE]
    exact wfSO.mono feSE
  have hel6 : h6.elements = el0 :: rest :=
    (eSE.trans (eSO.trans (eSI.trans (eP.trans eA)))).trans hel
  have hlj6 : h6.lastJob = some JS.length :=
    (ljSE.trans (ljSO.trans (ljSI.trans (ljP.trans ljA)))).trans hj
  have huf5 : cur5.used_files = ([] : List Use) := by
    rw [ufSE, ufSO, ufSI, ufP, ufA, huses0]
  have hfixU : UsesFixed h6.store cur5.used_files ([] : List UseSig) := by
    rw [huf5]
    exact usesFixed_nil _
  obtain ⟨h7, cur6, rU, eU, feU, wfU, jbU, jmU, adU, ljU, idU, agU, fixU⟩ :=
    uses_fold_job st0 j.used_files h6 hel6 hp hlj6 jbSE wfSE hus hfixU
  obtain ⟨h8, cur7, rN, eN, flN, fmN, jbN, jmN, adN, ljN, idN, agN, ufN⟩ :=
    invoke_fold_job j.notifications h7 (ljU.trans hlj6) jbU
  have wfN : FilemapWF h8.store h8.filemap := by
    rw [fmN]
    exact wfU.mono (FilesExt_of_eq flN)
  have fe28 : FilesExt h2.store h8.store :=
    filesExt_trans (FilesExt_of_eq flP)
      (filesExt_trans feSI (filesExt_trans feSO (filesExt_trans feSE
        (filesExt_trans feU (FilesExt_of_eq flN)))))
  have fe68 : FilesExt h6.store h8.store :=
    filesExt_trans feU (FilesExt_of_eq flN)
  have fe78 : FilesExt h7.store h8.store := FilesExt_of_eq flN
  refine ⟨h8, cur7, ?_, ?_, ?_, wfN, jbN, ?_, ?_, ?_, ?_, ?_, ?_⟩
  · unfold JobE.innerEvents
    exact runEvents_append_ok (runEvents_append_ok (runEvents_append_ok
      (runEvents_append_ok (runEvents_append_ok (runEvents_append_ok rA rP)
        rSI) rSO) rSE) rU) rN
  · exact eN.trans (eU.trans (eSE.trans (eSO.trans (eSI.trans
      (eP.trans eA)))))
  · exact filesExt_trans feA fe28
  · exact jmN.trans (jmU.trans (jmSE.trans (jmSO.trans (jmSI.trans
      (jmP.trans jmA)))))
  · exact adN.trans (adU.trans (adSE.trans (adSO.trans (adSI.trans
      (adP.trans adA)))))
  · exact (ljN.trans (ljU.trans (ljSE.trans (ljSO.trans (ljSI.trans
      (ljP.trans ljA))))))
  · exact (idN.trans (idU.trans (idSE.trans (idSO.trans (idSI.trans
      (idP.trans idA))))))
  · have hchain : cur7.arguments = cur1.arguments :=
      agN.trans (agU.trans (agSE.trans (agSO.trans (agSI.trans agP))))
    rw [hchain]
    exact argsFixed_mono fixA fe28
  · have hfix : UsesFixed h7.store cur6.used_files
        (j.used_files.map (Use.sig st0)) := by
      simpa using fixU
    rw [ufN]
    exact usesFixed_mono hfix fe78

/-- The three node-start dispatches share the decode effects that matter for
the round trip: a fresh job entity with the attribute id and empty
argument/use lists, appended to the graph and bound in the id table. -/
theorem step_start_node_any (h : DAXHandler) (el : String)
    (attrs : List (String × String)) {a : ADAG} {nmS idS : String}
    (hel3 : el = "job" ∨ el = "dag" ∨ el = "dax")
    (ha : h.adag = some a) (hn : aget attrs "name" = some nmS)
    (hid : aget attrs "id" = some idS) :
    ∃ cur0, h.step (.start el attrs)
        = .ok { h with
            elements := el :: h.elements,
            store := { h.store with jobs := h.store.jobs ++ [cur0] },
            adag := some { a with jobs := a.jobs ++ [h.store.jobs.length] },
            jobmap := dset h.jobmap (some idS) h.store.jobs.length,
            lastJob := some h.store.jobs.length }
      ∧ cur0.id = some idS ∧ cur0.arguments = [] ∧ cur0.used_files = [] := by
  rcases hel3 with rfl | rfl | rfl
  · exact ⟨_, step_start_job h attrs ha hn hid, rfl, rfl, rfl⟩
  · exact ⟨_, step_start_dag h attrs ha hn hid, rfl, rfl, rfl⟩
  · exact ⟨_, step_start_dax h attrs ha hn hid, rfl, rfl, rfl⟩

/-- A complete node element (any kind), generic in the start attributes. -/
theorem job_block_core (st0 : Store) (h : DAXHandler) (j : JobE)
    (el : String) (attrs : List (String × String))
    {rest0 : List String} {a : ADAG} {nmS : String}
    (hel3 : el = "job" ∨ el = "dag" ∨ el = "dax")
    (hel : h.elements = "adag" :: rest0)
    (ha : h.adag = some a)
    (hn : aget attrs "name" = some nmS)
    (hid2 : aget attrs "id" = some (optStr j.id))
    (hpcase : el = "job" ∨ j.profiles = [])
    (hwf : FilemapWF h.store h.filemap)
    (hid : ∃ s, j.id = some s)
    (hw : ∀ s, Arg.lit s ∈ j.arguments → wordlike s)
    (hus : ∀ u ∈ j.used_files, UseOK st0 u) :
    ∃ h' cur, runEvents h ([XEvent.start el attrs]
        ++ JobE.innerEvents st0 j ++ [XEvent.stop el]) = .ok h'
      ∧ h'.elements = h.elements
      ∧ FilesExt h.store h'.store
      ∧ FilemapWF h'.store h'.filemap
      ∧ h'.store.jobs = h.store.jobs ++ [cur]
      ∧ h'.jobmap = dset h.jobmap j.id h.store.jobs.length
      ∧ h'.adag = some { a with jobs := a.jobs ++ [h.store.jobs.length] }
      ∧ h'.lastJob = none
      ∧ cur.id = j.id
      ∧ ArgsFixed h'.store cur.arguments (j.arguments.map (Arg.sig st0))
      ∧ UsesFixed h'.store cur.used_files (j.used_files.map (Use.sig st0)) := by
  obtain ⟨s, hs⟩ := hid
  have hkey : some (optStr j.id) = j.id := by
    rw [hs]
    rfl
  obtain ⟨cur0, e1, hcid, hcargs, hcuses⟩ :=
    step_start_node_any h el attrs hel3 ha hn hid2
  have hp' : el = "job" ∨ el = "dax" ∨ el = "dag" := by
    rcases hel3 with rfl | rfl | rfl
    · exact Or.inl rfl
    · exact Or.inr (Or.inr rfl)
    · exact Or.inr (Or.inl rfl)
  obtain ⟨h2, cur, rI, eI, feI, wfI, jbI, jmI, adI, ljI, idI, fixA, fixU⟩ :=
    node_inner_run st0 j
      { h with
          elements := el :: h.elements,
          store := { h.store with jobs := h.store.jobs ++ [cur0] },
          adag := some { a with jobs := a.jobs ++ [h.store.jobs.length] },
          jobmap := dset h.jobmap (some (optStr j.id)) h.store.jobs.length,
          lastJob := some h.store.jobs.length }
      rfl hp' hpcase rfl rfl (hwf.mono (FilesExt_of_eq rfl)) hcargs hcuses hw hus
  have rStart : runEvents h [XEvent.start el attrs] = .ok _ :=
    (runEvents_cons_ok [] e1).trans rfl
  have estop := step_stop_node h2 el (by
    rcases hel3 with rfl | rfl | rfl <;> simp)
  have rStop : runEvents h2 [XEvent.stop el]
      = .ok { h2 with elements := h2.elements.drop 1, lastJob := none } :=
    (runEvents_cons_ok [] estop).trans rfl
  refine ⟨_, cur, runEvents_append_ok (runEvents_append_ok rStart rI) rStop,
    ?_, ?_, wfI.mono (FilesExt_of_eq rfl), jbI, ?_, ?_, rfl,
    (idI.trans hcid).trans hkey, ?_, ?_⟩
  · show h2.elements.drop 1 = h.elements
    rw [eI]
    rfl
  · exact filesExt_trans (FilesExt_of_eq rfl)
      (filesExt_trans feI (FilesExt_of_eq rfl))
  · rw [← hkey]
    exact jmI
  · exact adI
  · exact argsFixed_mono fixA (FilesExt_of_eq rfl)
  · exact usesFixed_mono fixU (FilesExt_of_eq rfl)

/-- A complete node emission (`Job.toXML` / `DAG.toXML` / `DAX.toXML`)
decoded under the open `adag` root. -/
theorem job_block (st0 : Store) (h : DAXHandler) (j : JobE)
    {rest0 : List String} {a : ADAG}
    (hel : h.elements = "adag" :: rest0)
    (ha : h.adag = some a)
    (hwf : FilemapWF h.store h.filemap)
    (hid : ∃ s, j.id = some s)
    (hw : ∀ s, Arg.lit s ∈ j.arguments → wordlike s)
    (hus : ∀ u ∈ j.used_files, UseOK st0 u)
    (hpr : j.kind ≠ .job → j.profiles = []) :
    ∃ h' cur, runEvents h (JobE.toEvents st0 j) = .ok h'
      ∧ h'.elements = h.elements
      ∧ FilesExt h.store h'.store
      ∧ FilemapWF h'.store h'.filemap
      ∧ h'.store.jobs = h.store.jobs ++ [cur]
      ∧ h'.jobmap = dset h.jobmap j.id h.store.jobs.length
      ∧ h'.adag = some { a with jobs := a.jobs ++ [h.store.jobs.length] }
      ∧ h'.lastJob = none
      ∧ cur.id = j.id
      ∧ ArgsFixed h'.store cur.arguments (j.arguments.map (Arg.sig st0))
      ∧ UsesFixed h'.store cur.used_files (j.used_files.map (Use.sig st0)) := by
  cases hk : j.kind with
  | job =>
      have hev : JobE.toEvents st0 j
          = [XEvent.start "job" ([("id", optStr j.id)]
              ++ attrIf (optTruthy j.ns) "namespace" (optStr j.ns)
              ++ [("name", j.name)]
              ++ attrIf (optTruthy j.version) "version" (optStr j.version)
              ++ attrIf (optTruthy j.node_label) "node-label"
                  (optStr j.node_label))]
            ++ JobE.innerEvents st0 j ++ [XEvent.stop "job"] := by
        unfold JobE.toEvents
        rw [hk]
      rw [hev]
      have hn : aget ([("id", optStr j.id)]
          ++ attrIf (optTruthy j.ns) "namespace" (optStr j.ns)
          ++ [("name", j.name)]
          ++ attrIf (optTruthy j.version) "version" (optStr j.version)
          ++ attrIf (optTruthy j.node_label) "node-label"
              (optStr j.node_label)) "name" = some j.name := by
        simp [aget_append, aget, aget_attrIf_ne]
      have hid2 : aget ([("id", optStr j.id)]
          ++ attrIf (optTruthy j.ns) "namespace" (optStr j.ns)
          ++ [("name", j.name)]
          ++ attrIf (optTruthy j.version) "version" (optStr j.version)
          ++ attrIf (optTruthy j.node_label) "node-label"
              (optStr j.node_label)) "id" = some (optStr j.id) := by
        simp [aget_append, aget]
      exact job_block_core st0 h j "job" _ (Or.inl rfl) hel ha hn hid2
        (Or.inl rfl) hwf hid hw hus
  | dag =>
      have hev : JobE.toEvents st0 j
          = [XEvent.start "dag" ([("id", optStr j.id), ("name", j.name)]
              ++ attrIf (optTruthy j.node_label) "node-label"
                  (optStr j.node_label))]
            ++ JobE.innerEvents st0 j ++ [XEvent.stop "dag"] := by
        unfold JobE.toEvents
        rw [hk]
      rw [hev]
      have hn : aget ([("id", optStr j.id), ("name", j.name)]
          ++ attrIf (optTruthy j.node_label) "node-label"
              (optStr j.node_label)) "name" = some j.name := by
        simp [aget_append, aget]
      have hid2 : aget ([("id", optStr j.id), ("name", j.name)]
          ++ attrIf (optTruthy j.node_label) "node-label"
              (optStr j.node_label)) "id" = some (optStr j.id) := by
        simp [aget_append, aget]
      exact job_block_core st0 h j "dag" _ (Or.inr (Or.inl rfl)) hel ha hn hid2
        (Or.inr (hpr (by rw [hk]; decide))) hwf hid hw hus
  | dax =>
      have hev : JobE.toEvents st0 j
          = [XEvent.start "dax" ([("id", optStr j.id), ("name", j.name)]
              ++ attrIf (optTruthy j.node_label) "node-label"
                  (optStr j.node_label))]
            ++ JobE.innerEvents st0 j ++ [XEvent.stop "dax"] := by
        unfold JobE.toEvents
        rw [hk]
      rw [hev]
      have hn : aget ([("id", optStr j.id), ("name", j.name)]
          ++ attrIf (optTruthy j.node_label) "node-label"
              (optStr j.node_label)) "name" = some j.name := by
        simp [aget_append, aget]
      have hid2 : aget ([("id", optStr j.id), ("name", j.name)]
          ++ attrIf (optTruthy j.node_label) "node-label"
              (optStr j.node_label)) "id" = some (optStr j.id) := by
        simp [aget_append, aget]
      exact job_block_core st0 h j "dax" _ (Or.inr (Or.inr rfl)) hel ha hn hid2
        (Or.inr (hpr (by rw [hk]; decide))) hwf hid hw hus

/-- The per-node side conditions of the round trip: an id, literal tokens
inside the shlex-faithful fragment, overrides that render to themselves,
and no profiles on `dax`/`dag` nodes (the decoder rejects those). -/
def NodeOK (st0 : Store) (j : JobE) : Prop :=
  (∃ s, j.id = some s)
  ∧ (∀ s, Arg.lit s ∈ j.arguments → argTokenOK s)
  ∧ (∀ u ∈ j.used_files, UseOK st0 u)
  ∧ (j.kind ≠ .job → j.profiles = [])

/-- The decoded job arena agrees, position by position, with the encoded
node list on every signature-relevant field. -/
def JobsDecoded (st0 st : Store) (JD : List JobE) (rs : List Nat) : Prop :=
  ∀ i (hi : i < rs.length) (hj : i < JD.length),
    (JD.get ⟨i, hj⟩).id = (st0.getJob (rs.get ⟨i, hi⟩)).id
    ∧ ArgsFixed st (JD.get ⟨i, hj⟩).arguments
        ((st0.getJob (rs.get ⟨i, hi⟩)).arguments.map (Arg.sig st0))
    ∧ UsesFixed st (JD.get ⟨i, hj⟩).used_files
        ((st0.getJob (rs.get ⟨i, hi⟩)).used_files.map (Use.sig st0))

/-- The id table binds every processed node's id string to its position. -/
def JmapOK (st0 : Store) (jm : List (Option String × Nat))
    (rs : List Nat) : Prop :=
  ∀ i (hi : i < rs.length),
    dget jm ((st0.getJob (rs.get ⟨i, hi⟩)).id) = some i

theorem jobsDecoded_mono {st0 st st' : Store} {JD : List JobE} {rs : List Nat}
    (h : JobsDecoded st0 st JD rs) (hfe : FilesExt st st') :
    JobsDecoded st0 st' JD rs := by
  intro i hi hj
  obtain ⟨h1, h2, h3⟩ := h i hi hj
  exact ⟨h1, argsFixed_mono h2 hfe, usesFixed_mono h3 hfe⟩

theorem jobsDecoded_snoc {st0 st : Store} {JD : List JobE} {rs : List Nat}
    {cur : JobE} {r : Nat}
    (h : JobsDecoded st0 st JD rs) (hlen : JD.length = rs.length)
    (hcid : cur.id = (st0.getJob r).id)
    (hca : ArgsFixed st cur.arguments
      ((st0.getJob r).arguments.map (Arg.sig st0)))
    (hcu : UsesFixed st cur.used_files
      ((st0.getJob r).used_files.map (Use.sig st0))) :
    JobsDecoded st0 st (JD ++ [cur]) (rs ++ [r]) := by
  intro i hi hj
  by_cases hlt : i < rs.length
  · have hj' : i < JD.length := by omega
    have e1 : (JD ++ [cur]).get ⟨i, hj⟩ = JD.get ⟨i, hj'⟩ := by
      rw [List.get_append _ hj']
    have e2 : (rs ++ [r]).get ⟨i, hi⟩ = rs.get ⟨i, hlt⟩ := by
      rw [List.get_append _ hlt]
    rw [e1, e2]
    exact h i hlt hj'
  · have hieq : i = rs.length := by
      simp at hi
      omega
    have hieq' : i = JD.length := by omega
    have e1 : (JD ++ [cur]).get ⟨i, hj⟩ = cur := by
      subst hieq'
      simp
    have e2 : (rs ++ [r]).get ⟨i, hi⟩ = r := by
      subst hieq
      simp
    rw [e1, e2]
    exact ⟨hcid, hca, hcu⟩

theorem jmapOK_extend {st0 : Store} {jm : List (Option String × Nat)}
    {rs : List Nat} {r : Nat}
    (h : JmapOK st0 jm rs)
    (hne : ∀ p ∈ rs, (st0.getJob p).id ≠ (st0.getJob r).id) :
    JmapOK st0 (dset jm ((st0.getJob r).id) rs.length) (rs ++ [r]) := by
  intro i hi
  by_cases hlt : i < rs.length
  · have e2 : (rs ++ [r]).get ⟨i, hi⟩ = rs.get ⟨i, hlt⟩ := by
      rw [List.get_append _ hlt]
    rw [e2, dset, dget]
    rw [if_neg ?_]
    · exact h i hlt
    · intro hcon
      exact hne (rs.get ⟨i, hlt⟩) (List.get_mem _ _ hlt) hcon.symm
  · have hieq : i = rs.length := by
      simp at hi
      omega
    have e2 : (rs ++ [r]).get ⟨i, hi⟩ = r := by
      subst hieq
      simp
    rw [e2, dset, dget, if_pos rfl, hieq]

/-- The jobs section: every node block in sequence.  The decoded graph's node
list extends by the consecutive arena indices, and the arena and id table
satisfy the positional invariants. -/
theorem jobs_fold (st0 : Store) :
    ∀ (rs pre : List Nat) (h : DAXHandler) (a : ADAG) (JD : List JobE)
      {rest0 : List String},
      h.elements = "adag" :: rest0 →
      h.adag = some a →
      h.store.jobs = JD →
      JD.length = pre.length →
      FilemapWF h.store h.filemap →
      JobsDecoded st0 h.store JD pre →
      JmapOK st0 h.jobmap pre →
      (∀ p ∈ pre, ∀ r ∈ rs, (st0.getJob p).id ≠ (st0.getJob r).id) →
      ((rs.map (fun r => (st0.getJob r).id)).Nodup) →
      (∀ r ∈ rs, NodeOK st0 (st0.getJob r)) →
      ∃ h' JD', runEvents h
          ((rs.map (fun r => (st0.getJob r).toEvents st0)).flatten) = .ok h'
        ∧ h'.elements = h.elements
        ∧ FilesExt h.store h'.store
        ∧ FilemapWF h'.store h'.filemap
        ∧ h'.store.jobs = JD'
        ∧ JD'.length = pre.length + rs.length
        ∧ h'.adag
            = some { a with jobs := a.jobs ++ List.range' JD.length rs.length }
        ∧ JobsDecoded st0 h'.store JD' (pre ++ rs)
        ∧ JmapOK st0 h'.jobmap (pre ++ rs) := by
  intro rs
  induction rs with
  | nil =>
      intro pre h a JD rest0 hel ha hjobs hlen hwf hdec hjm hfresh hnd hok
      refine ⟨h, JD, rfl, rfl, filesExt_refl _, hwf, hjobs, by simpa using hlen,
        ?_, by simpa using hdec, by simpa using hjm⟩
      rw [ha]
      simp
  | cons r rs' ih =>
      intro pre h a JD rest0 hel ha hjobs hlen hwf hdec hjm hfresh hnd hok
      obtain ⟨hid, hw, hus, hpr⟩ := hok r (List.mem_cons_self _ _)
      obtain ⟨h1, cur, hrun1, hel1, hfe1, hwf1, hjobs1, hjm1, had1, hlj1,
        hcid, hca, hcu⟩ := job_block st0 h (st0.getJob r) hel ha hwf hid
          (fun s hs => (hw s hs).1) hus hpr
      have hjobs1' : h1.store.jobs = JD ++ [cur] := by
        rw [hjobs1, hjobs]
      have hlen1 : (JD ++ [cur]).length = (pre ++ [r]).length := by
        simp [hlen]
      have hdec1 : JobsDecoded st0 h1.store (JD ++ [cur]) (pre ++ [r]) := by
        refine jobsDecoded_snoc (jobsDecoded_mono ?_ hfe1)
          (by simpa using hlen) hcid hca hcu
        exact fun i hi hj => by
          have := hdec i hi (by omega)
          simpa using this
      have hjm1' : JmapOK st0 h1.jobmap (pre ++ [r]) := by
        have hjd : h.store.jobs.length = pre.length := by
          rw [hjobs]
          exact hlen
        rw [hjm1, hjd]
        refine jmapOK_extend ?_ ?_
        · intro i hi
          exact hjm i hi
        · intro p hp
          exact hfresh p hp r (List.mem_cons_self _ _)
      have hfresh1 : ∀ p ∈ pre ++ [r], ∀ q ∈ rs',
          (st0.getJob p).id ≠ (st0.getJob q).id := by
        intro p hp q hq
        rcases List.mem_append.1 hp with hp1 | hp2
        · exact hfresh p hp1 q (List.mem_cons_of_mem _ hq)
        · simp at hp2
          subst hp2
          rw [List.map_cons, List.nodup_cons] at hnd
          intro hcon
          exact hnd.1 (by
            rw [hcon]
            exact List.mem_map_of_mem _ hq)
      have hnd1 : (rs'.map (fun q => (st0.getJob q).id)).Nodup := by
        rw [List.map_cons, List.nodup_cons] at hnd
        exact hnd.2
      obtain ⟨h2, JD', hrun2, hel2, hfe2, hwf2, hjobs2, hlen2, had2, hdec2,
        hjm2⟩ := ih (pre ++ [r]) h1 { a with jobs := a.jobs ++ [JD.length] }
          (JD ++ [cur]) (hel1.trans hel)
          (by
            rw [had1, hjobs])
          hjobs1' hlen1 hwf1 hdec1 hjm1' hfresh1 hnd1
          (fun q hq => hok q (List.mem_cons_of_mem _ hq))
      refine ⟨h2, JD', ?_, hel2.trans hel1, filesExt_trans hfe1 hfe2, hwf2,
        hjobs2, by
          rw [hlen2]
          simp only [List.length_append, List.length_cons, List.length_nil]
          omega, ?_, by simpa [List.append_assoc] using hdec2,
        by simpa [List.append_assoc] using hjm2⟩
      · rw [List.map_cons, List.flatten_cons, runEvents_append, hrun1]
        exact hrun2
      · rw [had2]
        have : List.range' JD.length (rs'.length + 1)
            = JD.length :: List.range' (JD.length + 1) rs'.length := by
          rw [List.range'_succ]
        simp [this, List.append_assoc]

/-- Established child: `addDependency` extends the (unique, last) record for
that child in place. -/
theorem addDependency_extend_last (a : ADAG) (pi ci : Nat) (l : Option String)
    {D0 : List Dep} {acc : List (Nat × Option String)}
    (hD : a.dependencies = D0 ++ [⟨some ci, acc⟩])
    (hno : ∀ d ∈ D0, d.child ≠ some ci) :
    (a.addDependency pi (some ci) l).dependencies
      = D0 ++ [⟨some ci, acc ++ [(pi, l)]⟩] := by
  have hany : a.dependencies.any (fun d => d.child = some ci) = true := by
    rw [hD]
    simp
  simp only [ADAG.addDependency, hany, if_true]
  rw [hD, depAddParent_append_not_mem _ _ _ _ _ hno]
  simp [depAddParent]

/-- A single `parent` element: a jobmap lookup followed by `addDependency`
on the open child. -/
theorem parent_block (st0 : Store) (h : DAXHandler) (q : Nat × Option String)
    {a2 : ADAG} {pi : Nat}
    (ha : h.adag = some a2)
    (hs : ∃ s, (st0.getJob q.1).id = some s)
    (hlk : dget h.jobmap ((st0.getJob q.1).id) = some pi) :
    ∃ h', runEvents h
        [XEvent.start "parent"
          ([("ref", optStr (st0.getJob q.1).id)]
            ++ (match q.2 with
                | none => []
                | some l => [("edge-label", l)])),
         XEvent.stop "parent"] = .ok h'
      ∧ h'.elements = h.elements
      ∧ h'.store = h.store
      ∧ h'.jobmap = h.jobmap
      ∧ h'.filemap = h.filemap
      ∧ h'.lastChild = h.lastChild
      ∧ h'.adag = some (a2.addDependency pi h.lastChild q.2) := by
  obtain ⟨s, hs⟩ := hs
  have hkey : some (optStr ((st0.getJob q.1).id)) = (st0.getJob q.1).id := by
    rw [hs]
    rfl
  rcases hq2 : q.2 with _ | l
  · have haR : aget ([("ref", optStr (st0.getJob q.1).id)]
        ++ (match (none : Option String) with
            | none => []
            | some l => [("edge-label", l)])) "ref"
        = some (optStr (st0.getJob q.1).id) := by
      simp [aget]
    have haL : aget ([("ref", optStr (st0.getJob q.1).id)]
        ++ (match (none : Option String) with
            | none => []
            | some l => [("edge-label", l)])) "edge-label"
        = none := by
      simp [aget]
    have e1 := step_start_parent h
      ([("ref", optStr (st0.getJob q.1).id)]
        ++ (match (none : Option String) with
            | none => []
            | some l => [("edge-label", l)]))
      (by rw [haR, hkey]; exact hlk) ha
    have hfin := (runEvents_cons_ok [XEvent.stop "parent"] e1).trans
      ((runEvents_cons_ok []
        (step_stop_other _ "parent" (by simp))).trans rfl)
    refine ⟨_, hfin, by simp, rfl, rfl, rfl, rfl, ?_⟩
    rw [haL]
  · have haR : aget ([("ref", optStr (st0.getJob q.1).id)]
        ++ (match (some l : Option String) with
            | none => []
            | some l => [("edge-label", l)])) "ref"
        = some (optStr (st0.getJob q.1).id) := by
      simp [aget]
    have haL : aget ([("ref", optStr (st0.getJob q.1).id)]
        ++ (match (some l : Option String) with
            | none => []
            | some l => [("edge-label", l)])) "edge-label"
        = some l := by
      simp [aget]
    have e1 := step_start_parent h
      ([("ref", optStr (st0.getJob q.1).id)]
        ++ (match (some l : Option String) with
            | none => []
            | some l => [("edge-label", l)]))
      (by rw [haR, hkey]; exact hlk) ha
    have hfin := (runEvents_cons_ok [XEvent.stop "parent"] e1).trans
      ((runEvents_cons_ok []
        (step_stop_other _ "parent" (by simp))).trans rfl)
    refine ⟨_, hfin, by simp, rfl, rfl, rfl, rfl, ?_⟩
    rw [haL]

/-- The parent run of a dependency record: each pair lands, in order, on the
open child's (last) record. -/
theorem parents_fold (st0 : Store) :
    ∀ (ps : List (Nat × Option String)) (h : DAXHandler) (a2 : ADAG)
      (D0 : List Dep) (ci : Nat) (acc : List (Nat × Option String)),
      h.adag = some a2 →
      h.lastChild = some ci →
      a2.dependencies = D0 ++ [⟨some ci, acc⟩] →
      (∀ d ∈ D0, d.child ≠ some ci) →
      (∀ q ∈ ps, ∃ s, (st0.getJob q.1).id = some s) →
      (∀ q ∈ ps, ∃ pi, dget h.jobmap ((st0.getJob q.1).id) = some pi) →
      ∃ h' dec, runEvents h ((ps.map (fun p =>
          [XEvent.start "parent"
            ([("ref", optStr (st0.getJob p.1).id)]
              ++ (match p.2 with
                  | none => []
                  | some l => [("edge-label", l)])),
           XEvent.stop "parent"])).flatten) = .ok h'
        ∧ h'.elements = h.elements
        ∧ h'.store = h.store
        ∧ h'.jobmap = h.jobmap
        ∧ h'.filemap = h.filemap
        ∧ h'.lastChild = h.lastChild
        ∧ h'.adag
            = some { a2 with dependencies := D0 ++ [⟨some ci, acc ++ dec⟩] }
        ∧ dec.length = ps.length
        ∧ ∀ i (hi : i < ps.length) (hd : i < dec.length),
            dget h.jobmap ((st0.getJob (ps.get ⟨i, hi⟩).1).id)
              = some (dec.get ⟨i, hd⟩).1
            ∧ (dec.get ⟨i, hd⟩).2 = (ps.get ⟨i, hi⟩).2 := by
  intro ps
  induction ps with
  | nil =>
      intro h a2 D0 ci acc ha hc hD hno hids hlks
      refine ⟨h, [], rfl, rfl, rfl, rfl, rfl, rfl, ?_, rfl, ?_⟩
      · rw [ha,
          show acc ++ ([] : List (Nat × Option String)) = acc from
            List.append_nil acc, ← hD]
      · intro i hi hd
        simp at hi
  | cons q ps' ih =>
      intro h a2 D0 ci acc ha hc hD hno hids hlks
      obtain ⟨pi, hpi⟩ := hlks q (List.mem_cons_self _ _)
      obtain ⟨h1, hrun1, hel1, hst1, hjm1, hfm1, hlc1, had1⟩ :=
        parent_block st0 h q ha (hids q (List.mem_cons_self _ _)) hpi
      have had1' : h1.adag
          = some { a2 with dependencies := D0 ++ [⟨some ci, acc ++ [(pi, q.2)]⟩] } := by
        rw [had1, hc]
        congr 1
        rw [show a2.addDependency pi (some ci) q.2
            = { a2 with
                dependencies := (a2.addDependency pi (some ci) q.2).dependencies }
          from rfl]
        rw [addDependency_extend_last a2 pi ci q.2 hD hno]
      obtain ⟨h2, dec', hrun2, hel2, hst2, hjm2, hfm2, hlc2, had2, hlen2,
        hfacts2⟩ :=
        ih h1 { a2 with dependencies := D0 ++ [⟨some ci, acc ++ [(pi, q.2)]⟩] }
          D0 ci (acc ++ [(pi, q.2)]) had1' (hlc1.trans hc) rfl hno
          (fun v hv => hids v (List.mem_cons_of_mem _ hv))
          (fun v hv => by
            rw [hjm1]
            exact hlks v (List.mem_cons_of_mem _ hv))
      refine ⟨h2, (pi, q.2) :: dec', ?_, hel2.trans hel1, hst2.trans hst1,
        hjm2.trans hjm1, hfm2.trans hfm1, hlc2.trans hlc1, ?_, by simp [hlen2],
        ?_⟩
      · rw [List.map_cons, List.flatten_cons, runEvents_append, hrun1]
        exact hrun2
      · rw [had2]
        simp [List.append_assoc]
      · intro i hi hd
        cases i with
        | zero =>
            refine ⟨?_, rfl⟩
            simpa using hpi
        | succ i' =>
            have hi' : i' < ps'.length := by
              simpa using hi
            have hd' : i' < dec'.length := by
              simpa using hd
            obtain ⟨f1, f2⟩ := hfacts2 i' hi' hd'
            refine ⟨?_, ?_⟩
            · rw [show ((q :: ps').get ⟨i' + 1, hi⟩) = ps'.get ⟨i', hi'⟩ from rfl,
                show (((pi, q.2) :: dec').get ⟨i' + 1, hd⟩) = dec'.get ⟨i', hd'⟩
                  from rfl]
              rw [← hjm1]
              exact f1
            · rw [show ((q :: ps').get ⟨i' + 1, hi⟩) = ps'.get ⟨i', hi'⟩ from rfl,
                show (((pi, q.2) :: dec').get ⟨i' + 1, hd⟩) = dec'.get ⟨i', hd'⟩
                  from rfl]
              exact f2

/-- One whole dependency record: `child` element, parents, closing tag.  The
decoded graph gains exactly one fresh record for the looked-up child. -/
theorem dep_block (st0 : Store) (h : DAXHandler) (c : Nat)
    (ps : List (Nat × Option String)) {a2 : ADAG} {rest0 : List String}
    {ci : Nat}
    (hel : h.elements = "adag" :: rest0)
    (ha : h.adag = some a2)
    (hciS : ∃ s, (st0.getJob c).id = some s)
    (hclk : dget h.jobmap ((st0.getJob c).id) = some ci)
    (hfresh : ∀ d' ∈ a2.dependencies, d'.child ≠ some ci)
    (hpsne : ps ≠ [])
    (hpS : ∀ q ∈ ps, ∃ s, (st0.getJob q.1).id = some s)
    (hplk : ∀ q ∈ ps, ∃ pi, dget h.jobmap ((st0.getJob q.1).id) = some pi) :
    ∃ h' dec, runEvents h
        ([XEvent.start "child" [("ref", optStr (st0.getJob c).id)]]
          ++ (ps.map (fun p =>
              [XEvent.start "parent"
                ([("ref", optStr (st0.getJob p.1).id)]
                  ++ (match p.2 with
                      | none => []
                      | some l => [("edge-label", l)])),
               XEvent.stop "parent"])).flatten
          ++ [XEvent.stop "child"]) = .ok h'
      ∧ h'.elements = h.elements
      ∧ h'.store = h.store
      ∧ h'.jobmap = h.jobmap
      ∧ h'.filemap = h.filemap
      ∧ h'.adag
          = some { a2 with
              dependencies := a2.dependencies ++ [⟨some ci, dec⟩] }
      ∧ dec.length = ps.length
      ∧ ∀ i (hi : i < ps.length) (hd : i < dec.length),
          dget h.jobmap ((st0.getJob (ps.get ⟨i, hi⟩).1).id)
            = some (dec.get ⟨i, hd⟩).1
          ∧ (dec.get ⟨i, hd⟩).2 = (ps.get ⟨i, hi⟩).2 := by
  rcases ps with _ | ⟨q, ptail⟩
  · exact absurd rfl hpsne
  obtain ⟨s, hs⟩ := hciS
  have hkey : some (optStr ((st0.getJob c).id)) = (st0.getJob c).id := by
    rw [hs]
    rfl
  have haR : aget [("ref", optStr (st0.getJob c).id)] "ref"
      = some (optStr (st0.getJob c).id) := by
    simp [aget]
  have e1 := step_start_child h [("ref", optStr (st0.getJob c).id)]
    (c := ci) (by rw [haR, hkey]; exact hclk)
  obtain ⟨pi1, hpi1⟩ := hplk q (List.mem_cons_self _ _)
  obtain ⟨h2, hrun2, hel2, hst2, hjm2, hfm2, hlc2, had2⟩ :=
    parent_block st0
      { h with elements := "child" :: h.elements, lastChild := some ci }
      q ha (hpS q (List.mem_cons_self _ _)) hpi1
  have had2' : h2.adag = some { a2 with
      dependencies := a2.dependencies ++ [⟨some ci, [(pi1, q.2)]⟩] } := by
    rw [had2]
    congr 1
    rw [show a2.addDependency pi1 (some ci) q.2
        = { a2 with
            dependencies := (a2.addDependency pi1 (some ci) q.2).dependencies }
      from rfl]
    rw [addDependency_fresh a2 pi1 ci q.2 hfresh]
  obtain ⟨h3, dec', hrun3, hel3, hst3, hjm3, hfm3, hlc3, had3, hlen3,
    hfacts3⟩ :=
    parents_fold st0 ptail h2
      { a2 with dependencies := a2.dependencies ++ [⟨some ci, [(pi1, q.2)]⟩] }
      a2.dependencies ci [(pi1, q.2)] had2' hlc2 rfl hfresh
      (fun v hv => hpS v (List.mem_cons_of_mem _ hv))
      (fun v hv => by
        rw [hjm2]
        exact hplk v (List.mem_cons_of_mem _ hv))
  have estop := step_stop_child h3
  have rStart : runEvents h [XEvent.start "child"
      [("ref", optStr (st0.getJob c).id)]] = .ok _ :=
    (runEvents_cons_ok [] e1).trans rfl
  have rParents : runEvents
      { h with elements := "child" :: h.elements, lastChild := some ci }
      (((q :: ptail).map (fun p =>
          [XEvent.start "parent"
            ([("ref", optStr (st0.getJob p.1).id)]
              ++ (match p.2 with
                  | none => []
                  | some l => [("edge-label", l)])),
           XEvent.stop "parent"])).flatten) = .ok h3 := by
    rw [List.map_cons, List.flatten_cons, runEvents_append, hrun2]
    exact hrun3
  have rStop : runEvents h3 [XEvent.stop "child"]
      = .ok { h3 with elements := h3.elements.drop 1, lastChild := none } :=
    (runEvents_cons_ok [] estop).trans rfl
  refine ⟨_, (pi1, q.2) :: dec',
    runEvents_append_ok (runEvents_append_ok rStart rParents) rStop,
    ?_, ?_, ?_, ?_, ?_, by simp [hlen3], ?_⟩
  · show h3.elements.drop 1 = h.elements
    rw [hel3.trans hel2]
    rfl
  · exact hst3.trans hst2
  · exact hjm3.trans hjm2
  · exact hfm3.trans hfm2
  · show h3.adag = _
    rw [had3]
    simp
  · intro i hi hd
    cases i with
    | zero =>
        refine ⟨?_, rfl⟩
        simpa using hpi1
    | succ i' =>
        have hi' : i' < ptail.length := by
          simpa using hi
        have hd' : i' < dec'.length := by
          simpa using hd
        obtain ⟨f1, f2⟩ := hfacts3 i' hi' hd'
        rw [show (((q :: ptail)).get ⟨i' + 1, hi⟩) = ptail.get ⟨i', hi'⟩
            from rfl,
          show ((((pi1, q.2) :: dec')).get ⟨i' + 1, hd⟩) = dec'.get ⟨i', hd'⟩
            from rfl]
        refine ⟨?_, f2⟩
        rw [← hjm2]
        exact f1

/-- The dependency section: the decoded graph's record list extends by one
record per encoded dependency, in order, with children and parents resolved
through the id table. -/
theorem deps_fold (st0 : Store) :
    ∀ (ds : List Dep) (blks : List (List XEvent)) (h : DAXHandler) (a2 : ADAG)
      {rest0 : List String},
      ds.mapM (Dep.toEvents st0) = .ok blks →
      h.elements = "adag" :: rest0 →
      h.adag = some a2 →
      (∀ d ∈ ds, ∃ c, d.child = some c
        ∧ (∃ s, (st0.getJob c).id = some s)
        ∧ (∃ ci, dget h.jobmap ((st0.getJob c).id) = some ci)
        ∧ d.parents ≠ []
        ∧ (∀ q ∈ d.parents, (∃ s, (st0.getJob q.1).id = some s)
            ∧ ∃ pi, dget h.jobmap ((st0.getJob q.1).id) = some pi)) →
      (∀ d ∈ ds, ∀ d' ∈ a2.dependencies, ∀ c ci, d.child = some c →
        dget h.jobmap ((st0.getJob c).id) = some ci → d'.child ≠ some ci) →
      List.Pairwise (fun d1 d2 => ∀ c1 c2 ci1 ci2,
        d1.child = some c1 → d2.child = some c2 →
        dget h.jobmap ((st0.getJob c1).id) = some ci1 →
        dget h.jobmap ((st0.getJob c2).id) = some ci2 → ci1 ≠ ci2) ds →
      ∃ h' DL, runEvents h blks.flatten = .ok h'
        ∧ h'.elements = h.elements
        ∧ h'.store = h.store
        ∧ h'.jobmap = h.jobmap
        ∧ h'.filemap = h.filemap
        ∧ h'.adag = some { a2 with dependencies := a2.dependencies ++ DL }
        ∧ DL.length = ds.length
        ∧ ∀ i (hi : i < ds.length) (hd : i < DL.length),
            (∀ c, (ds.get ⟨i, hi⟩).child = some c →
              ∃ ci, (DL.get ⟨i, hd⟩).child = some ci
                ∧ dget h.jobmap ((st0.getJob c).id) = some ci)
            ∧ (DL.get ⟨i, hd⟩).parents.length
                = (ds.get ⟨i, hi⟩).parents.length
            ∧ ∀ k (hk : k < (ds.get ⟨i, hi⟩).parents.length)
                (hk2 : k < (DL.get ⟨i, hd⟩).parents.length),
                dget h.jobmap
                  ((st0.getJob ((ds.get ⟨i, hi⟩).parents.get ⟨k, hk⟩).1).id)
                  = some ((DL.get ⟨i, hd⟩).parents.get ⟨k, hk2⟩).1
                ∧ ((DL.get ⟨i, hd⟩).parents.get ⟨k, hk2⟩).2
                  = ((ds.get ⟨i, hi⟩).parents.get ⟨k, hk⟩).2 := by
  intro ds
  induction ds with
  | nil =>
      intro blks h a2 rest0 hmap hel ha hok hfr hpw
      rw [List.mapM_nil] at hmap
      cases hmap
      refine ⟨h, [], rfl, rfl, rfl, rfl, rfl, ?_, rfl, ?_⟩
      · rw [ha]
        congr 1
        rw [List.append_nil]
      · intro i hi hd
        simp at hi
  | cons d ds' ih =>
      intro blks h a2 rest0 hmap hel ha hok hfr hpw
      rw [List.mapM_cons] at hmap
      obtain ⟨c, hc, hcS, ⟨ci, hclk⟩, hpne, hpfacts⟩ :=
        hok d (List.mem_cons_self _ _)
      have hb : Dep.toEvents st0 d
          = .ok ([XEvent.start "child" [("ref", optStr (st0.getJob c).id)]]
            ++ (d.parents.map (fun p =>
                [XEvent.start "parent"
                  ([("ref", optStr (st0.getJob p.1).id)]
                    ++ (match p.2 with
                        | none => []
                        | some l => [("edge-label", l)])),
                 XEvent.stop "parent"])).flatten
            ++ [XEvent.stop "child"]) := by
        rw [Dep.toEvents, hc]
      rw [hb] at hmap
      rcases hbs : ds'.mapM (Dep.toEvents st0) with e | bs
      · rw [hbs] at hmap
        simp [Bind.bind, Except.bind] at hmap
      rw [hbs] at hmap
      simp only [Bind.bind, Except.bind, pure, Except.pure] at hmap
      cases hmap
      obtain ⟨h1, dec, hrun1, hel1, hst1, hjm1, hfm1, had1, hlen1, hfacts1⟩ :=
        dep_block st0 h c d.parents hel ha hcS hclk
          (fun d' hd' =>
            hfr d (List.mem_cons_self _ _) d' hd' c ci hc hclk)
          hpne
          (fun v hv => (hpfacts v hv).1)
          (fun v hv => (hpfacts v hv).2)
      have hok' : ∀ e ∈ ds', ∃ c', e.child = some c'
          ∧ (∃ s, (st0.getJob c').id = some s)
          ∧ (∃ ci', dget h1.jobmap ((st0.getJob c').id) = some ci')
          ∧ e.parents ≠ []
          ∧ (∀ q ∈ e.parents, (∃ s, (st0.getJob q.1).id = some s)
              ∧ ∃ pi, dget h1.jobmap ((st0.getJob q.1).id) = some pi) := by
        intro e he
        obtain ⟨c', h1', h2', h3', h4', h5'⟩ :=
          hok e (List.mem_cons_of_mem _ he)
        rw [hjm1]
        exact ⟨c', h1', h2', h3', h4', h5'⟩
      have hfr' : ∀ e ∈ ds', ∀ d' ∈ ({ a2 with
            dependencies := a2.dependencies ++ [⟨some ci, dec⟩] }
              : ADAG).dependencies,
          ∀ c' ci', e.child = some c' →
          dget h1.jobmap ((st0.getJob c').id) = some ci' →
          d'.child ≠ some ci' := by
        intro e he d' hd' c' ci' hc' hclk'
        rw [hjm1] at hclk'
        have hd'' : d' ∈ a2.dependencies ++ [⟨some ci, dec⟩] := hd'
        rcases List.mem_append.1 hd'' with hold | hnew
        · exact hfr e (List.mem_cons_of_mem _ he) d' hold c' ci' hc' hclk'
        · simp at hnew
          rw [hnew]
          simp only [ne_eq, Option.some.injEq]
          intro hcon
          exact (List.rel_of_pairwise_cons hpw he) c c' ci ci' hc hc'
            hclk hclk' (by rw [hcon])
      have hpw' : List.Pairwise (fun d1 d2 => ∀ c1 c2 ci1 ci2,
          d1.child = some c1 → d2.child = some c2 →
          dget h1.jobmap ((st0.getJob c1).id) = some ci1 →
          dget h1.jobmap ((st0.getJob c2).id) = some ci2 → ci1 ≠ ci2) ds' := by
        rw [hjm1]
        exact hpw.sublist (List.sublist_cons_self _ _)
      obtain ⟨h2, DL', hrun2, hel2, hst2, hjm2, hfm2, had2, hlen2, hfacts2⟩ :=
        ih bs h1
          { a2 with dependencies := a2.dependencies ++ [⟨some ci, dec⟩] }
          hbs (hel1.trans hel) had1 hok' hfr' hpw'
      refine ⟨h2, ⟨some ci, dec⟩ :: DL', ?_, hel2.trans hel1,
        hst2.trans hst1, hjm2.trans hjm1, hfm2.trans hfm1, ?_,
        by simp [hlen2], ?_⟩
      · rw [List.flatten_cons, runEvents_append, hrun1]
        exact hrun2
      · rw [had2]
        simp [List.append_assoc]
      · intro i hi hd
        cases i with
        | zero =>
            refine ⟨?_, by simp [hlen1], ?_⟩
            · intro c' hc'
              have hc2 : d.child = some c' := hc'
              rw [hc] at hc2
              cases hc2
              exact ⟨ci, rfl, hclk⟩
            · intro k hk hk2
              exact hfacts1 k hk hk2
        | succ i' =>
            have hi' : i' < ds'.length := by
              simpa using hi
            have hd' : i' < DL'.length := by
              simpa using hd
            obtain ⟨f1, f2, f3⟩ := hfacts2 i' hi' hd'
            rw [show (((d :: ds')).get ⟨i' + 1, hi⟩) = ds'.get ⟨i', hi'⟩
                from rfl,
              show (((⟨some ci, dec⟩ : Dep) :: DL').get ⟨i' + 1, hd⟩)
                  = DL'.get ⟨i', hd'⟩ from rfl]
            refine ⟨?_, f2, ?_⟩
            · intro c' hc'
              obtain ⟨ci', g1, g2⟩ := f1 c' hc'
              rw [← hjm1]
              exact ⟨ci', g1, g2⟩
            · intro k hk hk2
              obtain ⟨g1, g2⟩ := f3 k hk hk2
              rw [← hjm1]
              exact ⟨g1, g2⟩

theorem adagJDS_some {x : Option ADAG} {t : List Nat × List Dep × Nat}
    (h : adagJDS x = some t) : ∃ a, x = some a := by
  cases x with
  | none => simp [adagJDS] at h
  | some a => exact ⟨a, rfl⟩

/-- A catalog-style section: any sequence of blocks that each perform a
`CatStep` under the open `adag` root. -/
theorem cat_section (h1 : DAXHandler) (blocks : List (List XEvent))
    {rest0 : List String}
    (hel : h1.elements = "adag" :: rest0)
    (hadag : ∃ a, h1.adag = some a)
    (hblk : ∀ h' b, h'.elements = "adag" :: rest0 → (∃ a, h'.adag = some a) →
      b ∈ blocks → ∃ h'', runEvents h' b = .ok h'' ∧ CatStep h' h'') :
    ∃ h2, runEvents h1 blocks.flatten = .ok h2 ∧ CatStep h1 h2 := by
  obtain ⟨a1, ha1⟩ := hadag
  obtain ⟨h2, hrun, hP⟩ := runEvents_blocksP
    (P := fun h' => CatStep h1 h') blocks h1 (catStep_refl h1)
    (fun h' b hP hb => by
      have hel' : h'.elements = "adag" :: rest0 := hP.1.trans hel
      have hjds : adagJDS h'.adag = adagJDS h1.adag :=
        hP.2.2.2.2.2.2.2.1
      rw [ha1] at hjds
      have hadag' : ∃ a, h'.adag = some a := adagJDS_some hjds
      obtain ⟨h'', hrun'', hcs''⟩ := hblk h' b hel' hadag' hb
      exact ⟨h'', hrun'', catStep_trans hP hcs''⟩)
  exact ⟨h2, hrun, hP⟩

theorem getD_eq_get {α : Type} [Inhabited α] (l : List α) (i : Nat)
    (h : i < l.length) : l.getD i default = l.get ⟨i, h⟩ := by
  simp [List.getD_eq_getElem?_getD, List.getElem?_eq_getElem h]

/-- A member of the processed node list resolves through the id table to its
position, whose decoded job carries the same id. -/
theorem jmap_lookup_mem {st0 : Store} {jm : List (Option String × Nat)}
    {rs : List Nat} (hjm : JmapOK st0 jm rs) {c : Nat} (hc : c ∈ rs) :
    ∃ i, ∃ hi : i < rs.length, rs.get ⟨i, hi⟩ = c
      ∧ dget jm ((st0.getJob c).id) = some i := by
  obtain ⟨⟨i, hi⟩, hget⟩ := List.mem_iff_get.1 hc
  have h1 := hjm i hi
  rw [hget] at h1
  exact ⟨i, hi, hget, h1⟩

theorem decoded_id_of_lookup (st0 st1 : Store) {JD : List JobE}
    {rs : List Nat} {jm : List (Option String × Nat)}
    (hjobs : st1.jobs = JD) (hlen : JD.length = rs.length)
    (hdec : JobsDecoded st0 st1 JD rs) (hjm : JmapOK st0 jm rs)
    {c ci : Nat} (hc : c ∈ rs)
    (hlk : dget jm ((st0.getJob c).id) = some ci) :
    ci < rs.length ∧ (st1.getJob ci).id = (st0.getJob c).id := by
  obtain ⟨i, hi, hget, h1⟩ := jmap_lookup_mem hjm hc
  have hci : ci = i := by
    rw [h1] at hlk
    exact (Option.some.injEq _ _ ▸ hlk).symm
  subst hci
  refine ⟨hi, ?_⟩
  have hci2 : ci < JD.length := by omega
  have := (hdec ci hi hci2).1
  rw [hget] at this
  unfold Store.getJob
  rw [hjobs, getD_eq_get JD ci hci2]
  exact this

/-- **C1** (amended).  `parseString(writeXML(graph))` reproduces the
workflow-graph structure the claim enumerates — node ids in graph order,
argument sequences, use overrides, and dependency edges with labels — for
every graph in which each node has an id, ids are pairwise distinct, every
literal argument token is a single whitespace-free word free of quote and
backslash characters (the only non-whitespace characters `shlex.split`'s
POSIX lexer treats specially: `argTokenOK`), each use override is either a
nonempty string (ASCII lowercase for the attributes the encoder pipes
through `lower()`) or unset with a falsy fallback, dag/dax nodes carry no
profiles, each dependency has a nonempty parent list and a child drawn from
the graph's nodes, dependency children are pairwise distinct, and all
parent references are graph nodes.  (Without the tokenization proviso the
claim is false: argument text is re-split on whitespace by `shlex.split`,
see the counterexample; a quoted token would be rewritten or abort the
parse with `ValueError`, and a non-ASCII uppercase override would be
lower-cased by the encoder, so those lie outside the amended claim too.) -/
theorem C1_sig_round_trip (st0 : Store) (a0 : ADAG) (evs : List XEvent)
    (henc : ADAG.toEvents st0 a0 = .ok evs)
    (hnode : ∀ r ∈ a0.jobs, NodeOK st0 (st0.getJob r))
    (hnd : (a0.jobs.map (fun r => (st0.getJob r).id)).Nodup)
    (hdep : ∀ d ∈ a0.dependencies, (∃ c, d.child = some c ∧ c ∈ a0.jobs)
      ∧ d.parents ≠ [] ∧ (∀ q ∈ d.parents, q.1 ∈ a0.jobs))
    (hdnd : List.Pairwise (fun d1 d2 => d1.child ≠ d2.child)
      a0.dependencies) :
    ∃ st1 a1, parseEvents evs = .ok (st1, some a1)
      ∧ graphSig st1 a1 = graphSig st0 a0 := by
  rcases hA : adagAttrs a0 with eA | attrs0
  · unfold ADAG.toEvents at henc
    rw [hA] at henc
    simp only [Bind.bind, Except.bind] at henc
    cases henc
  · rcases hD : a0.dependencies.mapM (Dep.toEvents st0) with eD | depE
    · unfold ADAG.toEvents at henc
      rw [hA, hD] at henc
      simp only [Bind.bind, Except.bind] at henc
      cases henc
    have hevs : evs = [XEvent.start "adag" attrs0]
        ++ (a0.files.map (fun r => (st0.getFile r).toEvents st0)).flatten
        ++ (a0.executables.map (fun r => (st0.getFile r).toEvents st0)).flatten
        ++ (a0.transformations.map (fun r => (st0.getTrans r).toEvents st0)).flatten
        ++ (a0.jobs.map (fun r => (st0.getJob r).toEvents st0)).flatten
        ++ depE.flatten
        ++ [XEvent.stop "adag"] := by
      unfold ADAG.toEvents at henc
      rw [hA, hD] at henc
      simp only [Bind.bind, Except.bind] at henc
      cases henc
      rfl
    subst hevs
    have e1 := step_start_adag DAXHandler.init attrs0
    have rStart : runEvents DAXHandler.init [XEvent.start "adag" attrs0]
        = .ok _ := (runEvents_cons_ok [] e1).trans rfl
    obtain ⟨h2a, rF, csF⟩ := cat_section
      { DAXHandler.init with
          elements := ["adag"],
          adag := some (ADAG.init (aget attrs0 "name")
            (optPyV (aget attrs0 "count")) (optPyV (aget attrs0 "index"))) }
      (a0.files.map (fun r => (st0.getFile r).toEvents st0)) rfl ⟨_, rfl⟩
      (fun h' b hel' hadag' hb => by
        obtain ⟨r, hr, rfl⟩ := List.mem_map.1 hb
        obtain ⟨aX, haX⟩ := hadag'
        exact cat_block st0 h' (st0.getFile r) hel' haX)
    obtain ⟨h2b, rE, csE⟩ := cat_section h2a
      (a0.executables.map (fun r => (st0.getFile r).toEvents st0))
      csF.1 (adagJDS_some csF.2.2.2.2.2.2.2.1)
      (fun h' b hel' hadag' hb => by
        obtain ⟨r, hr, rfl⟩ := List.mem_map.1 hb
        obtain ⟨aX, haX⟩ := hadag'
        exact cat_block st0 h' (st0.getFile r) hel' haX)
    have csFE := catStep_trans csF csE
    obtain ⟨h2c, rT, csT⟩ := cat_section h2b
      (a0.transformations.map (fun r => (st0.getTrans r).toEvents st0))
      (csE.1.trans csF.1) (adagJDS_some csFE.2.2.2.2.2.2.2.1)
      (fun h' b hel' hadag' hb => by
        obtain ⟨r, hr, rfl⟩ := List.mem_map.1 hb
        obtain ⟨aX, haX⟩ := hadag'
        exact trans_block st0 h' (st0.getTrans r) hel' haX)
    have cs2 := catStep_trans csFE csT
    have hel2 : h2c.elements = ["adag"] := cs2.1
    have hjobs2 : h2c.store.jobs = [] := cs2.2.1.1.symm
    have hwf2 : FilemapWF h2c.store h2c.filemap :=
      cs2.2.2.2.2.2.2.2.2 (fun kv hkv => absurd hkv (List.not_mem_nil _))
    obtain ⟨a2, ha2⟩ := adagJDS_some cs2.2.2.2.2.2.2.2.1
    have hjds : adagJDS (some a2) = some (([] : List Nat), ([] : List Dep), 1) := by
      rw [← ha2]
      exact cs2.2.2.2.2.2.2.2.1
    simp only [adagJDS, Option.some.injEq, Prod.mk.injEq] at hjds
    obtain ⟨ha2j, ha2d, ha2s⟩ := hjds
    obtain ⟨h3, JD, rJ, hel3, hfe3, hwf3, hjobs3, hlen3, had3, hdec3, hjm3⟩ :=
      jobs_fold st0 a0.jobs [] h2c a2 [] hel2 ha2 hjobs2 rfl hwf2
        (fun i hi hj => absurd hi (by simp))
        (fun i hi => absurd hi (by simp))
        (fun p hp => absurd hp (List.not_mem_nil _))
        hnd hnode
    have hdec3' : JobsDecoded st0 h3.store JD a0.jobs := by
      simpa using hdec3
    have hjm3' : JmapOK st0 h3.jobmap a0.jobs := by
      simpa using hjm3
    have hlen3' : JD.length = a0.jobs.length := by
      simpa using hlen3
    simp only [List.length_nil] at had3
    rw [ha2j] at had3
    simp only [List.nil_append, ← List.range_eq_range'] at had3
    have hel3c : h3.elements = ["adag"] := hel3.trans hel2
    have hdepok : ∀ d ∈ a0.dependencies, ∃ c, d.child = some c
        ∧ (∃ s, (st0.getJob c).id = some s)
        ∧ (∃ ci, dget h3.jobmap ((st0.getJob c).id) = some ci)
        ∧ d.parents ≠ []
        ∧ (∀ q ∈ d.parents, (∃ s, (st0.getJob q.1).id = some s)
            ∧ ∃ pi, dget h3.jobmap ((st0.getJob q.1).id) = some pi) := by
      intro d hd
      obtain ⟨⟨c, hc, hcm⟩, hpne, hpar⟩ := hdep d hd
      refine ⟨c, hc, (hnode c hcm).1, ?_, hpne, ?_⟩
      · obtain ⟨i, hi, hget, hlk⟩ := jmap_lookup_mem hjm3' hcm
        exact ⟨i, hlk⟩
      · intro q hq
        refine ⟨(hnode q.1 (hpar q hq)).1, ?_⟩
        obtain ⟨i, hi, hget, hlk⟩ := jmap_lookup_mem hjm3' (hpar q hq)
        exact ⟨i, hlk⟩
    have hfr : ∀ d ∈ a0.dependencies,
        ∀ d' ∈ ({ a2 with jobs := List.range a0.jobs.length } : ADAG).dependencies,
        ∀ c ci, d.child = some c →
        dget h3.jobmap ((st0.getJob c).id) = some ci → d'.child ≠ some ci := by
      intro d hd d' hd' c ci hc hlk
      have : d' ∈ ([] : List Dep) := ha2d ▸ hd'
      exact absurd this (List.not_mem_nil _)
    have hpw : List.Pairwise (fun d1 d2 => ∀ c1 c2 ci1 ci2,
        d1.child = some c1 → d2.child = some c2 →
        dget h3.jobmap ((st0.getJob c1).id) = some ci1 →
        dget h3.jobmap ((st0.getJob c2).id) = some ci2 → ci1 ≠ ci2)
        a0.dependencies := by
      rw [List.pairwise_iff_get] at hdnd ⊢
      intro i j hij c1 c2 ci1 ci2 hc1 hc2 hl1 hl2 hcon
      have hm1 : c1 ∈ a0.jobs := by
        obtain ⟨⟨c', hc', hm'⟩, _, _⟩ :=
          hdep _ (List.get_mem a0.dependencies i.1 i.2)
        rw [hc1] at hc'
        cases hc'
        exact hm'
      have hm2 : c2 ∈ a0.jobs := by
        obtain ⟨⟨c', hc', hm'⟩, _, _⟩ :=
          hdep _ (List.get_mem a0.dependencies j.1 j.2)
        rw [hc2] at hc'
        cases hc'
        exact hm'
      obtain ⟨i1, hi1, hget1, hlk1⟩ := jmap_lookup_mem hjm3' hm1
      obtain ⟨i2, hi2, hget2, hlk2⟩ := jmap_lookup_mem hjm3' hm2
      have he1 : ci1 = i1 := by
        rw [hlk1] at hl1
        exact (Option.some.injEq _ _ ▸ hl1).symm
      have he2 : ci2 = i2 := by
        rw [hlk2] at hl2
        exact (Option.some.injEq _ _ ▸ hl2).symm
      have hii : i1 = i2 := by omega
      subst hii
      have hcc : c1 = c2 := hget1.symm.trans hget2
      exact hdnd i j hij (by rw [hc1, hc2, hcc])
    obtain ⟨h4, DL, rD, hel4, hst4, hjm4, hfm4, had4, hlenD, hfD⟩ :=
      deps_fold st0 a0.dependencies depE h3
        { a2 with jobs := List.range a0.jobs.length }
        hD hel3c had3 hdepok hfr hpw
    have had4' : h4.adag
        = some { a2 with
            jobs := List.range a0.jobs.length,
            dependencies := DL } := by
      rw [had4]
      simp [ha2d]
    have rStop : runEvents h4 [XEvent.stop "adag"]
        = .ok { h4 with elements := h4.elements.drop 1 } :=
      (runEvents_cons_ok [] (step_stop_other h4 "adag" (by simp))).trans rfl
    have rAll := runEvents_append_ok (runEvents_append_ok (runEvents_append_ok
      (runEvents_append_ok (runEvents_append_ok (runEvents_append_ok
        rStart rF) rE) rT) rJ) rD) rStop
    refine ⟨h4.store,
      { a2 with jobs := List.range a0.jobs.length, dependencies := DL },
      ?_, ?_⟩
    · unfold parseEvents
      rw [rAll]
      simp [Except.map, had4']
    · unfold graphSig
      simp only [Prod.mk.injEq]
      constructor
      · show List.map (nodeSig h4.store) (List.range a0.jobs.length)
            = List.map (nodeSig st0) a0.jobs
        rw [hst4]
        apply List.ext_get (by simp)
        intro i h1 h2
        rw [List.get_map, List.get_map, List.get_range]
        have hia : i < a0.jobs.length := by
          simpa using h2
        have hiJ : i < JD.length := by omega
        obtain ⟨g1, g2, g3⟩ := hdec3' i hia hiJ
        have hget : h3.store.getJob i = JD.get ⟨i, hiJ⟩ := by
          unfold Store.getJob
          rw [hjobs3, getD_eq_get JD i hiJ]
        unfold nodeSig
        rw [hget]
        exact NodeSig.mk.injEq _ _ _ _ _ _ ▸ ⟨g1, g2.1, g3.1⟩
      · show List.map (depSig h4.store) DL = List.map (depSig st0) a0.dependencies
        rw [hst4]
        apply List.ext_get (by simp [hlenD])
        intro i h1 h2
        rw [List.get_map, List.get_map]
        have hid2 : i < a0.dependencies.length := by
          simpa using h2
        have hiD : i < DL.length := by
          simpa using h1
        obtain ⟨f1, f2, f3⟩ := hfD i hid2 hiD
        obtain ⟨⟨c, hc, hcm⟩, hpne, hpar⟩ :=
          hdep _ (List.get_mem a0.dependencies i hid2)
        obtain ⟨ci, hDLc, hlk⟩ := f1 c hc
        unfold depSig
        simp only [DepSig.mk.injEq]
        constructor
        · rw [hc, hDLc]
          show (h3.store.getJob ci).id = (st0.getJob c).id
          exact (decoded_id_of_lookup st0 h3.store hjobs3 hlen3' hdec3' hjm3'
            hcm hlk).2
        · apply List.ext_get (by simpa using f2)
          intro k k1 k2
          rw [List.get_map, List.get_map]
          have hk : k < (a0.dependencies.get ⟨i, hid2⟩).parents.length := by
            simpa using k2
          have hk2 : k < (DL.get ⟨i, hiD⟩).parents.length := by
            simpa using k1
          obtain ⟨p1, p2⟩ := f3 k hk hk2
          have hpm := hpar _ (List.get_mem _ k hk)
          simp only [Prod.mk.injEq]
          refine ⟨?_, p2⟩
          exact (decoded_id_of_lookup st0 h3.store hjobs3 hlen3' hdec3' hjm3'
            hpm p1).2

/-- A one-job workflow whose only argument is the literal string `"a b"`. -/
def c1St : Store :=
  ⟨[], [⟨.job, "j", some "ID1", none, none, none, [.lit "a b"], [], [], [],
        none, none, none⟩], [], [], [], []⟩

def c1A : ADAG :=
  ⟨some "w", .pnone, .pnone, 1, [0], [], [], [], []⟩

/-- **C1, counterexample to the unamended claim.**  Encoding a job whose
argument list holds the single literal `"a b"` and decoding the result
yields a graph whose argument sequence is `["a", "b"]`: the decoder pipes
argument text through `shlex.split`, so the round trip is not structure
preserving in general. -/
theorem C1_argument_retokenized :
    ∃ evs st1 a1, ADAG.toEvents c1St c1A = .ok evs
      ∧ parseEvents evs = .ok (st1, some a1)
      ∧ graphSig st1 a1 ≠ graphSig c1St c1A := by
  refine ⟨_, _, _, rfl, rfl, by decide⟩

/-- A two-node workflow with a file argument, an explicit use and a labelled
dependency, inside the amended claim's side conditions. -/
def c1wSt : Store :=
  ⟨[⟨"f.a", .pnone, .pbool false, .pbool false, .pnone, false, none, none,
     none, none, none, none, none, [], [], []⟩],
   [⟨.job, "tr", some "ID1", none, none, none, [.lit "-i", .file 0], [],
     [⟨0, .pstr "input", .pnone, .pnone, .pnone⟩], [], none, none, none⟩,
    ⟨.job, "x", some "ID2", none, none, none, [], [], [], [], none, none,
     none⟩],
   [], [], [], []⟩

def c1wA : ADAG :=
  ⟨some "w", .pnone, .pnone, 1, [0, 1], [], [],
   [⟨some 1, [(0, some "e")]⟩], []⟩

def c1wEvs : List XEvent :=
  ((ADAG.toEvents c1wSt c1wA).toOption).getD []

theorem C1_sig_round_trip_witness :
    ADAG.toEvents c1wSt c1wA = .ok c1wEvs
    ∧ ∃ st1 a1, parseEvents c1wEvs = .ok (st1, some a1)
      ∧ graphSig st1 a1 = graphSig c1wSt c1wA :=
  ⟨rfl,
   C1_sig_round_trip c1wSt c1wA c1wEvs rfl
    (by
      intro r hr
      fin_cases hr
      · refine ⟨⟨"ID1", rfl⟩, ?_, ?_, fun hk => absurd rfl hk⟩
        · intro s hs
          simp [c1wSt, Store.getJob] at hs
          subst hs
          exact ⟨⟨by decide, by decide⟩, by decide⟩
        · intro u hu
          simp [c1wSt, Store.getJob] at hu
          subst hu
          exact ⟨Or.inl ⟨"input", rfl, by decide, by decide⟩,
            Or.inr ⟨rfl, rfl⟩, Or.inr ⟨rfl, rfl⟩, Or.inr ⟨rfl, rfl⟩⟩
      · refine ⟨⟨"ID2", rfl⟩, ?_, ?_, fun hk => absurd rfl hk⟩
        · intro s hs
          simp [c1wSt, Store.getJob] at hs
        · intro u hu
          simp [c1wSt, Store.getJob] at hu)
    (by decide)
    (by
      intro d hd
      simp [c1wA] at hd
      subst hd
      refine ⟨⟨1, rfl, by decide⟩, by decide, ?_⟩
      intro q hq
      simp at hq
      subst hq
      decide)
    (by decide)⟩

end DAX3
